import Mathlib

/-!
# The image-viewer GL widget `IvGL` (src/iv/ivgl.cpp)

A shallow embedding of the tile cache (`create_textures`, `update`,
`load_texture`), the view transform (`view`, `clamp_view_to_window`), the
input handlers (`wheelEvent`, `mouseMoveEvent`), the tile enumeration of
`paintGL`, the capability probe and pixel formats (`check_gl_extensions`,
`typespec_to_opengl`), the shaders (`create_shaders`, `useshader`, the
fragment shader) and the pixel view (`get_focus_image_pixel`, the patch of
`paint_pixelview`).

Conventions of the embedding:

* C++ `int` is `Int`; `/` and `%` on `int` are the truncating `Int.tdiv` and
  `Int.tmod`. Overflow and a float-to-int conversion outside the int range
  are undefined in C++: `int_range` and `paintGL_int_range` state that the
  values stay inside the range, and the theorems that compare the window of
  `paintGL` or the focus pixel with the mathematical value assume it.
* C++ `float` is `ℚ`: a float computation is read in exact arithmetic, except
  in `get_focus_image_pixel`, where the rounding of every float and double
  operation is a parameter (`FloatModel`). Division by a zero zoom is outside
  the model (the theorems that divide by the zoom assume it positive).
* Calls into OpenGL, the pixel source and the status bar do not change the
  modelled state; the ones the properties speak about are recorded in a
  trace of `GLCall` values.
* The built-ins `pow` (GLSL) and `powf` (C) are parameters of the functions
  that call them.
-/

/-- Imath `clamp (a, l, h)`: `(a < l) ? l : ((a > h) ? h : a)`. -/
def Imath_clamp (a l h : ℚ) : ℚ :=
  if a < l then l else if a > h then h else a

/-- The C++ conversion `(int) f` of a float: truncation toward zero. -/
def float_to_int (f : ℚ) : Int :=
  if 0 ≤ f then ⌊f⌋ else ⌈f⌉

/-- The value `v` is representable in a C++ `int` (32 bits): an `int`
operation or a float-to-int conversion with a result outside this range is
undefined. -/
def int_range (v : Int) : Prop :=
  -2147483648 ≤ v ∧ v ≤ 2147483647

instance (v : Int) : Decidable (int_range v) := by
  unfold int_range
  infer_instance

/-- The rounding of floating-point arithmetic: `to_float q` is the `float`
that an operation on floats with exact result `q` yields (also a conversion
to `float`), `to_double q` the `double` for an operation on doubles. -/
structure FloatModel where
  to_float : ℚ → ℚ
  to_double : ℚ → ℚ

/-- Exact arithmetic: no operation rounds. -/
def FloatModel.exact : FloatModel :=
  { to_float := fun q => q, to_double := fun q => q }

/-- The values of `TypeDesc::basetype` that `typespec_to_opengl` tells apart,
with `UNKNOWN` and `DOUBLE` standing for the ones its `default` case takes. -/
inductive BaseType where
  | UNKNOWN
  | UINT8
  | INT8
  | UINT16
  | INT16
  | UINT
  | INT
  | HALF
  | FLOAT
  | DOUBLE
deriving DecidableEq

/-- The values of `ImageSpec::linearity`; the widget only asks for `sRGB`. -/
inductive Linearity where
  | UnknownLinearity
  | Linear
  | GammaCorrected
  | sRGB
deriving DecidableEq

/-- The part of `ImageSpec` that the widget reads: data window, full
(display) window, channel count, pixel base type and linearity. -/
structure ImageSpec where
  x : Int
  y : Int
  width : Int
  height : Int
  full_x : Int
  full_y : Int
  full_width : Int
  full_height : Int
  nchannels : Int
  basetype : BaseType := BaseType.UINT8
  linearity : Linearity := Linearity.UnknownLinearity
deriving DecidableEq

/-- An `IvImage` as the widget sees it: its spec, its orientation tag, the
values of the `oriented_*` accessors (their code belongs to the image layer,
so their results are taken as given) and the display parameters `exposure`
and `gamma`. -/
structure IvImage where
  spec : ImageSpec
  image_valid : Bool
  orientation : Int
  oriented_x : Int
  oriented_y : Int
  oriented_width : Int
  oriented_height : Int
  oriented_full_x : Int
  oriented_full_y : Int
  oriented_full_width : Int
  oriented_full_height : Int
  exposure : ℚ := 0
  gamma : ℚ := 1
deriving DecidableEq

/-- One slot of the texture pool: the GL texture name and the tag
`(x, y, width, height)` of the image rectangle it holds. -/
structure TexBuffer where
  tex_object : Nat
  x : Int
  y : Int
  width : Int
  height : Int
deriving DecidableEq

/-- The calls to collaborators that the properties observe. -/
inductive GLCall where
  | glBindTexture (tex_object : Nat)
  | setValue (percent : Int)
  | copy_pixels (xbegin xend ybegin yend : Int)
  | glTexSubImage2D (width height : Int)
deriving DecidableEq

/-- Whether a recorded call is a `copy_pixels`. -/
def GLCall.is_copy_pixels : GLCall → Bool
  | .copy_pixels _ _ _ _ => true
  | _ => false

/-- The buttons `m_drag_button` can hold. -/
inductive MouseButton where
  | NoButton
  | LeftButton
  | RightButton
  | MidButton
deriving DecidableEq

/-- The mouse modes of the viewer's mode selector. -/
inductive MouseMode where
  | MouseModeZoom
  | MouseModePan
  | MouseModeWipe
  | MouseModeSelect
  | MouseModeAnnotate
deriving DecidableEq

/-- The calls an input handler makes on the viewer or on the widget's own
view functions. -/
inductive ViewerCall where
  | zoom (z : ℚ)
  | zoomIn
  | zoomOut
  | pan (dx dy : ℚ)
deriving DecidableEq

/-- The arguments one iteration of the tile loop of `paintGL` passes to
`load_texture` (the rectangle and `percent`) and to `gl_rect` (the rectangle
and the texture coordinates). -/
structure TileDraw where
  xstart : Int
  ystart : Int
  tile_width : Int
  tile_height : Int
  percent : ℚ
  smin : ℚ
  tmin : ℚ
  smax : ℚ
  tmax : ℚ
deriving DecidableEq

/-- The image pixels of the quad `gl_rect (xstart, ystart, xstart+tile_width,
ystart+tile_height, ...)`: pixel `(px, py)` stands for the unit square with
that lower corner. -/
def TileDraw.covers (t : TileDraw) (px py : Int) : Prop :=
  t.xstart ≤ px ∧ px < t.xstart + t.tile_width ∧ t.ystart ≤ py ∧ py < t.ystart + t.tile_height

instance (t : TileDraw) (px py : Int) : Decidable (t.covers px py) := by
  unfold TileDraw.covers
  infer_instance

/-- Two draws share no pixel: the quads overlap in no more than an edge. -/
def TileDraw_disjoint (a b : TileDraw) : Prop :=
  ∀ px py : Int, ¬ (a.covers px py ∧ b.covers px py)

/-- The range `[xbegin, xend) × [ybegin, yend)` of `paintGL`. -/
structure TileRange where
  xbegin : Int
  ybegin : Int
  xend : Int
  yend : Int
deriving DecidableEq

/-- Whether pixel `(px, py)` lies in a range. -/
def TileRange.contains (r : TileRange) (px py : Int) : Prop :=
  r.xbegin ≤ px ∧ px < r.xend ∧ r.ybegin ≤ py ∧ py < r.yend

instance (r : TileRange) (px py : Int) : Decidable (r.contains px py) := by
  unfold TileRange.contains
  infer_instance

/-- Whether pixel `(px, py)` lies in the data window of an image. -/
def ImageSpec.in_image (spec : ImageSpec) (px py : Int) : Prop :=
  spec.x ≤ px ∧ px < spec.x + spec.width ∧ spec.y ≤ py ∧ py < spec.y + spec.height

/-- The members of `IvGL` that the modelled functions read or write;
`width` and `height` are the widget's window size (`width()`, `height()`). -/
structure IvGL where
  m_shaders_created : Bool
  m_tex_created : Bool
  m_use_halffloat : Bool
  m_use_float : Bool
  m_use_srgb : Bool
  m_shaders_using_extensions : Bool
  m_shader_program : Nat
  m_texbufs : List TexBuffer
  m_last_texbuf_used : Nat
  m_use_shaders : Bool
  m_use_pbo : Bool
  m_last_pbo_used : Nat
  m_texture_width : Int
  m_texture_height : Int
  m_max_texture_size : Int
  m_zoom : ℚ
  m_centerx : ℚ
  m_centery : ℚ
  m_current_image : Option IvImage
  m_mousex : Int
  m_mousey : Int
  m_drag_button : MouseButton
  m_dragging : Bool
  width : Int
  height : Int
deriving DecidableEq

namespace IvGL

/-- The state the constructor `IvGL::IvGL` leaves (window size given;
`m_shader_program`, which the constructor leaves unset, is 0). -/
def init (w h : Int) : IvGL :=
  { m_shaders_created := false, m_use_halffloat := false, m_use_float := false,
    m_use_srgb := false, m_shaders_using_extensions := false, m_shader_program := 0,
    m_tex_created := false, m_texbufs := [], m_last_texbuf_used := 0,
    m_use_shaders := false, m_use_pbo := false, m_last_pbo_used := 0,
    m_texture_width := 1, m_texture_height := 1, m_max_texture_size := 0,
    m_zoom := 1, m_centerx := 0, m_centery := 0, m_current_image := none,
    m_mousex := 0, m_mousey := 0, m_drag_button := MouseButton.NoButton,
    m_dragging := false, width := w, height := h }

/-- `const int total_texbufs = 4;` in `create_textures`. -/
def total_texbufs : Nat := 4

/-- `IvGL::create_textures`: nothing when already created; else four slots
are pushed, slot `i` with the texture name `textures i` that `glGenTextures`
returned and the empty tag `(0, 0, 0, 0)`. -/
def create_textures (s : IvGL) (textures : Nat → Nat) : IvGL :=
  if s.m_tex_created then s
  else
    { s with
      m_texbufs := s.m_texbufs ++ (List.range total_texbufs).map
        (fun i => { tex_object := textures i, x := 0, y := 0, width := 0, height := 0 }),
      m_tex_created := true }

/-- Doubling search used by `pow2roundup`. -/
def pow2roundup_loop : Nat → Nat → Nat → Nat
  | 0, p, _ => p
  | fuel + 1, p, x => if x ≤ p then p else pow2roundup_loop fuel (2 * p) x

/-- Modelled from the spec: `pow2roundup` (declared in fmath.h, whose code is
not among the sources at hand) is the smallest power of two that is at least
its argument. -/
def pow2roundup (x : Int) : Int :=
  (pow2roundup_loop x.toNat 1 x.toNat : Nat)

/-- `IvGL::update`, with `cur` the result of `m_viewer.cur()`: no change
without an image; else the tile size is re-derived, every slot's `width` and
`height` are zeroed, and the image becomes the current one. -/
def update (s : IvGL) (cur : Option IvImage) : IvGL :=
  match cur with
  | none => s
  | some img =>
    { s with
      m_texture_width := min (pow2roundup img.spec.width) s.m_max_texture_size,
      m_texture_height := min (pow2roundup img.spec.height) s.m_max_texture_size,
      m_texbufs := s.m_texbufs.map (fun tb => { tb with width := 0, height := 0 }),
      m_current_image := some img }

/-- The test of the lookup loop of `load_texture`:
`tb.x == x && tb.y == y && tb.width == width && tb.height == height`. -/
def tag_matches (x y width height : Int) (tb : TexBuffer) : Bool :=
  tb.x == x && tb.y == y && tb.width == width && tb.height == height

/-- The four assignments `tb.x = x; tb.y = y; tb.width = width;
tb.height = height;` of `load_texture`. -/
def retag (x y width height : Int) (tb : TexBuffer) : TexBuffer :=
  { tb with x := x, y := y, width := width, height := height }

/-- `IvGL::load_texture`. `map_ok` tells whether `glMapBufferARB` returns a
non-null buffer (it is consulted only on the shader path with PBOs). The
result is the new state and the trace of observed calls.

The slot access `m_texbufs[m_last_texbuf_used]` is defined in C++ only when
the cursor is inside the pool; the theorems assume it. -/
def load_texture (s : IvGL) (x y width height : Int) (percent : ℚ) (map_ok : Bool) :
    IvGL × List GLCall :=
  match s.m_texbufs.find? (tag_matches x y width height) with
  | some tb => (s, [GLCall.glBindTexture tb.tex_object])
  | none =>
    let progress := [GLCall.setValue (float_to_int (percent * 100))]
    let i := s.m_last_texbuf_used
    let s1 := { s with m_texbufs := List.modify (retag x y width height) i s.m_texbufs }
    let tex := (s.m_texbufs.getD i { tex_object := 0, x := 0, y := 0, width := 0, height := 0 }).tex_object
    let upload := [GLCall.glBindTexture tex, GLCall.glTexSubImage2D width height]
    let next := (s.m_last_texbuf_used + 1) % s.m_texbufs.length
    if s.m_use_shaders then
      if s.m_use_pbo then
        if map_ok then
          ({ s1 with m_last_pbo_used := (s.m_last_pbo_used + 1) % 2, m_last_texbuf_used := next },
            progress ++ [GLCall.copy_pixels x (x + width) y (y + height)] ++ upload)
        else (s1, progress)
      else
        ({ s1 with m_last_texbuf_used := next },
          progress ++ [GLCall.copy_pixels x (x + width) y (y + height)] ++ upload)
    else
      ({ s1 with m_last_texbuf_used := next }, progress ++ upload)

/-- One call of `load_texture` as a value: the rectangle, the progress
fraction and the outcome of the buffer mapping. -/
structure LoadRequest where
  x : Int
  y : Int
  width : Int
  height : Int
  percent : ℚ
  map_ok : Bool

/-- The state after one `load_texture` call. -/
def load_step (s : IvGL) (r : LoadRequest) : IvGL :=
  (s.load_texture r.x r.y r.width r.height r.percent r.map_ok).1

/-- The state after a sequence of `load_texture` calls, in order. -/
def load_textures (s : IvGL) : List LoadRequest → IvGL
  | [] => s
  | r :: rs => load_textures (s.load_step r) rs

/-- Whether the lookup loop of `load_texture` finds no slot with this tag. -/
def is_miss (s : IvGL) (x y width height : Int) : Bool :=
  (s.m_texbufs.find? (tag_matches x y width height)).isNone

/-- Whether the upload of a miss runs to the end: only the shader path with
PBOs can leave early, when the buffer cannot be mapped. -/
def upload_succeeds (s : IvGL) (map_ok : Bool) : Bool :=
  !(s.m_use_shaders && s.m_use_pbo) || map_ok

/-- The number of misses in a sequence of `load_texture` calls. -/
def count_misses (s : IvGL) : List LoadRequest → Nat
  | [] => 0
  | r :: rs =>
    (if s.is_miss r.x r.y r.width r.height then 1 else 0) + count_misses (s.load_step r) rs

/-- `IvGL::clamp_view_to_window`. -/
def clamp_view_to_window (s : IvGL) : IvGL :=
  match s.m_current_image with
  | none => s
  | some img =>
    let w := s.width
    let h := s.height
    let zoomedwidth : ℚ := s.m_zoom * img.oriented_full_width
    let zoomedheight : ℚ := s.m_zoom * img.oriented_full_height
    let xmin : Int := min img.oriented_x img.oriented_full_x
    let xmax : Int := max (img.oriented_x + img.oriented_width)
      (img.oriented_full_x + img.oriented_full_width)
    let ymin : Int := min img.oriented_y img.oriented_full_y
    let ymax : Int := max (img.oriented_y + img.oriented_height)
      (img.oriented_full_y + img.oriented_full_height)
    let centerx : ℚ :=
      if zoomedwidth ≥ w then
        Imath_clamp s.m_centerx (xmin + 0.5 * w / s.m_zoom) (xmax - 0.5 * w / s.m_zoom)
      else ((img.oriented_full_x + Int.tdiv img.oriented_full_width 2 : Int) : ℚ)
    let centery : ℚ :=
      if zoomedheight ≥ h then
        Imath_clamp s.m_centery (ymin + 0.5 * h / s.m_zoom) (ymax - 0.5 * h / s.m_zoom)
      else ((img.oriented_full_y + Int.tdiv img.oriented_full_height 2 : Int) : ℚ)
    { s with m_centerx := centerx, m_centery := centery }

/-- `IvGL::view`, with `cur` the result of `m_viewer.cur()`. The second
component tells whether `trigger_redraw` was called. -/
def view (s : IvGL) (cur : Option IvImage) (xcenter ycenter zoom : ℚ) (redraw : Bool) :
    IvGL × Bool :=
  let s1 := { s with m_centerx := xcenter, m_centery := ycenter, m_zoom := zoom }
  let s2 := if cur.isSome then s1.clamp_view_to_window else s1
  (s2, redraw)

/-- `IvGL::remember_mouse`. -/
def remember_mouse (s : IvGL) (pos_x pos_y : Int) : IvGL :=
  { s with m_mousex := pos_x, m_mousey := pos_y }

/-- `IvGL::wheelEvent`: `vertical` is `event->orientation() == Qt::Vertical`,
`delta` is `event->delta()`, `alt` the Alt modifier and `viewer_zoom` the
result of `m_viewer.zoom()`. The result lists the calls made on the viewer. -/
def wheelEvent (vertical : Bool) (delta : Int) (alt : Bool) (viewer_zoom : ℚ) :
    List ViewerCall :=
  if vertical then
    let degrees : Int := Int.tdiv delta 8
    if true || alt then
      let z : ℚ := viewer_zoom
      let z : ℚ := z * (1.0 + 0.005 * degrees)
      let z : ℚ := Imath_clamp z 0.01 256.0
      [ViewerCall.zoom z]
    else if degrees > 5 then [ViewerCall.zoomIn]
    else if degrees < -5 then [ViewerCall.zoomOut]
    else []
  else []

/-- The mode switch of `mouseMoveEvent`: the flags `(do_pan, do_zoom)` (the
flags of the unimplemented wipe, select and annotate drags have no effect
and are left out). -/
def mouseMoveEvent_flags (mousemode : MouseMode) (drag_button : MouseButton) (alt : Bool) :
    Bool × Bool :=
  match mousemode with
  | MouseMode.MouseModeZoom =>
    if drag_button == MouseButton.MidButton ||
        (drag_button == MouseButton.LeftButton && alt) then (true, false)
    else if drag_button == MouseButton.RightButton && alt then (false, true)
    else (false, false)
  | MouseMode.MouseModePan =>
    if drag_button != MouseButton.NoButton then (true, false) else (false, false)
  | MouseMode.MouseModeWipe => (false, false)
  | MouseMode.MouseModeSelect => (false, false)
  | MouseMode.MouseModeAnnotate => (false, false)

/-- `IvGL::mouseMoveEvent`: `mousemode` is the mode selector's current entry,
`alt` the Alt modifier, `(pos_x, pos_y)` the event position and `viewer_zoom`
the result of `m_viewer.zoom()`. The result is the state with the mouse
position remembered and the calls made (`pan` is the widget's own `pan`). -/
def mouseMoveEvent (s : IvGL) (mousemode : MouseMode) (alt : Bool) (pos_x pos_y : Int)
    (viewer_zoom : ℚ) : IvGL × List ViewerCall :=
  let flags := mouseMoveEvent_flags mousemode s.m_drag_button alt
  let calls : List ViewerCall :=
    if flags.1 then
      let dx : ℚ := ((pos_x - s.m_mousex : Int) : ℚ) / s.m_zoom
      let dy : ℚ := ((pos_y - s.m_mousey : Int) : ℚ) / s.m_zoom
      [ViewerCall.pan (-dx) (-dy)]
    else if flags.2 then
      let dx : ℚ := ((pos_x - s.m_mousex : Int) : ℚ)
      let dy : ℚ := ((pos_y - s.m_mousey : Int) : ℚ)
      let z : ℚ := viewer_zoom * (1.0 + 0.005 * (dx + dy))
      let z : ℚ := Imath_clamp z 0.01 256.0
      [ViewerCall.zoom z]
    else []
  (s.remember_mouse pos_x pos_y, calls)

/-- The orientation switch of `paintGL`: the centre `(real_centerx,
real_centery)` for an orientation code. -/
def paintGL_real_center (orientation : Int) (spec : ImageSpec) (centerx centery : ℚ) :
    ℚ × ℚ :=
  if orientation = 2 then (spec.width - centerx, centery)
  else if orientation = 3 then (spec.width - centerx, spec.height - centery)
  else if orientation = 4 then (centerx, spec.height - centery)
  else if orientation = 5 then (centery, centerx)
  else if orientation = 6 then (centery, spec.height - centerx)
  else if orientation = 7 then (spec.width - centery, spec.height - centerx)
  else if orientation = 8 then (spec.width - centery, centerx)
  else (centerx, centery)

/-- The pair `(wincenterx, wincentery)` of `paintGL`: the image pixels from
the centre to the edge of the window, swapped for orientations above 4. The
conversion `(int) ceil (...)` is defined in C++ only for a value inside the
int range (see `paintGL_int_range`). -/
def paintGL_wincenter (s : IvGL) (orientation : Int) : Int × Int :=
  let wincenterx : Int := ⌈(s.width : ℚ) / (2 * s.m_zoom)⌉
  let wincentery : Int := ⌈(s.height : ℚ) / (2 * s.m_zoom)⌉
  if orientation > 4 then (wincentery, wincenterx) else (wincenterx, wincentery)

/-- The window `[floor(cx) - wincenterx, floor(cx) + wincenterx) ×
[floor(cy) - wincentery, floor(cy) + wincentery)` that `paintGL` starts
from, before snapping and clamping. -/
def paintGL_window (s : IvGL) (img : IvImage) : TileRange :=
  let rc := paintGL_real_center img.orientation img.spec s.m_centerx s.m_centery
  let wc := s.paintGL_wincenter img.orientation
  { xbegin := ⌊rc.1⌋ - wc.1, ybegin := ⌊rc.2⌋ - wc.2,
    xend := ⌊rc.1⌋ + wc.1, yend := ⌊rc.2⌋ + wc.2 }

/-- The values of `xbegin`, `ybegin`, `xend`, `yend` that `paintGL` iterates
over. -/
def paintGL_range (s : IvGL) (img : IvImage) : TileRange :=
  let win := s.paintGL_window img
  let xbegin := win.xbegin
  let xbegin := max img.spec.x (xbegin - Int.tmod xbegin s.m_texture_width)
  let ybegin := win.ybegin
  let ybegin := max img.spec.y (ybegin - Int.tmod ybegin s.m_texture_height)
  let xend := win.xend
  let xend := min (img.spec.x + img.spec.width)
    (xend + s.m_texture_width - Int.tmod xend s.m_texture_width)
  let yend := win.yend
  let yend := min (img.spec.y + img.spec.height)
    (yend + s.m_texture_height - Int.tmod yend s.m_texture_height)
  { xbegin := xbegin, ybegin := ybegin, xend := xend, yend := yend }

/-- The value of `total_tiles` in `paintGL`. -/
def paintGL_total_tiles (s : IvGL) (r : TileRange) : Int :=
  float_to_int ((⌈((r.xend - r.xbegin : Int) : ℚ) / s.m_texture_width⌉ : ℚ)
    * (⌈((r.yend - r.ybegin : Int) : ℚ) / s.m_texture_height⌉ : ℚ))

/-- Every `int` that `paintGL` computes on the way to its range and in the
tile loop is representable: the half extents `(int) ceil (...)`, `(int)
floor (real_centerx)` and `(int) floor (real_centery)`, the window edges,
the sums `xend + m_texture_width` and `yend + m_texture_height` of the
snapping and the snapped ends, the image ends `spec.x + spec.width` and
`spec.y + spec.height`, the extents `xend - xbegin` and `yend - ybegin` and
`total_tiles`, and the loop counters, which stay below `xend +
m_texture_width` and `yend + m_texture_height`. Outside this condition the
C++ behaviour is undefined. -/
def paintGL_int_range (s : IvGL) (img : IvImage) : Prop :=
  int_range (s.paintGL_wincenter img.orientation).1 ∧
  int_range (s.paintGL_wincenter img.orientation).2 ∧
  int_range ⌊(paintGL_real_center img.orientation img.spec s.m_centerx s.m_centery).1⌋ ∧
  int_range ⌊(paintGL_real_center img.orientation img.spec s.m_centerx s.m_centery).2⌋ ∧
  int_range (s.paintGL_window img).xbegin ∧ int_range (s.paintGL_window img).ybegin ∧
  int_range (s.paintGL_window img).xend ∧ int_range (s.paintGL_window img).yend ∧
  int_range ((s.paintGL_window img).xend + s.m_texture_width) ∧
  int_range ((s.paintGL_window img).yend + s.m_texture_height) ∧
  int_range ((s.paintGL_window img).xend + s.m_texture_width
    - Int.tmod (s.paintGL_window img).xend s.m_texture_width) ∧
  int_range ((s.paintGL_window img).yend + s.m_texture_height
    - Int.tmod (s.paintGL_window img).yend s.m_texture_height) ∧
  int_range (img.spec.x + img.spec.width) ∧ int_range (img.spec.y + img.spec.height) ∧
  int_range ((s.paintGL_range img).xend - (s.paintGL_range img).xbegin) ∧
  int_range ((s.paintGL_range img).yend - (s.paintGL_range img).ybegin) ∧
  int_range (s.paintGL_total_tiles (s.paintGL_range img)) ∧
  int_range ((s.paintGL_range img).xend + s.m_texture_width) ∧
  int_range ((s.paintGL_range img).yend + s.m_texture_height)

/-- The body of the tile loop of `paintGL` for one `(xstart, ystart)`: the
used size `tile_width`, `tile_height`, the texture coordinates `smax`,
`tmax` (`smin` and `tmin` stay 0) and the current `percent`. -/
def paintGL_draw (xend yend tw th xstart ystart : Int) (percent : ℚ) : TileDraw :=
  let tile_width := min (xend - xstart) tw
  let tile_height := min (yend - ystart) th
  { xstart := xstart, ystart := ystart, tile_width := tile_width,
    tile_height := tile_height, percent := percent, smin := 0, tmin := 0,
    smax := (tile_width : ℚ) / (tw : ℚ), tmax := (tile_height : ℚ) / (th : ℚ) }

/-- The inner loop `for (xstart = ...; xstart < xend; xstart += m_texture_width)`
of `paintGL`, at most `fuel` iterations: the draws of one row and the value
of `percent` after it, or `none` when the fuel does not reach the exit. -/
def paintGL_xloop (xend yend tw th : Int) (tile_advance : ℚ) (ystart : Int) :
    Nat → Int → ℚ → Option (List TileDraw × ℚ)
  | 0, xstart, percent => if xstart < xend then none else some ([], percent)
  | fuel + 1, xstart, percent =>
    if xstart < xend then
      let t : TileDraw := paintGL_draw xend yend tw th xstart ystart percent
      match paintGL_xloop xend yend tw th tile_advance ystart fuel (xstart + tw)
          (percent + tile_advance) with
      | some (ts, p) => some (t :: ts, p)
      | none => none
    else some ([], percent)

/-- The outer loop `for (ystart = ...; ystart < yend; ystart += m_texture_height)`
of `paintGL`, at most `rows` iterations, each row with `fuel` for its inner
loop. -/
def paintGL_yloop (xbegin xend yend tw th : Int) (tile_advance : ℚ) (fuel : Nat) :
    Nat → Int → ℚ → Option (List TileDraw)
  | 0, ystart, _ => if ystart < yend then none else some []
  | rows + 1, ystart, percent =>
    if ystart < yend then
      match paintGL_xloop xend yend tw th tile_advance ystart fuel xbegin percent with
      | none => none
      | some (row, p) =>
        match paintGL_yloop xbegin xend yend tw th tile_advance fuel rows (ystart + th) p with
        | none => none
        | some rest => some (row ++ rest)
    else some []

/-- The sequence of tile draws of `paintGL`, in the order of the loop:
nothing without a valid current image; `none` when `fuel` iterations per
loop do not reach the end. -/
def paintGL_tiles (s : IvGL) (fuel : Nat) : Option (List TileDraw) :=
  match s.m_current_image with
  | none => some []
  | some img =>
    if !img.image_valid then some []
    else
      let r := s.paintGL_range img
      let total_tiles := s.paintGL_total_tiles r
      let tile_advance : ℚ := 1 / (total_tiles : ℚ)
      paintGL_yloop r.xbegin r.xend r.yend s.m_texture_width s.m_texture_height
        tile_advance fuel fuel r.ybegin tile_advance

/-- A 5000 x 3000 three-channel image at the origin, in normal orientation. -/
def sample_image : IvImage :=
  { spec := { x := 0, y := 0, width := 5000, height := 3000, full_x := 0, full_y := 0,
              full_width := 5000, full_height := 3000, nchannels := 3 },
    image_valid := true, orientation := 1,
    oriented_x := 0, oriented_y := 0, oriented_width := 5000, oriented_height := 3000,
    oriented_full_x := 0, oriented_full_y := 0,
    oriented_full_width := 5000, oriented_full_height := 3000 }

/-- An 800 x 600 widget after `create_textures` (texture names 1 to 4), with
a texture limit of 2048. -/
def sample_widget : IvGL :=
  { (IvGL.init 800 600).create_textures (fun i => i + 1) with m_max_texture_size := 2048 }

/-- Four requests: three on distinct rectangles and, in third place, a
repeat of the first. -/
def sample_requests : List LoadRequest :=
  [ { x := 0, y := 0, width := 2048, height := 2048, percent := 1/4, map_ok := true },
    { x := 2048, y := 0, width := 2048, height := 2048, percent := 1/2, map_ok := true },
    { x := 0, y := 0, width := 2048, height := 2048, percent := 3/4, map_ok := true },
    { x := 4096, y := 0, width := 904, height := 2048, percent := 1, map_ok := true } ]

/-- A 5 x 3 image (odd full width and height) at the origin. -/
def odd_image : IvImage :=
  { spec := { x := 0, y := 0, width := 5, height := 3, full_x := 0, full_y := 0,
              full_width := 5, full_height := 3, nchannels := 3 },
    image_valid := true, orientation := 1,
    oriented_x := 0, oriented_y := 0, oriented_width := 5, oriented_height := 3,
    oriented_full_x := 0, oriented_full_y := 0,
    oriented_full_width := 5, oriented_full_height := 3 }

/-- The sample widget showing `odd_image` at zoom 1: the 800 x 600 window is
larger than the image on both axes. -/
def odd_widget : IvGL :=
  sample_widget.update (some odd_image)

/-- The sample widget showing `sample_image`, centred on it at zoom 1. -/
def sample_view : IvGL :=
  { sample_widget.update (some sample_image) with m_centerx := 2500, m_centery := 1500 }

/-- An 800 x 600 image spec at the origin. -/
def spec_800x600 : ImageSpec :=
  { x := 0, y := 0, width := 800, height := 600, full_x := 0, full_y := 0,
    full_width := 800, full_height := 600, nchannels := 3 }

/-- The inverse orientation code as the specification tabulates it:
1->1, 2->2, 3->3, 4->4, 5->5, 6->8, 7->7, 8->6. -/
def orientation_inverse (k : Int) : Int :=
  if k = 6 then 8 else if k = 8 then 6 else k

/-- The spec of the image as displayed after a quarter turn: width and
height (and the origin coordinates) exchanged. -/
def ImageSpec_transposed (spec : ImageSpec) : ImageSpec :=
  { x := spec.y, y := spec.x, width := spec.height, height := spec.width,
    full_x := spec.full_y, full_y := spec.full_x,
    full_width := spec.full_height, full_height := spec.full_width,
    nchannels := spec.nchannels }

/-- The centre mapping of `paintGL` for code `k` on `spec`, followed by the
mapping for the inverse code on `spec_back`. -/
def orientation_round_trip (k : Int) (spec spec_back : ImageSpec) (cx cy : ℚ) : ℚ × ℚ :=
  paintGL_real_center (orientation_inverse k) spec_back
    (paintGL_real_center k spec cx cy).1 (paintGL_real_center k spec cx cy).2

end IvGL

/-! ## Capabilities, pixel formats, shaders and the pixel view -/

/-- The answers of `glewIsSupported` to the queries of `check_gl_extensions`
(the three ARB shader extensions are asked for in one query). -/
structure GlewSupport where
  GL_VERSION_2_0 : Bool
  GL_ARB_shader_objects_vertex_fragment : Bool
  GL_VERSION_2_1 : Bool
  GL_EXT_texture_sRGB : Bool
  GL_VERSION_3_0 : Bool
  GL_ARB_half_float_pixel : Bool
  GL_NV_half_float_pixel : Bool
  GL_ARB_texture_float : Bool
  GL_ATI_texture_float : Bool
  GL_VERSION_1_5 : Bool
  GL_ARB_pixel_buffer_object : Bool

/-- The `GLenum` values `typespec_to_opengl` can return; `components n` is a
plain channel count used as internal format (`glinternalformat =
spec.nchannels`). -/
inductive GLenum where
  | GL_INVALID_ENUM
  | GL_FLOAT
  | GL_HALF_FLOAT_ARB
  | GL_INT
  | GL_UNSIGNED_INT
  | GL_SHORT
  | GL_UNSIGNED_SHORT
  | GL_BYTE
  | GL_UNSIGNED_BYTE
  | components (n : Int)
  | GL_LUMINANCE
  | GL_SLUMINANCE8
  | GL_SLUMINANCE
  | GL_LUMINANCE8
  | GL_LUMINANCE16
  | GL_LUMINANCE32F_ARB
  | GL_LUMINANCE16F_ARB
  | GL_LUMINANCE_ALPHA
  | GL_SLUMINANCE8_ALPHA8
  | GL_SLUMINANCE_ALPHA
  | GL_LUMINANCE8_ALPHA8
  | GL_LUMINANCE16_ALPHA16
  | GL_LUMINANCE_ALPHA32F_ARB
  | GL_LUMINANCE_ALPHA16F_ARB
  | GL_RGB
  | GL_SRGB8
  | GL_SRGB
  | GL_RGB8
  | GL_RGB16
  | GL_RGB32F_ARB
  | GL_RGB16F_ARB
  | GL_RGBA
  | GL_SRGB8_ALPHA8
  | GL_SRGB_ALPHA
  | GL_RGBA8
  | GL_RGBA16
  | GL_RGBA32F_ARB
  | GL_RGBA16F_ARB
deriving DecidableEq

/-- The three outputs of `typespec_to_opengl`. -/
structure GLFormat where
  gltype : GLenum
  glformat : GLenum
  glinternalformat : GLenum
deriving DecidableEq

/-- GLSL `vec2`. -/
structure vec2 where
  x : ℚ
  y : ℚ
deriving DecidableEq

/-- GLSL `vec4`; the alpha component `a` is `w`. -/
structure vec4 where
  x : ℚ
  y : ℚ
  z : ℚ
  w : ℚ
deriving DecidableEq

/-- The uniforms of the fragment shader (the sampler `imgtex` apart). -/
structure ShaderUniforms where
  gain : ℚ
  gamma : ℚ
  channelview : Int
  imgchannels : Int
  pixelview : Int
  linearinterp : Int
  width : Int
  height : Int
deriving DecidableEq

/-- What `create_shaders` writes to the error stream. -/
inductive ShaderLog where
  | not_using_shaders
  | vertex_compile_failed
  | fragment_compile_failed
  | not_linked
deriving DecidableEq

/-- What a call of `useshader` leaves bound: nothing touched (no image), the
fixed-function branch (texture filters set to linear or nearest), or the
shader program with its uniforms. -/
inductive ShaderBinding where
  | untouched
  | fixed_function (linear : Bool)
  | program (program : Nat) (uniforms : ShaderUniforms)
deriving DecidableEq

/-- GLSL `mix (x, y, a)`: `x * (1 - a) + y * a` on each component. -/
def glsl_mix (x y : vec4) (a : ℚ) : vec4 :=
  { x := x.x * (1 - a) + y.x * a, y := x.y * (1 - a) + y.y * a,
    z := x.z * (1 - a) + y.z * a, w := x.w * (1 - a) + y.w * a }

/-- Imath `lerp (a, b, t)` on floats: `a * (1 - t) + b * t`, every operation
rounded to `float`. -/
def Imath_lerp (fm : FloatModel) (a b t : ℚ) : ℚ :=
  fm.to_float (fm.to_float (a * fm.to_float (1 - t)) + fm.to_float (b * t))

/-- A power function that is exact for exponents that are natural numbers
(the exponent is rounded down otherwise); it stands for GLSL `pow` and C
`powf` in the examples, which only use the exponents 0 and 1. -/
def pow_natural (x y : ℚ) : ℚ :=
  x ^ (⌊y⌋).toNat

/-- A slot whose tag has non-zero width and height. -/
def TexBuffer.populated (tb : TexBuffer) : Prop :=
  tb.width ≠ 0 ∧ tb.height ≠ 0

/-- Two slots carry the same `(x, y, width, height)` tag. -/
def TexBuffer.same_tag (a b : TexBuffer) : Prop :=
  a.x = b.x ∧ a.y = b.y ∧ a.width = b.width ∧ a.height = b.height

namespace IvGL

/-- `IvGL::check_gl_extensions` (built without `FORCE_OPENGL_1`):
`gl_max_texture_size` is the value `glGetIntegerv (GL_MAX_TEXTURE_SIZE)`
reports. -/
def check_gl_extensions (s : IvGL) (glew : GlewSupport) (gl_max_texture_size : Int) : IvGL :=
  let by_extension : Bool := !glew.GL_VERSION_2_0 && glew.GL_ARB_shader_objects_vertex_fragment
  { s with
    m_use_shaders := glew.GL_VERSION_2_0 || by_extension,
    m_shaders_using_extensions := s.m_shaders_using_extensions || by_extension,
    m_use_srgb := glew.GL_VERSION_2_1 || glew.GL_EXT_texture_sRGB,
    m_use_halffloat := glew.GL_VERSION_3_0 || glew.GL_ARB_half_float_pixel || glew.GL_NV_half_float_pixel,
    m_use_float := glew.GL_VERSION_3_0 || glew.GL_ARB_texture_float || glew.GL_ATI_texture_float,
    m_use_pbo := glew.GL_VERSION_1_5 || glew.GL_ARB_pixel_buffer_object,
    m_max_texture_size := min gl_max_texture_size 4096 }

/-- The `switch (spec.format.basetype)` of `typespec_to_opengl`. -/
def typespec_gltype (s : IvGL) (basetype : BaseType) : GLenum :=
  match basetype with
  | BaseType.FLOAT => GLenum.GL_FLOAT
  | BaseType.HALF => if s.m_use_halffloat then GLenum.GL_HALF_FLOAT_ARB else GLenum.GL_INVALID_ENUM
  | BaseType.INT => GLenum.GL_INT
  | BaseType.UINT => GLenum.GL_UNSIGNED_INT
  | BaseType.INT16 => GLenum.GL_SHORT
  | BaseType.UINT16 => GLenum.GL_UNSIGNED_SHORT
  | BaseType.INT8 => GLenum.GL_BYTE
  | BaseType.UINT8 => GLenum.GL_UNSIGNED_BYTE
  | BaseType.UNKNOWN => GLenum.GL_UNSIGNED_BYTE
  | BaseType.DOUBLE => GLenum.GL_UNSIGNED_BYTE

/-- The choice of the internal format inside one channel-count branch of
`typespec_to_opengl`: the sRGB formats first, then the sized formats by base
type, else the channel count itself. -/
def typespec_internalformat (s : IvGL) (spec : ImageSpec)
    (srgb8 srgb sized8 sized16 sized32f sized16f : GLenum) : GLenum :=
  if s.m_use_srgb && spec.linearity == Linearity.sRGB then
    if spec.basetype == BaseType.UINT8 then srgb8 else srgb
  else if spec.basetype == BaseType.UINT8 then sized8
  else if spec.basetype == BaseType.UINT16 then sized16
  else if s.m_use_float && spec.basetype == BaseType.FLOAT then sized32f
  else if s.m_use_float && spec.basetype == BaseType.HALF then sized16f
  else GLenum.components spec.nchannels

/-- `IvGL::typespec_to_opengl`: every path assigns the three outputs, so they
are returned as a record. -/
def typespec_to_opengl (s : IvGL) (spec : ImageSpec) : GLFormat :=
  let gltype := s.typespec_gltype spec.basetype
  if spec.nchannels = 1 then
    { gltype := gltype, glformat := GLenum.GL_LUMINANCE,
      glinternalformat := s.typespec_internalformat spec GLenum.GL_SLUMINANCE8
        GLenum.GL_SLUMINANCE GLenum.GL_LUMINANCE8 GLenum.GL_LUMINANCE16
        GLenum.GL_LUMINANCE32F_ARB GLenum.GL_LUMINANCE16F_ARB }
  else if spec.nchannels = 2 then
    { gltype := gltype, glformat := GLenum.GL_LUMINANCE_ALPHA,
      glinternalformat := s.typespec_internalformat spec GLenum.GL_SLUMINANCE8_ALPHA8
        GLenum.GL_SLUMINANCE_ALPHA GLenum.GL_LUMINANCE8_ALPHA8 GLenum.GL_LUMINANCE16_ALPHA16
        GLenum.GL_LUMINANCE_ALPHA32F_ARB GLenum.GL_LUMINANCE_ALPHA16F_ARB }
  else if spec.nchannels = 3 then
    { gltype := gltype, glformat := GLenum.GL_RGB,
      glinternalformat := s.typespec_internalformat spec GLenum.GL_SRGB8
        GLenum.GL_SRGB GLenum.GL_RGB8 GLenum.GL_RGB16
        GLenum.GL_RGB32F_ARB GLenum.GL_RGB16F_ARB }
  else if spec.nchannels = 4 then
    { gltype := gltype, glformat := GLenum.GL_RGBA,
      glinternalformat := s.typespec_internalformat spec GLenum.GL_SRGB8_ALPHA8
        GLenum.GL_SRGB_ALPHA GLenum.GL_RGBA8 GLenum.GL_RGBA16
        GLenum.GL_RGBA32F_ARB GLenum.GL_RGBA16F_ARB }
  else
    { gltype := gltype, glformat := GLenum.GL_INVALID_ENUM,
      glinternalformat := GLenum.GL_INVALID_ENUM }

end IvGL

namespace IvGL

/-- The first part of `main ()` of the fragment shader: the texture
coordinate `st` that is sampled and the value of `black`. -/
def fragment_st (u : ShaderUniforms) (vTexCoord : vec2) : vec2 × ℚ :=
  let st : vec2 := vTexCoord
  if u.pixelview ≠ 0 ∨ u.linearinterp = 0 then
    let wh : vec2 := { x := (u.width : ℚ), y := (u.height : ℚ) }
    let onehalf : vec2 := { x := 0.5, y := 0.5 }
    let st_res : vec2 := { x := st.x * wh.x, y := st.y * wh.y }
    let st_pix : vec2 := { x := (⌊st_res.x⌋ : ℚ), y := (⌊st_res.y⌋ : ℚ) }
    let st_rem : vec2 := { x := st_res.x - st_pix.x, y := st_res.y - st_pix.y }
    let st : vec2 := { x := (st_pix.x + onehalf.x) / wh.x, y := (st_pix.y + onehalf.y) / wh.y }
    if u.pixelview ≠ 0 ∧ (st.x < 0.0 ∨ st.x ≥ 1.0 ∨ st.y < 0.0 ∨ st.y ≥ 1.0 ∨
        st_rem.x < 0.05 ∨ st_rem.x ≥ 0.95 ∨ st_rem.y < 0.05 ∨ st_rem.y ≥ 0.95) then
      (st, 1.0)
    else (st, 0.0)
  else (st, 0.0)

/-- The channel isolation of the fragment shader (the `channelview` chain). -/
def fragment_channelview (channelview : Int) (C : vec4) : vec4 :=
  if channelview = -1 then C
  else if channelview = 0 then { C with x := C.x, y := C.x, z := C.x }
  else if channelview = 1 then { C with x := C.y, y := C.y, z := C.y }
  else if channelview = 2 then { C with x := C.z, y := C.z, z := C.z }
  else if channelview = 3 then { C with x := C.w, y := C.w, z := C.w }
  else if channelview = -2 then
    let lum : ℚ := C.x * 0.2126 + C.y * 0.7152 + C.z * 0.0722
    { C with x := lum, y := lum, z := lum }
  else C

/-- The second part of `main ()` of the fragment shader, from the sample `C
= texture2D (imgtex, st)` to `gl_FragColor`, statement by statement. `pow`
is the GLSL built-in. -/
def fragment_color (pow : ℚ → ℚ → ℚ) (u : ShaderUniforms) (black : ℚ) (sample : vec4) : vec4 :=
  let C : vec4 := sample
  let C : vec4 := glsl_mix C { x := 0.05, y := 0.05, z := 0.05, w := 1.0 } black
  let C : vec4 := if u.pixelview ≠ 0 then { C with w := 1.0 } else C
  let C : vec4 := if u.imgchannels ≤ 2 then { C with x := C.x, y := C.x, z := C.x } else C
  let C : vec4 := fragment_channelview u.channelview C
  let C : vec4 := { C with x := C.x * u.gain, y := C.y * u.gain, z := C.z * u.gain }
  let invgamma : ℚ := 1.0 / u.gamma
  { C with x := pow C.x invgamma, y := pow C.y invgamma, z := pow C.z invgamma }

/-- The fragment shader `main ()`: `imgtex` is the texture as a function of
the coordinate, the result is `gl_FragColor`. -/
def fragment_main (pow : ℚ → ℚ → ℚ) (imgtex : vec2 → vec4) (u : ShaderUniforms)
    (vTexCoord : vec2) : vec4 :=
  fragment_color pow u (fragment_st u vTexCoord).2 (imgtex (fragment_st u vTexCoord).1)

/-- The colour algorithm in the order the specification lists it (steps 2
to 7): grid darkening, broadcast of the first channel for at most two
channels, channel isolation, gain, gamma, and last the alpha forced to 1 in
pixel-view mode. -/
def spec_shader_color (pow : ℚ → ℚ → ℚ) (u : ShaderUniforms) (black : ℚ) (sample : vec4) :
    vec4 :=
  let C : vec4 := glsl_mix sample { x := 0.05, y := 0.05, z := 0.05, w := 1.0 } black
  let C : vec4 := if u.imgchannels ≤ 2 then { C with x := C.x, y := C.x, z := C.x } else C
  let C : vec4 := fragment_channelview u.channelview C
  let C : vec4 := { C with x := C.x * u.gain, y := C.y * u.gain, z := C.z * u.gain }
  let C : vec4 := { C with x := pow C.x (1 / u.gamma), y := pow C.y (1 / u.gamma), z := pow C.z (1 / u.gamma) }
  if u.pixelview ≠ 0 then { C with w := 1 } else C

/-- `IvGL::create_shaders`: `program` is the name `glCreateProgram` returns,
`vertex_status`, `fragment_status` and `linked` are the compile and link
statuses the driver reports. The result is the new state and what was
logged. -/
def create_shaders (s : IvGL) (program : Nat) (vertex_status fragment_status linked : Bool) :
    IvGL × List ShaderLog :=
  if !s.m_use_shaders then (s, [ShaderLog.not_using_shaders])
  else if s.m_shaders_created then (s, [])
  else
    ({ s with m_shader_program := program, m_shaders_created := true },
      (if !vertex_status then [ShaderLog.vertex_compile_failed] else []) ++
      (if !fragment_status then [ShaderLog.fragment_compile_failed] else []) ++
      (if !linked then [ShaderLog.not_linked] else []))

/-- `IvGL::useshader`: `cur` is `m_viewer.cur()`, `current_channel` is
`m_viewer.current_channel ()`, `linearInterpolation` the viewer's toggle and
`pow` the C function `powf`. -/
def useshader (s : IvGL) (pow : ℚ → ℚ → ℚ) (cur : Option IvImage) (current_channel : Int)
    (linearInterpolation : Bool) (tex_width tex_height : Int) (pixelview : Bool) :
    ShaderBinding :=
  match cur with
  | none => ShaderBinding.untouched
  | some img =>
    if !s.m_use_shaders then ShaderBinding.fixed_function linearInterpolation
    else
      ShaderBinding.program s.m_shader_program
        { gain := pow 2.0 img.exposure, gamma := img.gamma, channelview := current_channel,
          imgchannels := img.spec.nchannels, pixelview := if pixelview then 1 else 0,
          linearinterp := if linearInterpolation then 1 else 0,
          width := tex_width, height := tex_height }

/-- The floats `(imgx, imgy)` of `IvGL::get_focus_image_pixel`, the position
of the mouse in pixel coordinates before the conversion to `int`. In
`m_centerx - 0.5 * w / z` the literal `0.5` is a double, so the product, the
quotient and the difference are double operations and the result is then
stored in the float `left`; `(float)(m_mousex + 0.5f) / w` and the `lerp`
are float operations. -/
def get_focus_image_position (s : IvGL) (fm : FloatModel) : ℚ × ℚ :=
  let w : Int := s.width
  let h : Int := s.height
  let z : ℚ := s.m_zoom
  let left : ℚ := fm.to_float (fm.to_double
    (s.m_centerx - fm.to_double (fm.to_double (0.5 * (w : ℚ)) / z)))
  let top : ℚ := fm.to_float (fm.to_double
    (s.m_centery - fm.to_double (fm.to_double (0.5 * (h : ℚ)) / z)))
  let right : ℚ := fm.to_float (fm.to_double
    (s.m_centerx + fm.to_double (fm.to_double (0.5 * (w : ℚ)) / z)))
  let bottom : ℚ := fm.to_float (fm.to_double
    (s.m_centery + fm.to_double (fm.to_double (0.5 * (h : ℚ)) / z)))
  let normx : ℚ := fm.to_float
    (fm.to_float (fm.to_float (s.m_mousex : ℚ) + 0.5) / fm.to_float (w : ℚ))
  let normy : ℚ := fm.to_float
    (fm.to_float (fm.to_float (s.m_mousey : ℚ) + 0.5) / fm.to_float (h : ℚ))
  let imgx : ℚ := Imath_lerp fm left right normx
  let imgy : ℚ := Imath_lerp fm top bottom normy
  (imgx, imgy)

/-- `IvGL::get_focus_image_pixel`: the pair `(x, y)` it stores, `x = imgx;
y = imgy;` converting the floats to `int`. -/
def get_focus_image_pixel (s : IvGL) (fm : FloatModel) : Int × Int :=
  (float_to_int (s.get_focus_image_position fm).1,
    float_to_int (s.get_focus_image_position fm).2)

/-- The patch `[xbegin, xend) × [ybegin, yend)` that `paint_pixelview`
computes for the focus pixel `(xp, yp)`, or `none` when the pixel fails the
bounds test and only the placeholder is drawn. `ncloseuppixels` is the
constant of that name (declared in the viewer's header). -/
def paint_pixelview_patch (img : IvImage) (ncloseuppixels : Int) (xp yp : Int) :
    Option TileRange :=
  if xp ≥ 0 ∧ xp < img.oriented_width ∧ yp ≥ 0 ∧ yp < img.oriented_height then
    let xpp := min (max xp (Int.tdiv ncloseuppixels 2))
      (img.spec.width - Int.tdiv ncloseuppixels 2 - 1)
    let ypp := min (max yp (Int.tdiv ncloseuppixels 2))
      (img.spec.height - Int.tdiv ncloseuppixels 2 - 1)
    let xbegin := max (xpp - Int.tdiv ncloseuppixels 2) 0
    let ybegin := max (ypp - Int.tdiv ncloseuppixels 2) 0
    let xend := min (xpp + Int.tdiv ncloseuppixels 2 + 1) img.spec.width
    let yend := min (ypp + Int.tdiv ncloseuppixels 2 + 1) img.spec.height
    some { xbegin := xbegin, ybegin := ybegin, xend := xend, yend := yend }
  else none

/-- The patch of `paint_pixelview` for the pixel under the mouse. -/
def paint_pixelview_focus_patch (s : IvGL) (fm : FloatModel) (img : IvImage)
    (ncloseuppixels : Int) : Option TileRange :=
  paint_pixelview_patch img ncloseuppixels (s.get_focus_image_pixel fm).1
    (s.get_focus_image_pixel fm).2

/-- One call on the texture pool: `update` or `load_texture`. -/
inductive PoolOp where
  | update (cur : Option IvImage)
  | load_texture (r : LoadRequest)

/-- The state after one pool call. -/
def run_op (s : IvGL) : PoolOp → IvGL
  | PoolOp.update cur => s.update cur
  | PoolOp.load_texture r => s.load_step r

/-- The state after a sequence of pool calls, in order. -/
def run_ops (s : IvGL) : List PoolOp → IvGL
  | [] => s
  | op :: ops => run_ops (s.run_op op) ops

/-- The sample view zoomed out to 1/10: the whole image is in the window. -/
def wide_view : IvGL :=
  { sample_view with m_zoom := 1 / 10 }

/-- The draw of the wide view that starts at `(4096, 0)`. -/
def wide_view_edge_draw : TileDraw :=
  { xstart := 4096, ystart := 0, tile_width := 904, tile_height := 2048,
    percent := 3 / 6, smin := 0, tmin := 0, smax := 904 / 2048, tmax := 1 }

/-- The six draws of the wide view, in loop order. -/
def wide_view_draws : List TileDraw :=
  [ { xstart := 0, ystart := 0, tile_width := 2048, tile_height := 2048,
      percent := 1 / 6, smin := 0, tmin := 0, smax := 1, tmax := 1 },
    { xstart := 2048, ystart := 0, tile_width := 2048, tile_height := 2048,
      percent := 2 / 6, smin := 0, tmin := 0, smax := 1, tmax := 1 },
    wide_view_edge_draw,
    { xstart := 0, ystart := 2048, tile_width := 2048, tile_height := 952,
      percent := 4 / 6, smin := 0, tmin := 0, smax := 1, tmax := 952 / 2048 },
    { xstart := 2048, ystart := 2048, tile_width := 2048, tile_height := 952,
      percent := 5 / 6, smin := 0, tmin := 0, smax := 1, tmax := 952 / 2048 },
    { xstart := 4096, ystart := 2048, tile_width := 904, tile_height := 952,
      percent := 1, smin := 0, tmin := 0, smax := 904 / 2048, tmax := 952 / 2048 } ]

/-- The sample widget on the shader path with PBOs, showing the sample
image. -/
def pbo_widget : IvGL :=
  { sample_widget.update (some sample_image) with m_use_shaders := true, m_use_pbo := true }

/-- Uniforms at the defaults: gain 1, gamma 1, all channels, four image
channels, linear interpolation, 16 x 16 texture; pixel view as given. -/
def default_uniforms (pixelview : Int) : ShaderUniforms :=
  { gain := 1, gamma := 1, channelview := -1, imgchannels := 4, pixelview := pixelview,
    linearinterp := 1, width := 16, height := 16 }

/-- Uniforms for the pixel view with the alpha channel isolated
(`channelview = 3`), gain 1 and gamma 1. -/
def alpha_view_uniforms : ShaderUniforms :=
  { default_uniforms 1 with channelview := 3 }

/-- A texture that holds the colour `(1/5, 2/5, 3/5)` with alpha `1/2` in every
texel. -/
def sample_texture : vec2 → vec4 :=
  fun _ => { x := 1 / 5, y := 2 / 5, z := 3 / 5, w := 1 / 2 }

/-- The centre of the first texel of a 16 x 16 texture. -/
def texel_centre : vec2 :=
  { x := 1 / 32, y := 1 / 32 }

/-- The spec of a 64 x 64 image with five 8-bit channels. -/
def five_channel_spec : ImageSpec :=
  { x := 0, y := 0, width := 64, height := 64, full_x := 0, full_y := 0,
    full_width := 64, full_height := 64, nchannels := 5 }

/-- The spec of a 64 x 64 RGB image with half-float pixels. -/
def half_float_spec : ImageSpec :=
  { x := 0, y := 0, width := 64, height := 64, full_x := 0, full_y := 0,
    full_width := 64, full_height := 64, nchannels := 3, basetype := BaseType.HALF }

/-- The sample view (zoom 4, centre `(10, 20)`) with the mouse at window
position `(402, 302)`. -/
def focus_view : IvGL :=
  { sample_view with m_zoom := 4, m_centerx := 10, m_centery := 20, m_mousex := 402, m_mousey := 302 }

/-- No two populated slots of the pool carry the same tag. -/
def pool_tags_unique (s : IvGL) : Prop :=
  ∀ (i j : Nat) (a b : TexBuffer), i ≠ j →
    s.m_texbufs[i]? = some a → s.m_texbufs[j]? = some b →
    a.populated → b.populated → ¬ a.same_tag b

/-- A run on the pool: `update`, three loads (the third a repeat of the
first), `update` again and one more load. -/
def sample_ops : List PoolOp :=
  [ PoolOp.update (some sample_image),
    PoolOp.load_texture { x := 0, y := 0, width := 2048, height := 2048, percent := 1 / 4, map_ok := true },
    PoolOp.load_texture { x := 2048, y := 0, width := 2048, height := 2048, percent := 1 / 2, map_ok := true },
    PoolOp.load_texture { x := 0, y := 0, width := 2048, height := 2048, percent := 3 / 4, map_ok := true },
    PoolOp.update (some odd_image),
    PoolOp.load_texture { x := 0, y := 0, width := 5, height := 3, percent := 1, map_ok := true } ]

/-- The shader-path copy of `paint_pixelview` for the focus pixel `(xp, yp)`:
the pixel count of the buffer it allocates, `(xend-xbegin)*(xend-xbegin)`
(the code multiplies it by `spec.pixel_bytes ()`), and the `copy_pixels`
call that fills the buffer; `none` when no patch is computed or shaders are
off (then no buffer is allocated). -/
def paint_pixelview_zoombuffer (s : IvGL) (img : IvImage) (ncloseuppixels : Int)
    (xp yp : Int) : Option (Int × GLCall) :=
  match paint_pixelview_patch img ncloseuppixels xp yp with
  | none => none
  | some p =>
    if s.m_use_shaders then
      some ((p.xend - p.xbegin) * (p.xend - p.xbegin),
        GLCall.copy_pixels (img.spec.x + p.xbegin) (img.spec.x + p.xend)
          (img.spec.y + p.ybegin) (img.spec.y + p.yend))
    else none

/-- The number of pixels a `copy_pixels (xbegin, xend, ybegin, yend, ...)`
call writes to its buffer (0 for the other calls). -/
def GLCall_pixels_written : GLCall → Int
  | GLCall.copy_pixels xbegin xend ybegin yend => (xend - xbegin) * (yend - ybegin)
  | _ => 0

/-- A 2000 x 2000 image whose data window starts at `(-1000, -1000)`. -/
def negative_origin_image : IvImage :=
  { spec := { x := -1000, y := -1000, width := 2000, height := 2000,
              full_x := -1000, full_y := -1000, full_width := 2000, full_height := 2000,
              nchannels := 3 },
    image_valid := true, orientation := 1,
    oriented_x := -1000, oriented_y := -1000, oriented_width := 2000, oriented_height := 2000,
    oriented_full_x := -1000, oriented_full_y := -1000,
    oriented_full_width := 2000, oriented_full_height := 2000 }

/-- The sample widget (800 x 600, zoom 1) showing `negative_origin_image`
centred on `(0, 0)`; the tiles are 2048 x 2048. -/
def negative_origin_view : IvGL :=
  { sample_widget.update (some negative_origin_image) with m_centerx := 0, m_centery := 0 }

/-- A 3 x 100 image at the origin: narrower than the pixel-view
neighbourhood, taller than wide. -/
def narrow_image : IvImage :=
  { spec := { x := 0, y := 0, width := 3, height := 100, full_x := 0, full_y := 0,
              full_width := 3, full_height := 100, nchannels := 3 },
    image_valid := true, orientation := 1,
    oriented_x := 0, oriented_y := 0, oriented_width := 3, oriented_height := 100,
    oriented_full_x := 0, oriented_full_y := 0,
    oriented_full_width := 3, oriented_full_height := 100 }

/-- Three pairwise distinct tiles of the first tile row of `sample_image`. -/
def distinct_requests : List LoadRequest :=
  [ { x := 0, y := 0, width := 2048, height := 2048, percent := 1 / 3, map_ok := true },
    { x := 2048, y := 0, width := 2048, height := 2048, percent := 2 / 3, map_ok := true },
    { x := 4096, y := 0, width := 904, height := 2048, percent := 1, map_ok := true } ]

/-- The sample view at zoom `2^-23`. -/
def tiny_zoom_view : IvGL :=
  { sample_view with m_zoom := 1 / 8388608 }

end IvGL

/-! ## Lemmas on the texture pool -/

namespace IvGL

theorem tag_matches_retag (x y width height : Int) (tb : TexBuffer) :
    tag_matches x y width height (retag x y width height tb) = true := by
  simp [tag_matches, retag]

theorem find?_modify_retag (x y width height : Int) :
    ∀ (l : List TexBuffer) (i : Nat), i < l.length →
      l.find? (tag_matches x y width height) = none →
      ∃ tb, l[i]? = some tb ∧
        (List.modify (retag x y width height) i l).find? (tag_matches x y width height)
          = some (retag x y width height tb) := by
  intro l
  induction l with
  | nil => intro i hi; simp at hi
  | cons a as ih =>
    intro i hi hnone
    rw [List.find?_cons] at hnone
    cases hm : tag_matches x y width height a with
    | true => rw [hm] at hnone; simp at hnone
    | false =>
      rw [hm] at hnone
      cases i with
      | zero =>
        refine ⟨a, by simp, ?_⟩
        simp [List.modify_zero_cons, List.find?_cons, tag_matches_retag]
      | succ j =>
        obtain ⟨tb, h1, h2⟩ := ih j (by simpa using hi) hnone
        refine ⟨tb, by simpa using h1, ?_⟩
        simp [List.modify_succ_cons, List.find?_cons, hm, h2]

theorem load_texture_of_hit (s : IvGL) (x y width height : Int) (p : ℚ) (ok : Bool)
    (tb : TexBuffer) (h : s.m_texbufs.find? (tag_matches x y width height) = some tb) :
    s.load_texture x y width height p ok = (s, [GLCall.glBindTexture tb.tex_object]) := by
  simp [load_texture, h]

theorem load_texture_texbufs_of_miss (s : IvGL) (x y width height : Int) (p : ℚ) (ok : Bool)
    (h : s.m_texbufs.find? (tag_matches x y width height) = none) :
    (s.load_texture x y width height p ok).1.m_texbufs
      = List.modify (retag x y width height) s.m_last_texbuf_used s.m_texbufs := by
  simp only [load_texture, h]
  split_ifs <;> rfl

theorem load_texture_cursor_of_miss (s : IvGL) (x y width height : Int) (p : ℚ) (ok : Bool)
    (h : s.m_texbufs.find? (tag_matches x y width height) = none)
    (hok : s.upload_succeeds ok = true) :
    (s.load_texture x y width height p ok).1.m_last_texbuf_used
      = (s.m_last_texbuf_used + 1) % s.m_texbufs.length := by
  simp only [load_texture, h]
  simp only [upload_succeeds] at hok
  split_ifs with h1 h2 h3 <;> first | rfl | simp_all

theorem load_texture_length (s : IvGL) (x y width height : Int) (p : ℚ) (ok : Bool) :
    (s.load_texture x y width height p ok).1.m_texbufs.length = s.m_texbufs.length := by
  cases h : s.m_texbufs.find? (tag_matches x y width height) with
  | some tb => rw [load_texture_of_hit s x y width height p ok tb h]
  | none => rw [load_texture_texbufs_of_miss s x y width height p ok h, List.length_modify]

theorem load_texture_flags (s : IvGL) (x y width height : Int) (p : ℚ) (ok : Bool) :
    (s.load_texture x y width height p ok).1.m_use_shaders = s.m_use_shaders ∧
    (s.load_texture x y width height p ok).1.m_use_pbo = s.m_use_pbo := by
  simp only [load_texture]
  split
  · exact ⟨rfl, rfl⟩
  · split_ifs <;> exact ⟨rfl, rfl⟩

theorem load_texture_cursor_lt (s : IvGL) (x y width height : Int) (p : ℚ) (ok : Bool)
    (hwf : s.m_last_texbuf_used < s.m_texbufs.length) :
    (s.load_texture x y width height p ok).1.m_last_texbuf_used
      < (s.load_texture x y width height p ok).1.m_texbufs.length := by
  rw [load_texture_length]
  have hpos : 0 < s.m_texbufs.length := by omega
  simp only [load_texture]
  split
  · exact hwf
  · split_ifs <;> first | exact hwf | exact Nat.mod_lt _ hpos

end IvGL

namespace IvGL

theorem load_step_of_hit (s : IvGL) (r : LoadRequest)
    (h : s.is_miss r.x r.y r.width r.height = false) : s.load_step r = s := by
  unfold is_miss at h
  cases hf : s.m_texbufs.find? (tag_matches r.x r.y r.width r.height) with
  | none => simp [hf] at h
  | some tb => simp [load_step, load_texture_of_hit s _ _ _ _ _ _ tb hf]

theorem find?_of_is_miss (s : IvGL) (x y width height : Int)
    (h : s.is_miss x y width height = true) :
    s.m_texbufs.find? (tag_matches x y width height) = none := by
  unfold is_miss at h
  cases hf : s.m_texbufs.find? (tag_matches x y width height) with
  | none => rfl
  | some tb => simp [hf] at h

theorem upload_succeeds_load_step (s : IvGL) (r : LoadRequest) (ok : Bool) :
    (s.load_step r).upload_succeeds ok = s.upload_succeeds ok := by
  have h := load_texture_flags s r.x r.y r.width r.height r.percent r.map_ok
  simp only [upload_succeeds, load_step, h.1, h.2]

theorem load_step_cursor (s : IvGL) (r : LoadRequest)
    (hwf : s.m_last_texbuf_used < s.m_texbufs.length)
    (hok : s.upload_succeeds r.map_ok = true) :
    (s.load_step r).m_last_texbuf_used
      = (s.m_last_texbuf_used + (if s.is_miss r.x r.y r.width r.height then 1 else 0))
          % s.m_texbufs.length := by
  cases hm : s.is_miss r.x r.y r.width r.height with
  | false =>
    rw [load_step_of_hit s r hm]
    simp [Nat.mod_eq_of_lt hwf]
  | true =>
    simp only [load_step, if_true]
    exact load_texture_cursor_of_miss s _ _ _ _ _ _ (find?_of_is_miss s _ _ _ _ hm) hok

theorem load_textures_cursor :
    ∀ (rs : List LoadRequest) (s : IvGL),
      s.m_last_texbuf_used < s.m_texbufs.length →
      (∀ r ∈ rs, s.upload_succeeds r.map_ok = true) →
      (s.load_textures rs).m_last_texbuf_used
          = (s.m_last_texbuf_used + s.count_misses rs) % s.m_texbufs.length ∧
        (s.load_textures rs).m_texbufs.length = s.m_texbufs.length := by
  intro rs
  induction rs with
  | nil =>
    intro s hwf _
    simp [load_textures, count_misses, Nat.mod_eq_of_lt hwf]
  | cons r rs ih =>
    intro s hwf hok
    have hlen : (s.load_step r).m_texbufs.length = s.m_texbufs.length :=
      load_texture_length s _ _ _ _ _ _
    have hwf1 : (s.load_step r).m_last_texbuf_used < (s.load_step r).m_texbufs.length :=
      load_texture_cursor_lt s _ _ _ _ _ _ hwf
    have hok1 : ∀ q ∈ rs, (s.load_step r).upload_succeeds q.map_ok = true := by
      intro q hq
      rw [upload_succeeds_load_step]
      exact hok q (List.mem_cons_of_mem _ hq)
    obtain ⟨h1, h2⟩ := ih (s.load_step r) hwf1 hok1
    have hc := load_step_cursor s r hwf (hok r (List.mem_cons_self _ _))
    simp only [load_textures, count_misses]
    refine ⟨?_, by rw [h2, hlen]⟩
    rw [h1, hc, hlen, Nat.mod_add_mod, Nat.add_assoc]

theorem count_misses_take_of_all_miss :
    ∀ (rs : List LoadRequest) (s : IvGL) (j : Nat), j ≤ rs.length →
      (∀ i ri, i < j → rs[i]? = some ri →
        (s.load_textures (rs.take i)).is_miss ri.x ri.y ri.width ri.height = true) →
      s.count_misses (rs.take j) = j := by
  intro rs
  induction rs with
  | nil => intro s j hj _; simp at hj; simp [hj, count_misses]
  | cons r rs ih =>
    intro s j hj hall
    cases j with
    | zero => simp [count_misses]
    | succ k =>
      have h0 := hall 0 r (Nat.succ_pos k) (by simp)
      simp only [List.take_zero, load_textures] at h0
      have hk : (s.load_step r).count_misses (rs.take k) = k := by
        apply ih (s.load_step r) k (by simpa using hj)
        intro i ri hi hri
        have := hall (i + 1) ri (by omega) (by simpa using hri)
        simpa [load_textures] using this
      simp only [List.take_succ_cons, count_misses, h0, if_true, hk]
      omega

end IvGL

/-! ## The tile cache: claims C2, C3, C4 -/

namespace IvGL

/-- C2: calling `load_texture` twice in a row with the same rectangle makes
the second call a cache hit. The second call leaves the whole state (every
slot tag, the cursor) as the first call left it and its only observed call
binds the texture of a slot `tb` tagged with the rectangle, so it performs no
`copy_pixels`. When the first call was a miss, `tb` is the slot at the cursor
the first call tagged and no other slot carries the tag; when the first call
was itself a hit, both calls bind the same texture. -/
theorem load_texture_twice_is_hit (s : IvGL) (x y width height : Int) (p1 p2 : ℚ)
    (ok1 ok2 : Bool) (hwf : s.m_last_texbuf_used < s.m_texbufs.length) :
    ∃ tb : TexBuffer,
      (s.load_texture x y width height p1 ok1).1.load_texture x y width height p2 ok2
        = ((s.load_texture x y width height p1 ok1).1, [GLCall.glBindTexture tb.tex_object]) ∧
      (∀ c ∈ ((s.load_texture x y width height p1 ok1).1.load_texture
          x y width height p2 ok2).2, c.is_copy_pixels = false) ∧
      tag_matches x y width height tb = true ∧
      (s.is_miss x y width height = true →
        (s.load_texture x y width height p1 ok1).1.m_texbufs[s.m_last_texbuf_used]? = some tb ∧
        ∀ j tb', j ≠ s.m_last_texbuf_used →
          (s.load_texture x y width height p1 ok1).1.m_texbufs[j]? = some tb' →
          tag_matches x y width height tb' = false) ∧
      (s.is_miss x y width height = false →
        (s.load_texture x y width height p1 ok1).2 = [GLCall.glBindTexture tb.tex_object]) := by
  cases hf : s.m_texbufs.find? (tag_matches x y width height) with
  | some tb =>
    have h1 := load_texture_of_hit s x y width height p1 ok1 tb hf
    have h2 := load_texture_of_hit s x y width height p2 ok2 tb hf
    refine ⟨tb, ?_, ?_, List.find?_some hf, ?_, ?_⟩
    · rw [h1, h2]
    · rw [h1, h2]
      intro c hc
      simp only [List.mem_singleton] at hc
      subst hc
      rfl
    · intro hm
      simp [is_miss, hf] at hm
    · intro _
      rw [h1]
  | none =>
    obtain ⟨tb0, hget, hfind⟩ :=
      find?_modify_retag x y width height s.m_texbufs s.m_last_texbuf_used hwf hf
    have htb := load_texture_texbufs_of_miss s x y width height p1 ok1 hf
    have hfind1 : (s.load_texture x y width height p1 ok1).1.m_texbufs.find?
        (tag_matches x y width height) = some (retag x y width height tb0) := by
      rw [htb, hfind]
    have h2 := load_texture_of_hit (s.load_texture x y width height p1 ok1).1
      x y width height p2 ok2 _ hfind1
    refine ⟨retag x y width height tb0, h2, ?_, tag_matches_retag _ _ _ _ _, ?_, ?_⟩
    · rw [h2]
      intro c hc
      simp only [List.mem_singleton] at hc
      subst hc
      rfl
    · intro _
      constructor
      · rw [htb, List.getElem?_modify, hget]
        simp
      · intro j tb' hj hj'
        rw [htb, List.getElem?_modify] at hj'
        cases hl : s.m_texbufs[j]? with
        | none => simp [hl] at hj'
        | some a =>
          have ha : a ∈ s.m_texbufs := List.mem_iff_getElem?.2 ⟨j, hl⟩
          have hna := List.find?_eq_none.1 hf a ha
          simp only [hl, Option.map_eq_map, Option.map_some', if_neg (Ne.symm hj),
            Option.some.injEq] at hj'
          subst hj'
          simpa using hna
    · intro hm
      simp [is_miss, hf] at hm

/-- Witness of C2 on the sample widget: the rectangle `(0, 0, 5, 5)` loaded
twice. -/
theorem load_texture_twice_is_hit_witness :
    sample_widget.m_last_texbuf_used < sample_widget.m_texbufs.length ∧
    ∃ tb : TexBuffer,
      (sample_widget.load_texture 0 0 5 5 (1/2) true).1.load_texture 0 0 5 5 1 true
        = ((sample_widget.load_texture 0 0 5 5 (1/2) true).1,
            [GLCall.glBindTexture tb.tex_object]) ∧
      (∀ c ∈ ((sample_widget.load_texture 0 0 5 5 (1/2) true).1.load_texture
          0 0 5 5 1 true).2, c.is_copy_pixels = false) ∧
      tag_matches 0 0 5 5 tb = true ∧
      (sample_widget.is_miss 0 0 5 5 = true →
        (sample_widget.load_texture 0 0 5 5 (1/2) true).1.m_texbufs[
          sample_widget.m_last_texbuf_used]? = some tb ∧
        ∀ j tb', j ≠ sample_widget.m_last_texbuf_used →
          (sample_widget.load_texture 0 0 5 5 (1/2) true).1.m_texbufs[j]? = some tb' →
          tag_matches 0 0 5 5 tb' = false) ∧
      (sample_widget.is_miss 0 0 5 5 = false →
        (sample_widget.load_texture 0 0 5 5 (1/2) true).2
          = [GLCall.glBindTexture tb.tex_object]) :=
  ⟨by decide, load_texture_twice_is_hit sample_widget 0 0 5 5 (1/2) 1 true true (by decide)⟩

/-- C3: after `update` runs with an image, every slot of the pool has
`width = 0` and `height = 0` (the pool keeps its size), whatever it held
before; so the next `load_texture` for a rectangle of positive width and
height is a miss: the lookup finds no slot, the progress value is sent, and
the slot at the cursor is retagged. -/
theorem update_clears_every_tag (s : IvGL) (img : IvImage) (x y width height : Int)
    (p : ℚ) (ok : Bool) (hw : 0 < width) (_hh : 0 < height) :
    (∀ tb ∈ (s.update (some img)).m_texbufs, tb.width = 0 ∧ tb.height = 0) ∧
    (s.update (some img)).m_texbufs.length = s.m_texbufs.length ∧
    (s.update (some img)).is_miss x y width height = true ∧
    (∃ rest, ((s.update (some img)).load_texture x y width height p ok).2
      = GLCall.setValue (float_to_int (p * 100)) :: rest) ∧
    ((s.update (some img)).load_texture x y width height p ok).1.m_texbufs
      = List.modify (retag x y width height) s.m_last_texbuf_used
          (s.update (some img)).m_texbufs := by
  have hclear : ∀ tb ∈ (s.update (some img)).m_texbufs, tb.width = 0 ∧ tb.height = 0 := by
    intro tb htb
    simp only [update, List.mem_map] at htb
    obtain ⟨a, -, rfl⟩ := htb
    exact ⟨rfl, rfl⟩
  have hnone : (s.update (some img)).m_texbufs.find? (tag_matches x y width height) = none := by
    rw [List.find?_eq_none]
    intro tb htb hm
    have h0 := (hclear tb htb).1
    simp only [tag_matches, Bool.and_eq_true, beq_iff_eq] at hm
    omega
  refine ⟨hclear, by simp [update], by simp [is_miss, hnone], ?_, ?_⟩
  · simp only [load_texture, hnone]
    split_ifs <;> simp
  · rw [load_texture_texbufs_of_miss _ x y width height p ok hnone]
    rfl

/-- Witness of C3: the sample widget, one slot tagged `(0, 0, 5, 5)`, then
`update` and a request for the same rectangle. -/
theorem update_clears_every_tag_witness :
    (0 : Int) < 5 ∧
    (∀ tb ∈ ((sample_widget.load_texture 0 0 5 5 1 true).1.update (some sample_image)).m_texbufs,
      tb.width = 0 ∧ tb.height = 0) ∧
    ((sample_widget.load_texture 0 0 5 5 1 true).1.update (some sample_image)).m_texbufs.length
      = (sample_widget.load_texture 0 0 5 5 1 true).1.m_texbufs.length ∧
    ((sample_widget.load_texture 0 0 5 5 1 true).1.update (some sample_image)).is_miss 0 0 5 5
      = true ∧
    (∃ rest, (((sample_widget.load_texture 0 0 5 5 1 true).1.update
        (some sample_image)).load_texture 0 0 5 5 1 true).2
      = GLCall.setValue (float_to_int (1 * 100)) :: rest) ∧
    (((sample_widget.load_texture 0 0 5 5 1 true).1.update
        (some sample_image)).load_texture 0 0 5 5 1 true).1.m_texbufs
      = List.modify (retag 0 0 5 5) (sample_widget.load_texture 0 0 5 5 1 true).1.m_last_texbuf_used
          ((sample_widget.load_texture 0 0 5 5 1 true).1.update (some sample_image)).m_texbufs :=
  ⟨by decide, update_clears_every_tag (sample_widget.load_texture 0 0 5 5 1 true).1
    sample_image 0 0 5 5 1 true (by decide) (by decide)⟩

theorem load_texture_trace_of_miss (s : IvGL) (x y width height : Int) (percent : ℚ)
    (map_ok : Bool)
    (h : s.m_texbufs.find? (tag_matches x y width height) = none)
    (hok : s.upload_succeeds map_ok = true) :
    GLCall.glTexSubImage2D width height ∈ (s.load_texture x y width height percent map_ok).2 ∧
    GLCall.glBindTexture
        (s.m_texbufs.getD s.m_last_texbuf_used
          { tex_object := 0, x := 0, y := 0, width := 0, height := 0 }).tex_object
      ∈ (s.load_texture x y width height percent map_ok).2 := by
  unfold upload_succeeds at hok
  unfold load_texture
  simp only [h]
  cases hs : s.m_use_shaders <;> cases hp : s.m_use_pbo <;> cases hm : map_ok <;>
    simp [hs, hp, hm] at hok ⊢

/-- C4: in a sequence of `load_texture` calls whose uploads succeed, before
call number `j` the cursor is the start cursor plus the number of misses so
far, modulo the pool size. A miss overwrites the slot at the cursor: after
the call that slot carries the tag `(x, y, width, height)` of the request
(and its old texture name, which is the texture the upload goes to), every
other slot is as it was, and the cursor has advanced by one modulo the pool
size; a hit changes nothing, so hits never influence which slot is
replaced. When the first `j` calls are all misses, call number `j`
therefore replaces slot `(start + j) mod size`. -/
theorem load_texture_round_robin (s : IvGL) (rs : List LoadRequest) (j : Nat)
    (r : LoadRequest) (hwf : s.m_last_texbuf_used < s.m_texbufs.length)
    (hok : ∀ q ∈ rs, s.upload_succeeds q.map_ok = true) (hj : rs[j]? = some r) :
    (s.load_textures (rs.take j)).m_last_texbuf_used
      = (s.m_last_texbuf_used + s.count_misses (rs.take j)) % s.m_texbufs.length ∧
    (s.load_textures (rs.take j)).m_texbufs.length = s.m_texbufs.length ∧
    ((s.load_textures (rs.take j)).is_miss r.x r.y r.width r.height = true →
      (∃ old tb : TexBuffer,
        (s.load_textures (rs.take j)).m_texbufs[
            (s.m_last_texbuf_used + s.count_misses (rs.take j)) % s.m_texbufs.length]?
          = some old ∧
        ((s.load_textures (rs.take j)).load_step r).m_texbufs[
            (s.m_last_texbuf_used + s.count_misses (rs.take j)) % s.m_texbufs.length]?
          = some tb ∧
        tb.x = r.x ∧ tb.y = r.y ∧ tb.width = r.width ∧ tb.height = r.height ∧
        tb.tex_object = old.tex_object ∧
        GLCall.glTexSubImage2D r.width r.height ∈
          ((s.load_textures (rs.take j)).load_texture r.x r.y r.width r.height r.percent
            r.map_ok).2 ∧
        GLCall.glBindTexture old.tex_object ∈
          ((s.load_textures (rs.take j)).load_texture r.x r.y r.width r.height r.percent
            r.map_ok).2) ∧
      (∀ i, i ≠ (s.m_last_texbuf_used + s.count_misses (rs.take j)) % s.m_texbufs.length →
        ((s.load_textures (rs.take j)).load_step r).m_texbufs[i]?
          = (s.load_textures (rs.take j)).m_texbufs[i]?) ∧
      ((s.load_textures (rs.take j)).load_step r).m_last_texbuf_used
        = ((s.m_last_texbuf_used + s.count_misses (rs.take j)) % s.m_texbufs.length + 1)
            % s.m_texbufs.length) ∧
    ((s.load_textures (rs.take j)).is_miss r.x r.y r.width r.height = false →
      (s.load_textures (rs.take j)).load_step r = s.load_textures (rs.take j)) ∧
    ((∀ i ri, i < j → rs[i]? = some ri →
        (s.load_textures (rs.take i)).is_miss ri.x ri.y ri.width ri.height = true) →
      s.count_misses (rs.take j) = j) := by
  have hjlt : j < rs.length := by
    by_contra hcon
    rw [List.getElem?_eq_none (by omega)] at hj
    exact Option.noConfusion hj
  have hrmem : r ∈ rs := List.mem_iff_getElem?.2 ⟨j, hj⟩
  have hok1 : ∀ q ∈ rs.take j, s.upload_succeeds q.map_ok = true :=
    fun q hq => hok q (List.mem_of_mem_take hq)
  obtain ⟨hcur, hlen⟩ := load_textures_cursor (rs.take j) s hwf hok1
  have hokr : (s.load_textures (rs.take j)).upload_succeeds r.map_ok = true := by
    have hflags : ∀ (l : List LoadRequest) (t : IvGL) (ok : Bool),
        (t.load_textures l).upload_succeeds ok = t.upload_succeeds ok := by
      intro l
      induction l with
      | nil => intro t ok; rfl
      | cons a l ih =>
        intro t ok
        simp only [load_textures]
        rw [ih, upload_succeeds_load_step]
    rw [hflags]
    exact hok r hrmem
  refine ⟨hcur, hlen, ?_, load_step_of_hit _ r, ?_⟩
  · intro hm
    have hnone := find?_of_is_miss _ _ _ _ _ hm
    have htb : ((s.load_textures (rs.take j)).load_step r).m_texbufs
        = List.modify (retag r.x r.y r.width r.height)
            (s.load_textures (rs.take j)).m_last_texbuf_used
            (s.load_textures (rs.take j)).m_texbufs :=
      load_texture_texbufs_of_miss _ _ _ _ _ _ _ hnone
    refine ⟨?_, ?_, ?_⟩
    · have hc : (s.m_last_texbuf_used + s.count_misses (rs.take j)) % s.m_texbufs.length
          < (s.load_textures (rs.take j)).m_texbufs.length := by
        rw [hlen]
        exact Nat.mod_lt _ (by omega)
      have hold := List.getElem?_eq_getElem hc
      have htrace := load_texture_trace_of_miss (s.load_textures (rs.take j)) r.x r.y r.width
        r.height r.percent r.map_ok hnone hokr
      rw [hcur, List.getD_eq_getElem?_getD, hold, Option.getD_some] at htrace
      refine ⟨_, retag r.x r.y r.width r.height
        ((s.load_textures (rs.take j)).m_texbufs.get ⟨_, hc⟩), hold, ?_, rfl, rfl, rfl, rfl, rfl,
        htrace.1, htrace.2⟩
      rw [htb, hcur, List.getElem?_modify, hold]
      simp
    · intro i hi
      rw [htb, hcur, List.getElem?_modify]
      cases (s.load_textures (rs.take j)).m_texbufs[i]? with
      | none => rfl
      | some a => simp [Ne.symm hi]
    · have := load_texture_cursor_of_miss _ r.x r.y r.width r.height r.percent r.map_ok
        hnone hokr
      rw [hcur, hlen] at this
      exact this
  · exact count_misses_take_of_all_miss rs s j (Nat.le_of_lt hjlt)

/-- Witness of C4: the sample widget and four requests, the third a repeat
of the first; before the last request the cursor has advanced by the two
misses only. -/
theorem load_texture_round_robin_witness :
    sample_widget.m_last_texbuf_used < sample_widget.m_texbufs.length ∧
    (∀ q ∈ sample_requests, sample_widget.upload_succeeds q.map_ok = true) ∧
    sample_requests[3]?
      = some { x := 4096, y := 0, width := 904, height := 2048, percent := 1, map_ok := true } ∧
    (sample_widget.load_textures (sample_requests.take 3)).m_last_texbuf_used
      = (sample_widget.m_last_texbuf_used + sample_widget.count_misses (sample_requests.take 3))
          % sample_widget.m_texbufs.length ∧
    (sample_widget.load_textures (sample_requests.take 3)).is_miss 4096 0 904 2048 = true ∧
    (sample_widget.m_last_texbuf_used + sample_widget.count_misses (sample_requests.take 3))
        % sample_widget.m_texbufs.length = 2 ∧
    ((sample_widget.load_textures (sample_requests.take 3)).load_step
        { x := 4096, y := 0, width := 904, height := 2048, percent := 1,
          map_ok := true }).m_texbufs[2]?
      = some { tex_object := 3, x := 4096, y := 0, width := 904, height := 2048 } ∧
    ((sample_widget.load_textures (sample_requests.take 3)).load_step
        { x := 4096, y := 0, width := 904, height := 2048, percent := 1,
          map_ok := true }).m_last_texbuf_used = 3 := by
  have hthm := load_texture_round_robin sample_widget sample_requests 3
    { x := 4096, y := 0, width := 904, height := 2048, percent := 1, map_ok := true }
    (by decide) (by decide) rfl
  have hmiss : (sample_widget.load_textures (sample_requests.take 3)).is_miss 4096 0 904 2048
      = true := by decide
  have hc : (sample_widget.m_last_texbuf_used
      + sample_widget.count_misses (sample_requests.take 3))
        % sample_widget.m_texbufs.length = 2 := by decide
  obtain ⟨⟨old, tb, hold, hnew, h1, h2, h3, h4, h5, -, -⟩, -, hcursor⟩ := hthm.2.2.1 hmiss
  rw [hc] at hold hnew hcursor
  have holdv : old = { tex_object := 3, x := 0, y := 0, width := 0, height := 0 } := by
    have : (sample_widget.load_textures (sample_requests.take 3)).m_texbufs[2]?
        = some { tex_object := 3, x := 0, y := 0, width := 0, height := 0 } := by decide
    rw [this] at hold
    exact (Option.some.inj hold).symm
  refine ⟨by decide, by decide, rfl, hthm.1, hmiss, hc, ?_, ?_⟩
  · rw [hnew]
    congr 1
    cases tb
    simp only [holdv] at h1 h2 h3 h4 h5
    simp only [TexBuffer.mk.injEq]
    exact ⟨h5, h1, h2, h3, h4⟩
  · rw [hcursor]
    decide

end IvGL

/-! ## The view transform and the input handlers: claims C5 to C10 -/

theorem Imath_clamp_mem (a l h : ℚ) (hlh : l ≤ h) :
    l ≤ Imath_clamp a l h ∧ Imath_clamp a l h ≤ h := by
  unfold Imath_clamp
  split_ifs with h1 h2
  · exact ⟨le_refl l, hlh⟩
  · exact ⟨hlh, le_refl h⟩
  · exact ⟨not_lt.1 h1, not_lt.1 h2⟩

namespace IvGL

theorem clamp_view_to_window_zoom (s : IvGL) :
    s.clamp_view_to_window.m_zoom = s.m_zoom := by
  unfold clamp_view_to_window
  split <;> rfl

theorem clamp_axis_inside (c z : ℚ) (w o ow fo fw : Int) (hz : 0 < z)
    (hbig : z * (fw : ℚ) ≥ (w : ℚ)) :
    ((min o fo : Int) : ℚ)
        ≤ Imath_clamp c (((min o fo : Int) : ℚ) + 0.5 * (w : ℚ) / z)
            (((max (o + ow) (fo + fw) : Int) : ℚ) - 0.5 * (w : ℚ) / z) - (w : ℚ) / (2 * z) ∧
      Imath_clamp c (((min o fo : Int) : ℚ) + 0.5 * (w : ℚ) / z)
            (((max (o + ow) (fo + fw) : Int) : ℚ) - 0.5 * (w : ℚ) / z) + (w : ℚ) / (2 * z)
        ≤ ((max (o + ow) (fo + fw) : Int) : ℚ) := by
  have hd : (0.5 : ℚ) * (w : ℚ) / z = (w : ℚ) / (2 * z) := by
    field_simp
    ring
  have hwz : 2 * ((w : ℚ) / (2 * z)) ≤ (fw : ℚ) := by
    have : 2 * ((w : ℚ) / (2 * z)) = (w : ℚ) / z := by
      field_simp
      ring
    rw [this, div_le_iff₀ hz]
    linarith
  have hmin : ((min o fo : Int) : ℚ) ≤ (fo : ℚ) := by
    exact_mod_cast min_le_right o fo
  have hmax : (fo : ℚ) + (fw : ℚ) ≤ ((max (o + ow) (fo + fw) : Int) : ℚ) := by
    have : fo + fw ≤ max (o + ow) (fo + fw) := le_max_right _ _
    exact_mod_cast this
  rw [hd]
  have hlh : ((min o fo : Int) : ℚ) + (w : ℚ) / (2 * z)
      ≤ ((max (o + ow) (fo + fw) : Int) : ℚ) - (w : ℚ) / (2 * z) := by
    linarith
  obtain ⟨h1, h2⟩ := Imath_clamp_mem c _ _ hlh
  constructor <;> linarith

/-- C5: after `clamp_view_to_window` with a current image and a positive
zoom, on each axis where the zoomed full extent is at least the viewport
extent, both ends of the visible interval `centre ± extent / (2 * zoom)` lie
between `min (origin, full origin)` and `max (origin + extent, full origin +
full extent)` of the oriented image (exact arithmetic). -/
theorem clamp_view_to_window_inside (s : IvGL) (img : IvImage)
    (hcur : s.m_current_image = some img) (hz : 0 < s.m_zoom) :
    (s.m_zoom * (img.oriented_full_width : ℚ) ≥ (s.width : ℚ) →
      ((min img.oriented_x img.oriented_full_x : Int) : ℚ)
          ≤ s.clamp_view_to_window.m_centerx - (s.width : ℚ) / (2 * s.m_zoom) ∧
        s.clamp_view_to_window.m_centerx + (s.width : ℚ) / (2 * s.m_zoom)
          ≤ ((max (img.oriented_x + img.oriented_width)
                (img.oriented_full_x + img.oriented_full_width) : Int) : ℚ)) ∧
    (s.m_zoom * (img.oriented_full_height : ℚ) ≥ (s.height : ℚ) →
      ((min img.oriented_y img.oriented_full_y : Int) : ℚ)
          ≤ s.clamp_view_to_window.m_centery - (s.height : ℚ) / (2 * s.m_zoom) ∧
        s.clamp_view_to_window.m_centery + (s.height : ℚ) / (2 * s.m_zoom)
          ≤ ((max (img.oriented_y + img.oriented_height)
                (img.oriented_full_y + img.oriented_full_height) : Int) : ℚ)) := by
  constructor
  · intro hbig
    have h := clamp_axis_inside s.m_centerx s.m_zoom s.width img.oriented_x
      img.oriented_width img.oriented_full_x img.oriented_full_width hz hbig
    simp only [clamp_view_to_window, hcur, if_pos hbig]
    exact h
  · intro hbig
    have h := clamp_axis_inside s.m_centery s.m_zoom s.height img.oriented_y
      img.oriented_height img.oriented_full_y img.oriented_full_height hz hbig
    simp only [clamp_view_to_window, hcur, if_pos hbig]
    exact h

/-- Witness of C5: the sample view (5000 x 3000 image, 800 x 600 window,
zoom 1), where the zoomed image is larger than the window on both axes. -/
theorem clamp_view_to_window_inside_witness :
    sample_view.m_current_image = some sample_image ∧ 0 < sample_view.m_zoom ∧
    sample_view.m_zoom * (sample_image.oriented_full_width : ℚ) ≥ (sample_view.width : ℚ) ∧
    sample_view.m_zoom * (sample_image.oriented_full_height : ℚ) ≥ (sample_view.height : ℚ) ∧
    (((min sample_image.oriented_x sample_image.oriented_full_x : Int) : ℚ)
        ≤ sample_view.clamp_view_to_window.m_centerx
            - (sample_view.width : ℚ) / (2 * sample_view.m_zoom) ∧
      sample_view.clamp_view_to_window.m_centerx
            + (sample_view.width : ℚ) / (2 * sample_view.m_zoom)
        ≤ ((max (sample_image.oriented_x + sample_image.oriented_width)
              (sample_image.oriented_full_x + sample_image.oriented_full_width) : Int) : ℚ)) ∧
    (((min sample_image.oriented_y sample_image.oriented_full_y : Int) : ℚ)
        ≤ sample_view.clamp_view_to_window.m_centery
            - (sample_view.height : ℚ) / (2 * sample_view.m_zoom) ∧
      sample_view.clamp_view_to_window.m_centery
            + (sample_view.height : ℚ) / (2 * sample_view.m_zoom)
        ≤ ((max (sample_image.oriented_y + sample_image.oriented_height)
              (sample_image.oriented_full_y + sample_image.oriented_full_height) : Int) : ℚ)) := by
  have hz : 0 < sample_view.m_zoom := by
    show (0 : ℚ) < 1
    norm_num
  have hx : sample_view.m_zoom * (sample_image.oriented_full_width : ℚ)
      ≥ (sample_view.width : ℚ) := by
    show (1 : ℚ) * ((5000 : Int) : ℚ) ≥ ((800 : Int) : ℚ)
    norm_num
  have hy : sample_view.m_zoom * (sample_image.oriented_full_height : ℚ)
      ≥ (sample_view.height : ℚ) := by
    show (1 : ℚ) * ((3000 : Int) : ℚ) ≥ ((600 : Int) : ℚ)
    norm_num
  exact ⟨rfl, hz, hx, hy,
    (clamp_view_to_window_inside sample_view sample_image rfl hz).1 hx,
    (clamp_view_to_window_inside sample_view sample_image rfl hz).2 hy⟩

/-- C6 (the code at the failing input): for the 5 x 3 image in the 800 x 600
window at zoom 1 the zoomed image is smaller than the window on both axes,
and `clamp_view_to_window` sets the centre to `(2, 1)`, because
`oriented_full_width () / 2` and `oriented_full_height () / 2` are integer
divisions; the full-extent centre of the image is `(5/2, 3/2)`. -/
theorem clamp_view_to_window_odd_image :
    odd_widget.m_current_image = some odd_image ∧
    odd_widget.m_zoom * (odd_image.oriented_full_width : ℚ) < (odd_widget.width : ℚ) ∧
    odd_widget.m_zoom * (odd_image.oriented_full_height : ℚ) < (odd_widget.height : ℚ) ∧
    odd_widget.clamp_view_to_window.m_centerx = 2 ∧
    odd_widget.clamp_view_to_window.m_centery = 1 ∧
    odd_widget.clamp_view_to_window.m_centerx
      ≠ (odd_image.oriented_full_x : ℚ) + (odd_image.oriented_full_width : ℚ) / 2 ∧
    odd_widget.clamp_view_to_window.m_centery
      ≠ (odd_image.oriented_full_y : ℚ) + (odd_image.oriented_full_height : ℚ) / 2 := by
  have hx : odd_widget.m_zoom * (odd_image.oriented_full_width : ℚ)
      < (odd_widget.width : ℚ) := by
    show (1 : ℚ) * ((5 : Int) : ℚ) < ((800 : Int) : ℚ)
    norm_num
  have hy : odd_widget.m_zoom * (odd_image.oriented_full_height : ℚ)
      < (odd_widget.height : ℚ) := by
    show (1 : ℚ) * ((3 : Int) : ℚ) < ((600 : Int) : ℚ)
    norm_num
  have hcur : odd_widget.m_current_image = some odd_image := rfl
  have cx : odd_widget.clamp_view_to_window.m_centerx = 2 := by
    simp only [clamp_view_to_window, hcur, ge_iff_le, if_neg (not_le.2 hx)]
    show (((0 : Int) + Int.tdiv 5 2 : Int) : ℚ) = 2
    norm_num [Int.tdiv]
  have cy : odd_widget.clamp_view_to_window.m_centery = 1 := by
    simp only [clamp_view_to_window, hcur, ge_iff_le, if_neg (not_le.2 hy)]
    show (((0 : Int) + Int.tdiv 3 2 : Int) : ℚ) = 1
    norm_num [Int.tdiv]
  refine ⟨hcur, hx, hy, cx, cy, ?_, ?_⟩
  · rw [cx]
    show (2 : ℚ) ≠ ((0 : Int) : ℚ) + ((5 : Int) : ℚ) / 2
    norm_num
  · rw [cy]
    show (1 : ℚ) ≠ ((0 : Int) : ℚ) + ((3 : Int) : ℚ) / 2
    norm_num

/-- C7: for every current zoom and every vertical wheel delta, the one call
`wheelEvent` makes is `zoom (z)` with `z = clamp (zoom * (1 + 0.005 *
(delta / 8)), 0.01, 256)`, where `delta / 8` is the integer division of the
code, and `z` lies in `[0.01, 256]`; in a zoom drag (Zoom mode, right button
with Alt) the one call `mouseMoveEvent` makes is `zoom (z)` with `z = clamp
(zoom * (1 + 0.005 * (dx + dy)), 0.01, 256)` for the drag delta `(dx, dy)`,
in the same range. -/
theorem zoom_handed_on_is_clamped (s : IvGL) (zoom : ℚ) (delta : Int) (alt : Bool)
    (pos_x pos_y : Int) :
    wheelEvent true delta alt zoom
      = [ViewerCall.zoom (Imath_clamp (zoom * (1 + 0.005 * ((Int.tdiv delta 8 : Int) : ℚ)))
          0.01 256)] ∧
    (0.01 : ℚ) ≤ Imath_clamp (zoom * (1 + 0.005 * ((Int.tdiv delta 8 : Int) : ℚ))) 0.01 256 ∧
    Imath_clamp (zoom * (1 + 0.005 * ((Int.tdiv delta 8 : Int) : ℚ))) 0.01 256 ≤ 256 ∧
    (mouseMoveEvent { s with m_drag_button := MouseButton.RightButton }
        MouseMode.MouseModeZoom true pos_x pos_y zoom).2
      = [ViewerCall.zoom (Imath_clamp (zoom * (1 + 0.005 *
          (((pos_x - s.m_mousex : Int) : ℚ) + ((pos_y - s.m_mousey : Int) : ℚ)))) 0.01 256)] ∧
    (0.01 : ℚ) ≤ Imath_clamp (zoom * (1 + 0.005 *
          (((pos_x - s.m_mousex : Int) : ℚ) + ((pos_y - s.m_mousey : Int) : ℚ)))) 0.01 256 ∧
    Imath_clamp (zoom * (1 + 0.005 *
          (((pos_x - s.m_mousex : Int) : ℚ) + ((pos_y - s.m_mousey : Int) : ℚ)))) 0.01 256
      ≤ 256 := by
  have hlh : (0.01 : ℚ) ≤ 256 := by norm_num
  have h1 : (1.0 : ℚ) = 1 := by norm_num
  have h256 : (256.0 : ℚ) = 256 := by norm_num
  refine ⟨?_, (Imath_clamp_mem _ _ _ hlh).1, (Imath_clamp_mem _ _ _ hlh).2, ?_,
    (Imath_clamp_mem _ _ _ hlh).1, (Imath_clamp_mem _ _ _ hlh).2⟩
  · simp [wheelEvent, h1, h256]
  · simp [mouseMoveEvent, mouseMoveEvent_flags, h1, h256]

/-- C8 (counterexample): `view` asked for zoom 1000 on the sample view
stores 1000, which is not in `[0.01, 256]`. -/
theorem view_zoom_not_clamped :
    (sample_view.view (some sample_image) 2500 1500 1000 true).1.m_zoom = 1000 ∧
    ¬ ((0.01 : ℚ) ≤ (sample_view.view (some sample_image) 2500 1500 1000 true).1.m_zoom ∧
        (sample_view.view (some sample_image) 2500 1500 1000 true).1.m_zoom ≤ 256) := by
  have h : (sample_view.view (some sample_image) 2500 1500 1000 true).1.m_zoom = 1000 := by
    simp [view, clamp_view_to_window_zoom]
  rw [h]
  norm_num

/-- C8 (amended): `view` stores the requested zoom as it is, with or without
a current image; the stored zoom is therefore in `[0.01, 256]` exactly when
the requested zoom is. -/
theorem view_stores_requested_zoom (s : IvGL) (cur : Option IvImage)
    (xcenter ycenter zoom : ℚ) (redraw : Bool) :
    (s.view cur xcenter ycenter zoom redraw).1.m_zoom = zoom ∧
    (((0.01 : ℚ) ≤ (s.view cur xcenter ycenter zoom redraw).1.m_zoom ∧
        (s.view cur xcenter ycenter zoom redraw).1.m_zoom ≤ 256)
      ↔ ((0.01 : ℚ) ≤ zoom ∧ zoom ≤ 256)) := by
  have h : (s.view cur xcenter ycenter zoom redraw).1.m_zoom = zoom := by
    simp only [view]
    split_ifs
    · rw [clamp_view_to_window_zoom]
    · rfl
  rw [h]
  exact ⟨rfl, Iff.rfl⟩

/-- C9 (counterexample): on the 800 x 600 image the mapping for code 6
followed by the mapping for its inverse code 8 sends the centre `(10, 20)`
to `(210, 20)`. -/
theorem orientation_round_trip_fails :
    orientation_round_trip 6 spec_800x600 spec_800x600 10 20 = (210, 20) ∧
    orientation_round_trip 6 spec_800x600 spec_800x600 10 20 ≠ (10, 20) := by
  have h : orientation_round_trip 6 spec_800x600 spec_800x600 10 20 = (210, 20) := by
    simp only [orientation_round_trip, orientation_inverse, paintGL_real_center, spec_800x600]
    norm_num
  rw [h]
  simp

/-- C9 (amended): for the codes 1 to 5 the centre mapping followed by the
mapping for the inverse code recovers the centre on every image. For the
codes 6, 7 and 8 it does so exactly when the image is square; with the
inverse mapping applied to the transposed image (width and height
exchanged) it recovers the centre on every image. -/
theorem orientation_round_trip_amended (spec : ImageSpec) (cx cy : ℚ) :
    orientation_round_trip 1 spec spec cx cy = (cx, cy) ∧
    orientation_round_trip 2 spec spec cx cy = (cx, cy) ∧
    orientation_round_trip 3 spec spec cx cy = (cx, cy) ∧
    orientation_round_trip 4 spec spec cx cy = (cx, cy) ∧
    orientation_round_trip 5 spec spec cx cy = (cx, cy) ∧
    (orientation_round_trip 6 spec spec cx cy = (cx, cy) ↔ spec.width = spec.height) ∧
    (orientation_round_trip 7 spec spec cx cy = (cx, cy) ↔ spec.width = spec.height) ∧
    (orientation_round_trip 8 spec spec cx cy = (cx, cy) ↔ spec.width = spec.height) ∧
    orientation_round_trip 6 spec (ImageSpec_transposed spec) cx cy = (cx, cy) ∧
    orientation_round_trip 7 spec (ImageSpec_transposed spec) cx cy = (cx, cy) ∧
    orientation_round_trip 8 spec (ImageSpec_transposed spec) cx cy = (cx, cy) := by
  have hcast : ((spec.width : ℚ) = (spec.height : ℚ)) ↔ spec.width = spec.height :=
    Int.cast_inj
  refine ⟨?_, ?_, ?_, ?_, ?_, ?_, ?_, ?_, ?_, ?_, ?_⟩
  · simp [orientation_round_trip, orientation_inverse, paintGL_real_center]
  · simp [orientation_round_trip, orientation_inverse, paintGL_real_center]
  · simp [orientation_round_trip, orientation_inverse, paintGL_real_center]
  · simp [orientation_round_trip, orientation_inverse, paintGL_real_center]
  · simp [orientation_round_trip, orientation_inverse, paintGL_real_center]
  · simp only [orientation_round_trip, orientation_inverse, paintGL_real_center]
    norm_num
    constructor
    · intro h
      apply hcast.1
      linarith
    · intro h
      have h2 := hcast.2 h
      linarith
  · simp only [orientation_round_trip, orientation_inverse, paintGL_real_center]
    norm_num
    constructor
    · intro h
      apply hcast.1
      linarith [h.1]
    · intro h
      have h2 := hcast.2 h
      constructor <;> linarith
  · simp only [orientation_round_trip, orientation_inverse, paintGL_real_center]
    norm_num
    constructor
    · intro h
      apply hcast.1
      linarith
    · intro h
      have h2 := hcast.2 h
      linarith
  · simp [orientation_round_trip, orientation_inverse, paintGL_real_center,
      ImageSpec_transposed]
  · simp [orientation_round_trip, orientation_inverse, paintGL_real_center,
      ImageSpec_transposed]
  · simp [orientation_round_trip, orientation_inverse, paintGL_real_center,
      ImageSpec_transposed]

/-- C10: for orientation code 6 the orientation-corrected centre of `paintGL`
is `(cy, height - cx)` on every image; on the 800 x 600 image the centre
`(10, 20)` becomes `(20, 590)`; for the codes 0 and 1 the centre is passed
through unchanged. -/
theorem real_center_code_6 (spec : ImageSpec) (cx cy : ℚ) :
    paintGL_real_center 6 spec cx cy = (cy, (spec.height : ℚ) - cx) ∧
    paintGL_real_center 6 spec_800x600 10 20 = (20, 590) ∧
    paintGL_real_center 0 spec cx cy = (cx, cy) ∧
    paintGL_real_center 1 spec cx cy = (cx, cy) := by
  refine ⟨?_, ?_, ?_, ?_⟩
  · simp [paintGL_real_center]
  · simp only [paintGL_real_center, spec_800x600]
    norm_num
  · simp [paintGL_real_center]
  · simp [paintGL_real_center]

end IvGL

/-! ## The tile enumeration of `paintGL`: claim C1 -/

namespace IvGL

theorem paintGL_xloop_spec (xend yend tw th : Int) (adv : ℚ) (ystart : Int) (htw : 1 ≤ tw) :
    ∀ (fuel : Nat) (xstart : Int) (percent : ℚ), (xend - xstart).toNat ≤ fuel →
      ∃ ts p, paintGL_xloop xend yend tw th adv ystart fuel xstart percent = some (ts, p) ∧
        (∀ t ∈ ts, t.ystart = ystart ∧ t.tile_height = min (yend - ystart) th ∧
          xstart ≤ t.xstart) ∧
        (∀ px py : Int, (∃ t ∈ ts, t.covers px py) ↔
          (xstart ≤ px ∧ px < xend ∧ ystart ≤ py ∧ py < ystart + min (yend - ystart) th)) ∧
        ts.Pairwise TileDraw_disjoint := by
  intro fuel
  induction fuel with
  | zero =>
    intro xstart percent hfuel
    have hge : ¬ xstart < xend := by omega
    refine ⟨[], percent, by simp [paintGL_xloop, hge], by simp, ?_, List.Pairwise.nil⟩
    intro px py
    constructor
    · rintro ⟨t, ht, -⟩
      simp at ht
    · intro h
      omega
  | succ fuel ih =>
    intro xstart percent hfuel
    by_cases hlt : xstart < xend
    · obtain ⟨ts, p, hrun, hall, hcov, hpair⟩ :=
        ih (xstart + tw) (percent + adv) (by omega)
      refine ⟨paintGL_draw xend yend tw th xstart ystart percent :: ts, p,
        by simp only [paintGL_xloop, if_pos hlt, hrun], ?_, ?_, ?_⟩
      · intro t ht
        rcases List.mem_cons.1 ht with rfl | ht
        · exact ⟨rfl, rfl, le_refl _⟩
        · obtain ⟨h1, h2, h3⟩ := hall t ht
          exact ⟨h1, h2, by omega⟩
      · intro px py
        constructor
        · rintro ⟨t, ht, hc⟩
          rcases List.mem_cons.1 ht with rfl | ht
          · simp only [TileDraw.covers, paintGL_draw] at hc
            omega
          · have := (hcov px py).1 ⟨t, ht, hc⟩
            omega
        · intro h
          by_cases hpx : px < xstart + tw
          · refine ⟨_, List.mem_cons_self _ _, ?_⟩
            simp only [TileDraw.covers, paintGL_draw]
            omega
          · obtain ⟨t, ht, hc⟩ := (hcov px py).2 (by omega)
            exact ⟨t, List.mem_cons_of_mem _ ht, hc⟩
      · refine List.Pairwise.cons ?_ hpair
        intro b hb px py hboth
        obtain ⟨-, -, hbx⟩ := hall b hb
        have h1 := hboth.1
        have h2 := hboth.2
        simp only [TileDraw.covers, paintGL_draw] at h1 h2
        omega
    · refine ⟨[], percent, by simp [paintGL_xloop, hlt], by simp, ?_, List.Pairwise.nil⟩
      intro px py
      constructor
      · rintro ⟨t, ht, -⟩
        simp at ht
      · intro h
        omega

theorem paintGL_yloop_spec (xbegin xend yend tw th : Int) (adv : ℚ) (fuel : Nat)
    (htw : 1 ≤ tw) (hth : 1 ≤ th) (hfuel : (xend - xbegin).toNat ≤ fuel) :
    ∀ (rows : Nat) (ystart : Int) (percent : ℚ), (yend - ystart).toNat ≤ rows →
      ∃ ts, paintGL_yloop xbegin xend yend tw th adv fuel rows ystart percent = some ts ∧
        (∀ t ∈ ts, ystart ≤ t.ystart) ∧
        (∀ px py : Int, (∃ t ∈ ts, t.covers px py) ↔
          (xbegin ≤ px ∧ px < xend ∧ ystart ≤ py ∧ py < yend)) ∧
        ts.Pairwise TileDraw_disjoint := by
  intro rows
  induction rows with
  | zero =>
    intro ystart percent hrows
    have hge : ¬ ystart < yend := by omega
    refine ⟨[], by simp [paintGL_yloop, hge], by simp, ?_, List.Pairwise.nil⟩
    intro px py
    constructor
    · rintro ⟨t, ht, -⟩
      simp at ht
    · intro h
      omega
  | succ rows ih =>
    intro ystart percent hrows
    by_cases hlt : ystart < yend
    · obtain ⟨row, p, hrow, hrall, hrcov, hrpair⟩ :=
        paintGL_xloop_spec xend yend tw th adv ystart htw fuel xbegin percent hfuel
      obtain ⟨rest, hrest, hsall, hscov, hspair⟩ := ih (ystart + th) p (by omega)
      refine ⟨row ++ rest, by simp [paintGL_yloop, hlt, hrow, hrest], ?_, ?_, ?_⟩
      · intro t ht
        rcases List.mem_append.1 ht with ht | ht
        · exact le_of_eq (hrall t ht).1.symm
        · have := hsall t ht
          omega
      · intro px py
        constructor
        · rintro ⟨t, ht, hc⟩
          rcases List.mem_append.1 ht with ht | ht
          · have := (hrcov px py).1 ⟨t, ht, hc⟩
            omega
          · have := (hscov px py).1 ⟨t, ht, hc⟩
            omega
        · intro h
          by_cases hpy : py < ystart + th
          · obtain ⟨t, ht, hc⟩ := (hrcov px py).2 (by omega)
            exact ⟨t, List.mem_append_left _ ht, hc⟩
          · obtain ⟨t, ht, hc⟩ := (hscov px py).2 (by omega)
            exact ⟨t, List.mem_append_right _ ht, hc⟩
      · rw [List.pairwise_append]
        refine ⟨hrpair, hspair, ?_⟩
        intro a ha b hb px py hboth
        obtain ⟨ha1, ha2, -⟩ := hrall a ha
        have hb1 := hsall b hb
        have h1 := hboth.1
        have h2 := hboth.2
        simp only [TileDraw.covers] at h1 h2
        omega
    · refine ⟨[], by simp [paintGL_yloop, hlt], by simp, ?_, List.Pairwise.nil⟩
      intro px py
      constructor
      · rintro ⟨t, ht, -⟩
        simp at ht
      · intro h
        omega

theorem paintGL_tiles_spec (s : IvGL) (img : IvImage) (fuel : Nat)
    (hcur : s.m_current_image = some img) (hvalid : img.image_valid = true)
    (htw : 1 ≤ s.m_texture_width) (hth : 1 ≤ s.m_texture_height)
    (hfx : ((s.paintGL_range img).xend - (s.paintGL_range img).xbegin).toNat ≤ fuel)
    (hfy : ((s.paintGL_range img).yend - (s.paintGL_range img).ybegin).toNat ≤ fuel) :
    ∃ ts, s.paintGL_tiles fuel = some ts ∧
      (∀ px py : Int, (∃ t ∈ ts, t.covers px py) ↔ (s.paintGL_range img).contains px py) ∧
      ts.Pairwise TileDraw_disjoint := by
  obtain ⟨ts, hrun, -, hcov, hpair⟩ :=
    paintGL_yloop_spec (s.paintGL_range img).xbegin (s.paintGL_range img).xend
      (s.paintGL_range img).yend s.m_texture_width s.m_texture_height
      (1 / ((s.paintGL_total_tiles (s.paintGL_range img) : Int) : ℚ)) fuel htw hth hfx fuel
      (s.paintGL_range img).ybegin (1 / ((s.paintGL_total_tiles (s.paintGL_range img) : Int) : ℚ))
      hfy
  refine ⟨ts, ?_, hcov, hpair⟩
  simp only [paintGL_tiles, hcur, hvalid]
  exact hrun

theorem tmod_snap_down (a b : Int) (hb : 1 ≤ b) :
    (0 ≤ a → a - Int.tmod a b ≤ a) ∧ (a ≤ 0 → a - Int.tmod a b ≤ 0) := by
  constructor
  · intro ha
    have := Int.tmod_nonneg b ha
    omega
  · intro ha
    have h1 : a - Int.tmod a b = b * Int.tdiv a b := by
      rw [Int.tmod_def]
      ring
    have h2 : Int.tdiv a b ≤ 0 := by
      have h3 : Int.tdiv a b = -(Int.tdiv (-a) b) := by
        rw [Int.neg_tdiv, neg_neg]
      have h4 : 0 ≤ Int.tdiv (-a) b := Int.tdiv_nonneg (by omega) (by omega)
      omega
    rw [h1]
    exact Int.mul_nonpos_of_nonneg_of_nonpos (by omega) h2

theorem paintGL_range_spec (s : IvGL) (img : IvImage)
    (htw : 1 ≤ s.m_texture_width) (hth : 1 ≤ s.m_texture_height) :
    (∀ px py : Int, (s.paintGL_range img).contains px py → img.spec.in_image px py) ∧
    ((0 ≤ img.spec.x ∨ 0 ≤ (s.paintGL_window img).xbegin) →
      (0 ≤ img.spec.y ∨ 0 ≤ (s.paintGL_window img).ybegin) →
      ∀ px py : Int, (s.paintGL_window img).contains px py → img.spec.in_image px py →
        (s.paintGL_range img).contains px py) := by
  have hxe := Int.tmod_lt_of_pos (s.paintGL_window img).xend (show 0 < s.m_texture_width by omega)
  have hye := Int.tmod_lt_of_pos (s.paintGL_window img).yend (show 0 < s.m_texture_height by omega)
  have hxb := tmod_snap_down (s.paintGL_window img).xbegin s.m_texture_width htw
  have hyb := tmod_snap_down (s.paintGL_window img).ybegin s.m_texture_height hth
  constructor
  · intro px py h
    simp only [paintGL_range, TileRange.contains] at h
    simp only [ImageSpec.in_image]
    omega
  · intro hx hy px py hwin himg
    simp only [TileRange.contains] at hwin
    simp only [ImageSpec.in_image] at himg
    simp only [paintGL_range, TileRange.contains]
    omega

theorem sample_view_window :
    sample_view.paintGL_window sample_image
      = { xbegin := 2100, ybegin := 1200, xend := 2900, yend := 1800 } := by
  have hz : sample_view.m_zoom = 1 := rfl
  have hcx : sample_view.m_centerx = 2500 := rfl
  have hcy : sample_view.m_centery = 1500 := rfl
  have hw : sample_view.width = 800 := rfl
  have hh : sample_view.height = 600 := rfl
  have ho : sample_image.orientation = 1 := rfl
  have c1 : ⌈((800 : Int) : ℚ) / (2 * 1)⌉ = 400 := by
    rw [Int.ceil_eq_iff]
    norm_num
  have c2 : ⌈((600 : Int) : ℚ) / (2 * 1)⌉ = 300 := by
    rw [Int.ceil_eq_iff]
    norm_num
  have f1 : ⌊(2500 : ℚ)⌋ = 2500 := by
    rw [Int.floor_eq_iff]
    norm_num
  have f2 : ⌊(1500 : ℚ)⌋ = 1500 := by
    rw [Int.floor_eq_iff]
    norm_num
  simp only [paintGL_window, paintGL_wincenter, paintGL_real_center, hz, hcx, hcy, hw, hh, ho,
    c1, c2]
  norm_num [f1, f2]

theorem sample_view_range :
    sample_view.paintGL_range sample_image
      = { xbegin := 2048, ybegin := 0, xend := 4096, yend := 2048 } := by
  have htw : sample_view.m_texture_width = 2048 := rfl
  have hth : sample_view.m_texture_height = 2048 := rfl
  simp only [paintGL_range, sample_view_window, htw, hth]
  decide

theorem sample_view_tiles :
    sample_view.paintGL_tiles 1
      = some [ { xstart := 2048, ystart := 0, tile_width := 2048, tile_height := 2048,
                 percent := 1, smin := 0, tmin := 0, smax := 1, tmax := 1 } ] := by
  have hcur : sample_view.m_current_image = some sample_image := rfl
  have hv : sample_image.image_valid = true := rfl
  have htw : sample_view.m_texture_width = 2048 := rfl
  have hth : sample_view.m_texture_height = 2048 := rfl
  have htot : sample_view.paintGL_total_tiles
      { xbegin := 2048, ybegin := 0, xend := 4096, yend := 2048 } = 1 := by
    simp only [paintGL_total_tiles, htw, hth]
    norm_num [float_to_int]
  simp only [paintGL_tiles, hcur, hv, sample_view_range, htot, htw, hth]
  norm_num [paintGL_yloop, paintGL_xloop, paintGL_draw]

theorem sample_view_int_range : sample_view.paintGL_int_range sample_image := by
  have hz : sample_view.m_zoom = 1 := rfl
  have hcx : sample_view.m_centerx = 2500 := rfl
  have hcy : sample_view.m_centery = 1500 := rfl
  have hw : sample_view.width = 800 := rfl
  have hh : sample_view.height = 600 := rfl
  have ho : sample_image.orientation = 1 := rfl
  have htw : sample_view.m_texture_width = 2048 := rfl
  have hth : sample_view.m_texture_height = 2048 := rfl
  have hsx : sample_image.spec.x + sample_image.spec.width = 5000 := rfl
  have hsy : sample_image.spec.y + sample_image.spec.height = 3000 := rfl
  have c1 : ⌈((800 : Int) : ℚ) / (2 * 1)⌉ = 400 := by
    rw [Int.ceil_eq_iff]
    norm_num
  have c2 : ⌈((600 : Int) : ℚ) / (2 * 1)⌉ = 300 := by
    rw [Int.ceil_eq_iff]
    norm_num
  have f1 : ⌊(2500 : ℚ)⌋ = 2500 := by
    rw [Int.floor_eq_iff]
    norm_num
  have f2 : ⌊(1500 : ℚ)⌋ = 1500 := by
    rw [Int.floor_eq_iff]
    norm_num
  have htot : sample_view.paintGL_total_tiles
      { xbegin := 2048, ybegin := 0, xend := 4096, yend := 2048 } = 1 := by
    simp only [paintGL_total_tiles, htw, hth]
    norm_num [float_to_int]
  simp only [paintGL_int_range, sample_view_window, sample_view_range, paintGL_wincenter,
    paintGL_real_center, hz, hcx, hcy, hw, hh, ho, htw, hth, hsx, hsy, c1, c2, htot]
  have m1 : Int.tmod 2900 2048 = 852 := by decide
  have m2 : Int.tmod 1800 2048 = 1800 := by decide
  norm_num [f1, f2, int_range, m1, m2]

/-- At zoom `2^-23` the half extent of the 800 pixel wide window is
3355443200, outside the int range. -/
theorem tiny_zoom_view_wincenter :
    (tiny_zoom_view.paintGL_wincenter sample_image.orientation).1 = 3355443200 ∧
    ¬ tiny_zoom_view.paintGL_int_range sample_image := by
  have hz : tiny_zoom_view.m_zoom = 1 / 8388608 := rfl
  have hw : tiny_zoom_view.width = 800 := rfl
  have hh : tiny_zoom_view.height = 600 := rfl
  have ho : sample_image.orientation = 1 := rfl
  have c1 : ⌈((800 : Int) : ℚ) / (2 * (1 / 8388608))⌉ = 3355443200 := by
    rw [Int.ceil_eq_iff]
    norm_num
  have h1 : (tiny_zoom_view.paintGL_wincenter sample_image.orientation).1 = 3355443200 := by
    simp only [paintGL_wincenter, hz, hw, hh, ho, c1]
    norm_num
  refine ⟨h1, fun h => ?_⟩
  have h2 := h.1
  rw [h1] at h2
  exact absurd h2 (by decide)

/-- C1 (counterexample): for the 5000 x 3000 image with 2048 x 2048 tiles in
the 800 x 600 window at zoom 1, centred on `(2500, 1500)`, `paintGL` draws
the single tile `[2048, 4096) x [0, 2048)`, while the requested window is
`[2100, 2900) x [1200, 1800)`: pixel `(2048, 0)` is drawn and lies outside
the window, so the union of the tiles is not the window cut to the image. -/
theorem paintGL_tiles_exceed_window :
    sample_view.paintGL_tiles 1
      = some [ { xstart := 2048, ystart := 0, tile_width := 2048, tile_height := 2048,
                 percent := 1, smin := 0, tmin := 0, smax := 1, tmax := 1 } ] ∧
    sample_view.paintGL_window sample_image
      = { xbegin := 2100, ybegin := 1200, xend := 2900, yend := 1800 } ∧
    ¬ (∀ px py : Int,
        (∃ t ∈ [ ({ xstart := 2048, ystart := 0, tile_width := 2048, tile_height := 2048,
                    percent := 1, smin := 0, tmin := 0, smax := 1, tmax := 1 } : TileDraw) ],
            t.covers px py)
          ↔ ((sample_view.paintGL_window sample_image).contains px py ∧
              sample_image.spec.in_image px py)) := by
  refine ⟨sample_view_tiles, sample_view_window, ?_⟩
  intro h
  have h1 := (h 2048 0).1 ⟨_, List.mem_singleton.2 rfl, by decide⟩
  rw [sample_view_window] at h1
  exact absurd h1.1 (by decide)

/-- C1 (amended): in exact arithmetic, with a valid current image, tile sizes
of at least 1, a positive zoom, and a zoom, centre, viewport and image for
which every `int` of the range computation and of the loop counters stays
inside the int range (`paintGL_int_range`), the tile loop of `paintGL` ends
(any fuel of at least the width and the height of the range suffices) and
the union of the tile rectangles it enumerates is exactly the range
`[xbegin, xend) x [ybegin, yend)` that `paintGL` computes, the window
snapped outward to tile multiples and cut to the image; two distinct tiles
share no pixel; the range lies inside the image bounds; and when, on each
axis, the image origin or the lower edge of the requested window is
non-negative, every image pixel of the requested window `[floor(cx) - halfW,
floor(cx) + halfW) x [floor(cy) - halfH, floor(cy) + halfH)` is covered by a
tile. -/
theorem paintGL_tiles_cover_range (s : IvGL) (img : IvImage) (fuel : Nat)
    (hcur : s.m_current_image = some img) (hvalid : img.image_valid = true)
    (htw : 1 ≤ s.m_texture_width) (hth : 1 ≤ s.m_texture_height) (_hz : 0 < s.m_zoom)
    (_hint : s.paintGL_int_range img)
    (hfx : ((s.paintGL_range img).xend - (s.paintGL_range img).xbegin).toNat ≤ fuel)
    (hfy : ((s.paintGL_range img).yend - (s.paintGL_range img).ybegin).toNat ≤ fuel) :
    ∃ ts, s.paintGL_tiles fuel = some ts ∧
      (∀ px py : Int, (∃ t ∈ ts, t.covers px py) ↔ (s.paintGL_range img).contains px py) ∧
      ts.Pairwise TileDraw_disjoint ∧
      (∀ px py : Int, (s.paintGL_range img).contains px py → img.spec.in_image px py) ∧
      ((0 ≤ img.spec.x ∨ 0 ≤ (s.paintGL_window img).xbegin) →
        (0 ≤ img.spec.y ∨ 0 ≤ (s.paintGL_window img).ybegin) →
        ∀ px py : Int, (s.paintGL_window img).contains px py → img.spec.in_image px py →
          ∃ t ∈ ts, t.covers px py) := by
  obtain ⟨ts, hrun, hcov, hpair⟩ := paintGL_tiles_spec s img fuel hcur hvalid htw hth hfx hfy
  obtain ⟨hin, hwin⟩ := paintGL_range_spec s img htw hth
  exact ⟨ts, hrun, hcov, hpair, hin,
    fun hx hy px py h1 h2 => (hcov px py).2 (hwin hx hy px py h1 h2)⟩

/-- Witness of C1 (amended): the sample view, whose range is 2048 wide and
high; pixel `(2100, 1200)` of the requested window is covered. -/
theorem paintGL_tiles_cover_range_witness :
    sample_view.m_current_image = some sample_image ∧ sample_image.image_valid = true ∧
    1 ≤ sample_view.m_texture_width ∧ 1 ≤ sample_view.m_texture_height ∧
    0 < sample_view.m_zoom ∧ sample_view.paintGL_int_range sample_image ∧
    ((sample_view.paintGL_range sample_image).xend
      - (sample_view.paintGL_range sample_image).xbegin).toNat ≤ 2048 ∧
    ((sample_view.paintGL_range sample_image).yend
      - (sample_view.paintGL_range sample_image).ybegin).toNat ≤ 2048 ∧
    (0 ≤ sample_image.spec.x ∨ 0 ≤ (sample_view.paintGL_window sample_image).xbegin) ∧
    (0 ≤ sample_image.spec.y ∨ 0 ≤ (sample_view.paintGL_window sample_image).ybegin) ∧
    (sample_view.paintGL_window sample_image).contains 2100 1200 ∧
    sample_image.spec.in_image 2100 1200 ∧
    ∃ ts, sample_view.paintGL_tiles 2048 = some ts ∧
      (∀ px py : Int, (∃ t ∈ ts, t.covers px py)
        ↔ (sample_view.paintGL_range sample_image).contains px py) ∧
      ts.Pairwise TileDraw_disjoint ∧
      (∀ px py : Int, (sample_view.paintGL_range sample_image).contains px py →
        sample_image.spec.in_image px py) ∧
      ∃ t ∈ ts, t.covers 2100 1200 := by
  have hz : 0 < sample_view.m_zoom := by
    show (0 : ℚ) < 1
    norm_num
  have hfx : ((sample_view.paintGL_range sample_image).xend
      - (sample_view.paintGL_range sample_image).xbegin).toNat ≤ 2048 := by
    rw [sample_view_range]
    decide
  have hfy : ((sample_view.paintGL_range sample_image).yend
      - (sample_view.paintGL_range sample_image).ybegin).toNat ≤ 2048 := by
    rw [sample_view_range]
    decide
  have hwin : (sample_view.paintGL_window sample_image).contains 2100 1200 := by
    rw [sample_view_window]
    decide
  have himg : sample_image.spec.in_image 2100 1200 := by
    simp only [ImageSpec.in_image, sample_image]
    decide
  have hint : sample_view.paintGL_int_range sample_image := sample_view_int_range
  obtain ⟨ts, h1, h2, h3, h4, h5⟩ :=
    paintGL_tiles_cover_range sample_view sample_image 2048 rfl rfl (by decide) (by decide)
      hz hint hfx hfy
  exact ⟨rfl, rfl, by decide, by decide, hz, hint, hfx, hfy, Or.inl (by decide),
    Or.inl (by decide),
    hwin, himg, ts, h1, h2, h3, h4,
    h5 (Or.inl (by decide)) (Or.inl (by decide)) 2100 1200 hwin himg⟩

end IvGL

/-! ## The tile texture size: claim C11 -/

namespace IvGL

theorem pow2roundup_loop_spec :
    ∀ (fuel i x : Nat), x ≤ 2 ^ (i + fuel) → (i = 0 ∨ 2 ^ (i - 1) < x) →
      ∃ k : Nat, pow2roundup_loop fuel (2 ^ i) x = 2 ^ k ∧ x ≤ 2 ^ k ∧
        (k = 0 ∨ 2 ^ (k - 1) < x) := by
  intro fuel
  induction fuel with
  | zero =>
    intro i x hx hi
    exact ⟨i, rfl, by simpa using hx, hi⟩
  | succ fuel ih =>
    intro i x hx hi
    by_cases hle : x ≤ 2 ^ i
    · exact ⟨i, by simp [pow2roundup_loop, hle], hle, hi⟩
    · have hstep : pow2roundup_loop (fuel + 1) (2 ^ i) x
          = pow2roundup_loop fuel (2 ^ (i + 1)) x := by
        simp only [pow2roundup_loop, if_neg hle]
        rw [Nat.pow_succ, Nat.mul_comm]
      rw [hstep]
      apply ih (i + 1) x
      · have : i + 1 + fuel = i + (fuel + 1) := by omega
        rw [this]
        exact hx
      · right
        simpa using Nat.lt_of_not_le hle

theorem pow2roundup_spec (x : Int) (hx : 1 ≤ x) :
    ∃ k : Nat, pow2roundup x = 2 ^ k ∧ x ≤ 2 ^ k ∧ ∀ j : Nat, x ≤ 2 ^ j → (2 : Int) ^ k ≤ 2 ^ j := by
  obtain ⟨k, hk, hle, hmin⟩ :=
    pow2roundup_loop_spec x.toNat 0 x.toNat
      (by rw [Nat.zero_add]; exact Nat.le_of_lt (Nat.lt_two_pow _)) (Or.inl rfl)
  have hxn : ((x.toNat : Nat) : Int) = x := Int.toNat_of_nonneg (by omega)
  refine ⟨k, ?_, ?_, ?_⟩
  · simp only [pow2roundup]
    simp only [pow_zero] at hk
    rw [hk]
    push_cast
    rfl
  · rw [← hxn]
    exact_mod_cast hle
  · intro j hj
    have hj' : x.toNat ≤ 2 ^ j := by
      rw [← hxn] at hj
      exact_mod_cast hj
    have hkj : k ≤ j := by
      rcases hmin with h0 | hlt
      · omega
      · have h1 : 2 ^ (k - 1) < 2 ^ j := Nat.lt_of_lt_of_le hlt hj'
        have h2 := (Nat.pow_lt_pow_iff_right (by decide : 1 < 2)).1 h1
        omega
    exact_mod_cast Nat.pow_le_pow_right (by decide : 2 > 0) hkj

/-- C11: for an image at least 1 pixel wide and high, after
`check_gl_extensions` stored `min (reported size, 4096)` as the maximum
texture size, `update` sets the tile texture width to `min (2^kw, that
maximum)` where `2^kw` is the smallest power of two that is at least the
image width, and the height likewise; neither exceeds 4096. For the 5000 x
3000 image and a reported size of 2048 the tile texture is 2048 x 2048. -/
theorem update_texture_size (s : IvGL) (glew : GlewSupport) (reported : Int) (img : IvImage)
    (hw : 1 ≤ img.spec.width) (hh : 1 ≤ img.spec.height) :
    (s.check_gl_extensions glew reported).m_max_texture_size = min reported 4096 ∧
    (∃ kw kh : Nat,
      (img.spec.width ≤ 2 ^ kw ∧ ∀ j : Nat, img.spec.width ≤ 2 ^ j → (2 : Int) ^ kw ≤ 2 ^ j) ∧
      (img.spec.height ≤ 2 ^ kh ∧ ∀ j : Nat, img.spec.height ≤ 2 ^ j → (2 : Int) ^ kh ≤ 2 ^ j) ∧
      ((s.check_gl_extensions glew reported).update (some img)).m_texture_width
        = min (2 ^ kw) (min reported 4096) ∧
      ((s.check_gl_extensions glew reported).update (some img)).m_texture_height
        = min (2 ^ kh) (min reported 4096)) ∧
    ((s.check_gl_extensions glew reported).update (some img)).m_texture_width ≤ 4096 ∧
    ((s.check_gl_extensions glew reported).update (some img)).m_texture_height ≤ 4096 ∧
    ((s.check_gl_extensions glew 2048).update (some sample_image)).m_texture_width = 2048 ∧
    ((s.check_gl_extensions glew 2048).update (some sample_image)).m_texture_height = 2048 := by
  obtain ⟨kw, hkw, hwle, hwmin⟩ := pow2roundup_spec img.spec.width hw
  obtain ⟨kh, hkh, hhle, hhmin⟩ := pow2roundup_spec img.spec.height hh
  have hW : ((s.check_gl_extensions glew reported).update (some img)).m_texture_width
      = min (2 ^ kw) (min reported 4096) := by
    simp only [update, check_gl_extensions, hkw]
  have hH : ((s.check_gl_extensions glew reported).update (some img)).m_texture_height
      = min (2 ^ kh) (min reported 4096) := by
    simp only [update, check_gl_extensions, hkh]
  refine ⟨rfl, ⟨kw, kh, ⟨hwle, hwmin⟩, ⟨hhle, hhmin⟩, hW, hH⟩, ?_, ?_, ?_, ?_⟩
  · rw [hW]
    exact le_trans (min_le_right _ _) (min_le_right _ _)
  · rw [hH]
    exact le_trans (min_le_right _ _) (min_le_right _ _)
  · simp only [update, check_gl_extensions]
    decide
  · simp only [update, check_gl_extensions]
    decide

/-- Witness of C11: the 5000 x 3000 sample image on a fresh widget with a
reported maximum of 8192. -/
theorem update_texture_size_witness :
    1 ≤ sample_image.spec.width ∧ 1 ≤ sample_image.spec.height ∧
    (((IvGL.init 800 600).check_gl_extensions
        { GL_VERSION_2_0 := true, GL_ARB_shader_objects_vertex_fragment := false,
          GL_VERSION_2_1 := true, GL_EXT_texture_sRGB := false, GL_VERSION_3_0 := false,
          GL_ARB_half_float_pixel := false, GL_NV_half_float_pixel := false,
          GL_ARB_texture_float := false, GL_ATI_texture_float := false,
          GL_VERSION_1_5 := true, GL_ARB_pixel_buffer_object := false } 8192).update
      (some sample_image)).m_texture_width ≤ 4096 :=
  ⟨by decide, by decide,
    (update_texture_size (IvGL.init 800 600)
      { GL_VERSION_2_0 := true, GL_ARB_shader_objects_vertex_fragment := false,
        GL_VERSION_2_1 := true, GL_EXT_texture_sRGB := false, GL_VERSION_3_0 := false,
        GL_ARB_half_float_pixel := false, GL_NV_half_float_pixel := false,
        GL_ARB_texture_float := false, GL_ATI_texture_float := false,
        GL_VERSION_1_5 := true, GL_ARB_pixel_buffer_object := false } 8192 sample_image
      (by decide) (by decide)).2.2.1⟩

end IvGL

/-! ## The used part of a tile: claim C12 -/

namespace IvGL

theorem paintGL_xloop_draws (xend yend tw th : Int) (adv : ℚ) (ystart : Int) :
    ∀ (fuel : Nat) (xstart : Int) (percent : ℚ) (ts : List TileDraw) (p : ℚ),
      paintGL_xloop xend yend tw th adv ystart fuel xstart percent = some (ts, p) →
      ∀ t ∈ ts, ∃ (k : Nat) (pc : ℚ),
        t = paintGL_draw xend yend tw th (xstart + k * tw) ystart pc ∧
          xstart + k * tw < xend := by
  intro fuel
  induction fuel with
  | zero =>
    intro xstart percent ts p hrun t ht
    by_cases hlt : xstart < xend
    · simp [paintGL_xloop, hlt] at hrun
    · simp [paintGL_xloop, hlt] at hrun
      rw [hrun.1] at ht
      simp at ht
  | succ fuel ih =>
    intro xstart percent ts p hrun t ht
    by_cases hlt : xstart < xend
    · simp only [paintGL_xloop, if_pos hlt] at hrun
      cases hrec : paintGL_xloop xend yend tw th adv ystart fuel (xstart + tw)
          (percent + adv) with
      | none => simp [hrec] at hrun
      | some res =>
        obtain ⟨ts', p'⟩ := res
        simp only [hrec, Option.some.injEq, Prod.mk.injEq] at hrun
        rw [← hrun.1] at ht
        rcases List.mem_cons.1 ht with rfl | ht
        · exact ⟨0, percent, by simp, by simpa using hlt⟩
        · obtain ⟨k, pc, hk, hk'⟩ := ih (xstart + tw) (percent + adv) ts' p' hrec t ht
          refine ⟨k + 1, pc, ?_, ?_⟩
          · rw [hk]
            congr 1
            push_cast
            ring
          · push_cast
            have : xstart + ((k : Int) + 1) * tw = xstart + tw + k * tw := by ring
            rw [this]
            exact hk'
    · simp [paintGL_xloop, hlt] at hrun
      rw [hrun.1] at ht
      simp at ht

theorem paintGL_yloop_draws (xbegin xend yend tw th : Int) (adv : ℚ) (fuel : Nat) :
    ∀ (rows : Nat) (ystart : Int) (percent : ℚ) (ts : List TileDraw),
      paintGL_yloop xbegin xend yend tw th adv fuel rows ystart percent = some ts →
      ∀ t ∈ ts, ∃ (kx ky : Nat) (pc : ℚ),
        t = paintGL_draw xend yend tw th (xbegin + kx * tw) (ystart + ky * th) pc ∧
          xbegin + kx * tw < xend ∧ ystart + ky * th < yend := by
  intro rows
  induction rows with
  | zero =>
    intro ystart percent ts hrun t ht
    by_cases hlt : ystart < yend
    · simp [paintGL_yloop, hlt] at hrun
    · simp [paintGL_yloop, hlt] at hrun
      rw [hrun] at ht
      simp at ht
  | succ rows ih =>
    intro ystart percent ts hrun t ht
    by_cases hlt : ystart < yend
    · simp only [paintGL_yloop, if_pos hlt] at hrun
      cases hrow : paintGL_xloop xend yend tw th adv ystart fuel xbegin percent with
      | none => simp [hrow] at hrun
      | some res =>
        obtain ⟨row, p⟩ := res
        simp only [hrow] at hrun
        cases hrest : paintGL_yloop xbegin xend yend tw th adv fuel rows (ystart + th) p with
        | none => simp [hrest] at hrun
        | some rest =>
          simp only [hrest, Option.some.injEq] at hrun
          rw [← hrun] at ht
          rcases List.mem_append.1 ht with ht | ht
          · obtain ⟨k, pc, hk, hk'⟩ :=
              paintGL_xloop_draws xend yend tw th adv ystart fuel xbegin percent row p hrow t ht
            exact ⟨k, 0, pc, by simpa using hk, hk', by simpa using hlt⟩
          · obtain ⟨kx, ky, pc, hk, hkx, hky⟩ := ih (ystart + th) p rest hrest t ht
            refine ⟨kx, ky + 1, pc, ?_, hkx, ?_⟩
            · rw [hk]
              congr 1
              push_cast
              ring
            · push_cast
              have : ystart + ((ky : Int) + 1) * th = ystart + th + ky * th := by ring
              rw [this]
              exact hky
    · simp [paintGL_yloop, hlt] at hrun
      rw [hrun] at ht
      simp at ht

theorem paintGL_tiles_draws (s : IvGL) (img : IvImage) (fuel : Nat) (ts : List TileDraw)
    (hcur : s.m_current_image = some img) (hvalid : img.image_valid = true)
    (hrun : s.paintGL_tiles fuel = some ts) :
    ∀ t ∈ ts, ∃ (kx ky : Nat) (pc : ℚ),
      t = paintGL_draw (s.paintGL_range img).xend (s.paintGL_range img).yend
            s.m_texture_width s.m_texture_height
            ((s.paintGL_range img).xbegin + kx * s.m_texture_width)
            ((s.paintGL_range img).ybegin + ky * s.m_texture_height) pc ∧
        (s.paintGL_range img).xbegin + kx * s.m_texture_width < (s.paintGL_range img).xend ∧
        (s.paintGL_range img).ybegin + ky * s.m_texture_height < (s.paintGL_range img).yend := by
  simp only [paintGL_tiles, hcur, hvalid] at hrun
  exact paintGL_yloop_draws _ _ _ _ _ _ fuel fuel _ _ ts hrun

theorem lattice_le_of_lt (b w : Int) (k k' : Nat) (hw : 1 ≤ w)
    (h : b + k' * w < b + k * w + w) : b + (k' : Int) * w ≤ b + k * w := by
  have h1 : (k' : Int) * w < ((k : Int) + 1) * w := by
    have : ((k : Int) + 1) * w = k * w + w := by ring
    omega
  have h2 : (k' : Int) < (k : Int) + 1 := lt_of_mul_lt_mul_right h1 (by omega)
  have h3 : (k' : Int) ≤ k := by omega
  have h4 : (k' : Int) * w ≤ k * w := mul_le_mul_of_nonneg_right h3 (by omega)
  omega

theorem wide_view_window :
    wide_view.paintGL_window sample_image
      = { xbegin := -1500, ybegin := -1500, xend := 6500, yend := 4500 } := by
  have hz : wide_view.m_zoom = 1 / 10 := rfl
  have hcx : wide_view.m_centerx = 2500 := rfl
  have hcy : wide_view.m_centery = 1500 := rfl
  have hw : wide_view.width = 800 := rfl
  have hh : wide_view.height = 600 := rfl
  have ho : sample_image.orientation = 1 := rfl
  have c1 : ⌈((800 : Int) : ℚ) / (2 * (1 / 10))⌉ = 4000 := by
    rw [Int.ceil_eq_iff]
    norm_num
  have c2 : ⌈((600 : Int) : ℚ) / (2 * (1 / 10))⌉ = 3000 := by
    rw [Int.ceil_eq_iff]
    norm_num
  have f1 : ⌊(2500 : ℚ)⌋ = 2500 := by
    rw [Int.floor_eq_iff]
    norm_num
  have f2 : ⌊(1500 : ℚ)⌋ = 1500 := by
    rw [Int.floor_eq_iff]
    norm_num
  simp only [paintGL_window, paintGL_wincenter, paintGL_real_center, hz, hcx, hcy, hw, hh, ho,
    c1, c2]
  norm_num [f1, f2]

theorem wide_view_range :
    wide_view.paintGL_range sample_image
      = { xbegin := 0, ybegin := 0, xend := 5000, yend := 3000 } := by
  have htw : wide_view.m_texture_width = 2048 := rfl
  have hth : wide_view.m_texture_height = 2048 := rfl
  simp only [paintGL_range, wide_view_window, htw, hth]
  decide

theorem wide_view_tiles :
    wide_view.paintGL_tiles 3 = some wide_view_draws := by
  have hcur : wide_view.m_current_image = some sample_image := rfl
  have hv : sample_image.image_valid = true := rfl
  have htw : wide_view.m_texture_width = 2048 := rfl
  have hth : wide_view.m_texture_height = 2048 := rfl
  have htot : wide_view.paintGL_total_tiles
      { xbegin := 0, ybegin := 0, xend := 5000, yend := 3000 } = 6 := by
    have c1 : ⌈(625 : ℚ) / 256⌉ = 3 := by
      rw [Int.ceil_eq_iff]
      norm_num
    have c2 : ⌈(375 : ℚ) / 256⌉ = 2 := by
      rw [Int.ceil_eq_iff]
      norm_num
    simp only [paintGL_total_tiles, htw, hth]
    norm_num [float_to_int, c1, c2]
  simp only [paintGL_tiles, hcur, hv, wide_view_range, htot, htw, hth]
  norm_num [paintGL_yloop, paintGL_xloop, paintGL_draw, wide_view_draws, wide_view_edge_draw]

/-- C12: for every tile `t` that `paintGL` enumerates (tile sizes of at least
1), the used width is `min (xend - xstart, m_texture_width)` and the used
height `min (yend - ystart, m_texture_height)`, both between 1 and the
capacity; the texture coordinates passed to the quad are `(0, 0)` and
`(used width / capacity width, used height / capacity height)`, the upper
ones in `(0, 1]`; a tile whose used width is below the capacity ends at
`xend` and no tile starts further right (last column), and likewise for the
height (last row). In the loop body for `xend = 5000`, tile width 2048 and
`xstart = 4096` the used width is 904. -/
theorem paintGL_tile_used_size (s : IvGL) (img : IvImage) (fuel : Nat) (ts : List TileDraw)
    (t : TileDraw) (hcur : s.m_current_image = some img) (hvalid : img.image_valid = true)
    (htw : 1 ≤ s.m_texture_width) (hth : 1 ≤ s.m_texture_height)
    (hrun : s.paintGL_tiles fuel = some ts) (ht : t ∈ ts) :
    t.tile_width = min ((s.paintGL_range img).xend - t.xstart) s.m_texture_width ∧
    t.tile_height = min ((s.paintGL_range img).yend - t.ystart) s.m_texture_height ∧
    1 ≤ t.tile_width ∧ t.tile_width ≤ s.m_texture_width ∧
    1 ≤ t.tile_height ∧ t.tile_height ≤ s.m_texture_height ∧
    t.smin = 0 ∧ t.tmin = 0 ∧
    t.smax = (t.tile_width : ℚ) / (s.m_texture_width : ℚ) ∧
    t.tmax = (t.tile_height : ℚ) / (s.m_texture_height : ℚ) ∧
    0 < t.smax ∧ t.smax ≤ 1 ∧ 0 < t.tmax ∧ t.tmax ≤ 1 ∧
    (t.tile_width < s.m_texture_width →
      t.xstart + t.tile_width = (s.paintGL_range img).xend ∧
      ∀ t' ∈ ts, t'.xstart ≤ t.xstart) ∧
    (t.tile_height < s.m_texture_height →
      t.ystart + t.tile_height = (s.paintGL_range img).yend ∧
      ∀ t' ∈ ts, t'.ystart ≤ t.ystart) ∧
    (∀ (yend th ystart : Int) (pc : ℚ),
      (paintGL_draw 5000 yend 2048 th 4096 ystart pc).tile_width = 904) := by
  have hall := paintGL_tiles_draws s img fuel ts hcur hvalid hrun
  obtain ⟨kx, ky, pc, rfl, hx, hy⟩ := hall _ ht
  have hwpos : (0 : ℚ) < (s.m_texture_width : ℚ) := by exact_mod_cast htw
  have hhpos : (0 : ℚ) < (s.m_texture_height : ℚ) := by exact_mod_cast hth
  have hw1 : 1 ≤ min ((s.paintGL_range img).xend
      - ((s.paintGL_range img).xbegin + kx * s.m_texture_width)) s.m_texture_width := by
    omega
  have hw2 : min ((s.paintGL_range img).xend
      - ((s.paintGL_range img).xbegin + kx * s.m_texture_width)) s.m_texture_width
      ≤ s.m_texture_width := min_le_right _ _
  have hh1 : 1 ≤ min ((s.paintGL_range img).yend
      - ((s.paintGL_range img).ybegin + ky * s.m_texture_height)) s.m_texture_height := by
    omega
  have hh2 : min ((s.paintGL_range img).yend
      - ((s.paintGL_range img).ybegin + ky * s.m_texture_height)) s.m_texture_height
      ≤ s.m_texture_height := min_le_right _ _
  simp only [paintGL_draw]
  refine ⟨trivial, trivial, hw1, hw2, hh1, hh2, trivial, trivial, trivial, trivial,
    ?_, ?_, ?_, ?_, ?_, ?_, ?_⟩
  · exact div_pos (by exact_mod_cast hw1) hwpos
  · rw [div_le_one hwpos]
    exact_mod_cast hw2
  · exact div_pos (by exact_mod_cast hh1) hhpos
  · rw [div_le_one hhpos]
    exact_mod_cast hh2
  · intro hlt
    refine ⟨by omega, ?_⟩
    intro t' ht'
    obtain ⟨kx', ky', pc', rfl, hx', hy'⟩ := hall _ ht'
    simp only [paintGL_draw]
    exact lattice_le_of_lt _ _ kx kx' htw (by omega)
  · intro hlt
    refine ⟨by omega, ?_⟩
    intro t' ht'
    obtain ⟨kx', ky', pc', rfl, hx', hy'⟩ := hall _ ht'
    simp only [paintGL_draw]
    exact lattice_le_of_lt _ _ ky ky' hth (by omega)
  · intro yend th ystart pc
    decide

/-- Witness of C12: the sample image zoomed out to 1/10 is drawn with six
tiles; the third one starts at `x = 4096` and has used width 904 and
`smax = 904 / 2048`. -/
theorem paintGL_tile_used_size_witness :
    wide_view.m_current_image = some sample_image ∧ sample_image.image_valid = true ∧
    1 ≤ wide_view.m_texture_width ∧ 1 ≤ wide_view.m_texture_height ∧
    wide_view.paintGL_tiles 3 = some wide_view_draws ∧
    wide_view_edge_draw ∈ wide_view_draws ∧
    wide_view_edge_draw.tile_width
      = min ((wide_view.paintGL_range sample_image).xend - wide_view_edge_draw.xstart)
          wide_view.m_texture_width ∧
    wide_view_edge_draw.tile_width < wide_view.m_texture_width ∧
    wide_view_edge_draw.xstart + wide_view_edge_draw.tile_width
      = (wide_view.paintGL_range sample_image).xend := by
  have hmem : wide_view_edge_draw ∈ wide_view_draws := by
    simp [wide_view_draws]
  have h := paintGL_tile_used_size wide_view sample_image 3 wide_view_draws
    wide_view_edge_draw rfl rfl (by decide) (by decide) wide_view_tiles hmem
  have hlt : wide_view_edge_draw.tile_width < wide_view.m_texture_width := by decide
  exact ⟨rfl, rfl, by decide, by decide, wide_view_tiles, hmem, h.1, hlt,
    (h.2.2.2.2.2.2.2.2.2.2.2.2.2.2.1 hlt).1⟩

end IvGL

/-! ## The pixel-view patch: claim C13 -/

namespace IvGL

/-- Where the code agrees with the pixel-view claim: for an odd neighbourhood
count `n = 2 * r + 1`, an image at least `n` pixels wide and high and a
focus pixel `(xp, yp)` inside the image and also inside the oriented bounds
that `paint_pixelview` tests, the radius `n / 2` is `r`, the patch is
computed, has exactly `n x n` pixels, lies inside `[0, width) x [0, height)`
and contains `(xp, yp)`; within `r` pixels of the left (top) edge it starts
at 0, as for radius 5 at pixel `(2, 2)`. -/
theorem paint_pixelview_patch_inside (img : IvImage) (n r xp yp : Int)
    (hr : 0 ≤ r) (hn : n = 2 * r + 1)
    (hw : n ≤ img.spec.width) (hh : n ≤ img.spec.height)
    (hx0 : 0 ≤ xp) (hx1 : xp < img.spec.width) (hy0 : 0 ≤ yp) (hy1 : yp < img.spec.height)
    (hox : xp < img.oriented_width) (hoy : yp < img.oriented_height) :
    Int.tdiv n 2 = r ∧
    ∃ p : TileRange, paint_pixelview_patch img n xp yp = some p ∧
      p.xend - p.xbegin = n ∧ p.yend - p.ybegin = n ∧
      0 ≤ p.xbegin ∧ p.xend ≤ img.spec.width ∧ 0 ≤ p.ybegin ∧ p.yend ≤ img.spec.height ∧
      p.contains xp yp ∧
      (xp ≤ r → p.xbegin = 0) ∧ (yp ≤ r → p.ybegin = 0) := by
  have hdiv : Int.tdiv n 2 = r := by
    rw [Int.tdiv_eq_ediv (by omega) (by decide)]
    omega
  refine ⟨hdiv, _, by
    simp only [paint_pixelview_patch, hdiv]
    rw [if_pos ⟨hx0, hox, hy0, hoy⟩], ?_⟩
  simp only [TileRange.contains]
  omega

/-- An instance: the 5000 x 3000 sample image, 11 pixels (radius 5), focus
pixel `(2, 2)`: the patch is `[0, 11) x [0, 11)`. -/
theorem paint_pixelview_patch_inside_witness :
    (0 : Int) ≤ 5 ∧ (11 : Int) = 2 * 5 + 1 ∧
    11 ≤ sample_image.spec.width ∧ 11 ≤ sample_image.spec.height ∧
    (0 : Int) ≤ 2 ∧ 2 < sample_image.spec.width ∧ 2 < sample_image.spec.height ∧
    2 < sample_image.oriented_width ∧ 2 < sample_image.oriented_height ∧
    paint_pixelview_patch sample_image 11 2 2
      = some { xbegin := 0, ybegin := 0, xend := 11, yend := 11 } ∧
    Int.tdiv 11 2 = 5 ∧
    ∃ p : TileRange, paint_pixelview_patch sample_image 11 2 2 = some p ∧
      p.xend - p.xbegin = 11 ∧ p.yend - p.ybegin = 11 ∧
      0 ≤ p.xbegin ∧ p.xend ≤ sample_image.spec.width ∧
      0 ≤ p.ybegin ∧ p.yend ≤ sample_image.spec.height ∧
      p.contains 2 2 ∧
      ((2 : Int) ≤ 5 → p.xbegin = 0) ∧ ((2 : Int) ≤ 5 → p.ybegin = 0) :=
  ⟨by decide, by decide, by decide, by decide, by decide, by decide, by decide, by decide,
    by decide, by decide,
    paint_pixelview_patch_inside sample_image 11 5 2 2 (by decide) (by decide) (by decide)
      (by decide) (by decide) (by decide) (by decide) (by decide) (by decide) (by decide)⟩

end IvGL

/-! ## The fragment shader: claims C14 and C15 -/

namespace IvGL

theorem pow_natural_one (x : ℚ) : pow_natural x 1 = x := by
  simp [pow_natural]

theorem pow_natural_zero (x : ℚ) : pow_natural x 0 = 1 := by
  simp [pow_natural]

theorem fragment_st_texel_centre (u : ShaderUniforms) (hw : u.width = 16)
    (hh : u.height = 16) : fragment_st u texel_centre = (texel_centre, 0) := by
  have f : ⌊(1 / 32 : ℚ) * 16⌋ = 0 := by
    rw [Int.floor_eq_iff]
    norm_num
  simp only [fragment_st, texel_centre, hw, hh]
  split_ifs <;> norm_num [f] at *

theorem fragment_color_eq_spec (pow : ℚ → ℚ → ℚ) (u : ShaderUniforms) (black : ℚ)
    (sample : vec4) (h : u.pixelview = 0 ∨ u.channelview ≠ 3) :
    fragment_color pow u black sample = spec_shader_color pow u black sample := by
  have h1 : (1.0 : ℚ) = 1 := by norm_num
  simp only [fragment_color, spec_shader_color, fragment_channelview, h1]
  rcases h with hpv | hch
  · simp [hpv]
  · simp only [if_neg hch]
    split_ifs <;> rfl

/-- C15 (the code at the failing input): in pixel-view mode with the alpha
channel isolated (`channelview = 3`), gain 1 and gamma 1, the shader turns
the sample `(1/5, 2/5, 3/5, 1/2)` taken at a texel centre into `(1, 1, 1, 1)`,
because `C.a = 1.0` is executed before the channel isolation; the steps in
the specified order give `(1/2, 1/2, 1/2, 1)`, the sampled alpha. -/
theorem fragment_main_alpha_view_in_pixelview :
    (fragment_st alpha_view_uniforms texel_centre).2 = 0 ∧
    fragment_main pow_natural sample_texture alpha_view_uniforms texel_centre
      = { x := 1, y := 1, z := 1, w := 1 } ∧
    spec_shader_color pow_natural alpha_view_uniforms
        (fragment_st alpha_view_uniforms texel_centre).2
        (sample_texture (fragment_st alpha_view_uniforms texel_centre).1)
      = { x := 1 / 2, y := 1 / 2, z := 1 / 2, w := 1 } ∧
    fragment_main pow_natural sample_texture alpha_view_uniforms texel_centre
      ≠ spec_shader_color pow_natural alpha_view_uniforms
          (fragment_st alpha_view_uniforms texel_centre).2
          (sample_texture (fragment_st alpha_view_uniforms texel_centre).1) := by
  have hst := fragment_st_texel_centre alpha_view_uniforms rfl rfl
  have hcode : fragment_main pow_natural sample_texture alpha_view_uniforms texel_centre
      = { x := 1, y := 1, z := 1, w := 1 } := by
    unfold fragment_main
    rw [hst]
    simp only [alpha_view_uniforms, fragment_color, glsl_mix, sample_texture,
      fragment_channelview, default_uniforms]
    norm_num [pow_natural_one]
  have hspec : spec_shader_color pow_natural alpha_view_uniforms
        (fragment_st alpha_view_uniforms texel_centre).2
        (sample_texture (fragment_st alpha_view_uniforms texel_centre).1)
      = { x := 1 / 2, y := 1 / 2, z := 1 / 2, w := 1 } := by
    rw [hst]
    simp only [alpha_view_uniforms, spec_shader_color, glsl_mix, sample_texture,
      fragment_channelview, default_uniforms]
    norm_num [pow_natural_one]
  refine ⟨by rw [hst], hcode, hspec, ?_⟩
  rw [hcode, hspec]
  norm_num


end IvGL

/-! ## Failure paths: claims C16, C17, C18 -/

namespace IvGL

/-- C16 (the code at the failing input): on the shader path with PBOs, a
`load_texture` for the rectangle `(0, 0, 5, 5)` whose buffer mapping fails
sends the progress value and returns without `copy_pixels` or upload, but
slot 0 (whose texture still holds what it held) already carries the tag `(0,
0, 5, 5)` and the cursor has not moved; the next `load_texture` for the same
rectangle is therefore a hit that only binds texture 1: no retry. -/
theorem load_texture_map_failure_retags :
    pbo_widget.m_use_shaders = true ∧ pbo_widget.m_use_pbo = true ∧
    pbo_widget.is_miss 0 0 5 5 = true ∧
    pbo_widget.m_texbufs[0]?
      = some { tex_object := 1, x := 0, y := 0, width := 0, height := 0 } ∧
    (pbo_widget.load_texture 0 0 5 5 (1 / 2) false).2 = [GLCall.setValue 50] ∧
    (pbo_widget.load_texture 0 0 5 5 (1 / 2) false).1.m_texbufs[0]?
      = some { tex_object := 1, x := 0, y := 0, width := 5, height := 5 } ∧
    (pbo_widget.load_texture 0 0 5 5 (1 / 2) false).1.m_last_texbuf_used = 0 ∧
    (pbo_widget.load_texture 0 0 5 5 (1 / 2) false).1.is_miss 0 0 5 5 = false ∧
    ((pbo_widget.load_texture 0 0 5 5 (1 / 2) false).1.load_texture 0 0 5 5 1 true).2
      = [GLCall.glBindTexture 1] := by
  have hmiss : pbo_widget.m_texbufs.find? (tag_matches 0 0 5 5) = none := by decide
  have h1 : pbo_widget.m_use_shaders = true := rfl
  have h2 : pbo_widget.m_use_pbo = true := rfl
  have htb := load_texture_texbufs_of_miss pbo_widget 0 0 5 5 (1 / 2) false hmiss
  have hval : float_to_int (1 / 2 * 100) = 50 := by
    have f : ⌊(50 : ℚ)⌋ = 50 := by
      rw [Int.floor_eq_iff]
      norm_num
    norm_num [float_to_int, f]
  have htrace : (pbo_widget.load_texture 0 0 5 5 (1 / 2) false).2 = [GLCall.setValue 50] := by
    simp only [load_texture, hmiss, h1, h2, if_true, Bool.false_eq_true, if_false, hval]
  have hcursor : (pbo_widget.load_texture 0 0 5 5 (1 / 2) false).1.m_last_texbuf_used = 0 := by
    simp only [load_texture, hmiss, h1, h2, if_true, Bool.false_eq_true, if_false]
    rfl
  have hhit : (pbo_widget.load_texture 0 0 5 5 (1 / 2) false).1.m_texbufs.find?
      (tag_matches 0 0 5 5)
      = some { tex_object := 1, x := 0, y := 0, width := 5, height := 5 } := by
    rw [htb]
    decide
  refine ⟨rfl, rfl, by decide, by decide, htrace, ?_, hcursor, ?_, ?_⟩
  · rw [htb]
    decide
  · simp only [is_miss, hhit]
    rfl
  · rw [load_texture_of_hit _ 0 0 5 5 1 true _ hhit]

/-- C17 (the code at the failing input): on a widget with shaders enabled,
`create_shaders` whose vertex compile, fragment compile or link fails logs
the failure and still leaves `m_use_shaders` true with the program recorded;
the next `useshader` binds that program instead of taking the fixed-function
branch. -/
theorem create_shaders_failure_keeps_shaders :
    pbo_widget.m_use_shaders = true ∧ pbo_widget.m_shaders_created = false ∧
    (pbo_widget.create_shaders 7 false true true).2 = [ShaderLog.vertex_compile_failed] ∧
    (pbo_widget.create_shaders 7 true false true).2 = [ShaderLog.fragment_compile_failed] ∧
    (pbo_widget.create_shaders 7 true true false).2 = [ShaderLog.not_linked] ∧
    (pbo_widget.create_shaders 7 false true true).1.m_use_shaders = true ∧
    (pbo_widget.create_shaders 7 true false true).1.m_use_shaders = true ∧
    (pbo_widget.create_shaders 7 true true false).1.m_use_shaders = true ∧
    (pbo_widget.create_shaders 7 true false true).1.useshader pow_natural (some sample_image)
        (-1) true 2048 2048 false
      = ShaderBinding.program 7
          { gain := 1, gamma := 1, channelview := -1, imgchannels := 3, pixelview := 0,
            linearinterp := 1, width := 2048, height := 2048 } ∧
    (pbo_widget.create_shaders 7 true false true).1.useshader pow_natural (some sample_image)
        (-1) true 2048 2048 false
      ≠ ShaderBinding.fixed_function true := by
  have hbind : (pbo_widget.create_shaders 7 true false true).1.useshader pow_natural
      (some sample_image) (-1) true 2048 2048 false
      = ShaderBinding.program 7
          { gain := 1, gamma := 1, channelview := -1, imgchannels := 3, pixelview := 0,
            linearinterp := 1, width := 2048, height := 2048 } := by
    have hs : (pbo_widget.create_shaders 7 true false true).1.m_use_shaders = true := rfl
    have hp : (pbo_widget.create_shaders 7 true false true).1.m_shader_program = 7 := rfl
    have he : sample_image.exposure = 0 := rfl
    have hg : sample_image.gamma = 1 := rfl
    have hn : sample_image.spec.nchannels = 3 := rfl
    have h2 : pow_natural 2.0 0 = 1 := pow_natural_zero _
    simp [useshader, hs, hp, he, hg, hn, h2]
  refine ⟨rfl, rfl, rfl, rfl, rfl, rfl, rfl, rfl, hbind, ?_⟩
  rw [hbind]
  exact fun h => ShaderBinding.noConfusion h

/-- C18 (counterexample): for a five-channel image `typespec_to_opengl`
returns `GL_INVALID_ENUM` as format and internal format (not the luminance
format), and for half-float pixels without half-float support it returns
`GL_INVALID_ENUM` as type (not unsigned 8-bit). -/
theorem typespec_to_opengl_invalid_enum :
    sample_widget.m_use_halffloat = false ∧
    sample_widget.typespec_to_opengl five_channel_spec
      = { gltype := GLenum.GL_UNSIGNED_BYTE, glformat := GLenum.GL_INVALID_ENUM,
          glinternalformat := GLenum.GL_INVALID_ENUM } ∧
    (sample_widget.typespec_to_opengl five_channel_spec).glformat ≠ GLenum.GL_LUMINANCE ∧
    (sample_widget.typespec_to_opengl half_float_spec).gltype = GLenum.GL_INVALID_ENUM ∧
    (sample_widget.typespec_to_opengl half_float_spec).gltype ≠ GLenum.GL_UNSIGNED_BYTE := by
  decide

theorem typespec_internalformat_valid (s : IvGL) (spec : ImageSpec)
    (srgb8 srgb sized8 sized16 sized32f sized16f : GLenum)
    (h1 : srgb8 ≠ GLenum.GL_INVALID_ENUM) (h2 : srgb ≠ GLenum.GL_INVALID_ENUM)
    (h3 : sized8 ≠ GLenum.GL_INVALID_ENUM) (h4 : sized16 ≠ GLenum.GL_INVALID_ENUM)
    (h5 : sized32f ≠ GLenum.GL_INVALID_ENUM) (h6 : sized16f ≠ GLenum.GL_INVALID_ENUM) :
    s.typespec_internalformat spec srgb8 srgb sized8 sized16 sized32f sized16f
      ≠ GLenum.GL_INVALID_ENUM := by
  unfold typespec_internalformat
  split_ifs <;> first | assumption | exact fun h => GLenum.noConfusion h

/-- C18 (amended): `typespec_to_opengl` returns `GL_INVALID_ENUM` as type
exactly for half-float pixels without half-float support, and as format and
internal format exactly for a channel count outside 1 to 4; for 1, 2, 3 and
4 channels the format is luminance, luminance-alpha, RGB and RGBA; a base
type outside the eight it knows (`UNKNOWN`, `DOUBLE`) is punted to
`GL_UNSIGNED_BYTE`. -/
theorem typespec_to_opengl_outputs (s : IvGL) (spec : ImageSpec) :
    ((s.typespec_to_opengl spec).gltype = GLenum.GL_INVALID_ENUM
      ↔ (spec.basetype = BaseType.HALF ∧ s.m_use_halffloat = false)) ∧
    ((s.typespec_to_opengl spec).glformat = GLenum.GL_INVALID_ENUM
      ↔ ¬ (1 ≤ spec.nchannels ∧ spec.nchannels ≤ 4)) ∧
    ((s.typespec_to_opengl spec).glinternalformat = GLenum.GL_INVALID_ENUM
      ↔ ¬ (1 ≤ spec.nchannels ∧ spec.nchannels ≤ 4)) ∧
    ((s.typespec_to_opengl spec).glformat
      = if spec.nchannels = 1 then GLenum.GL_LUMINANCE
        else if spec.nchannels = 2 then GLenum.GL_LUMINANCE_ALPHA
        else if spec.nchannels = 3 then GLenum.GL_RGB
        else if spec.nchannels = 4 then GLenum.GL_RGBA
        else GLenum.GL_INVALID_ENUM) ∧
    (s.typespec_to_opengl { spec with basetype := BaseType.UNKNOWN }).gltype
      = GLenum.GL_UNSIGNED_BYTE ∧
    (s.typespec_to_opengl { spec with basetype := BaseType.DOUBLE }).gltype
      = GLenum.GL_UNSIGNED_BYTE := by
  have hty : ∀ sp : ImageSpec,
      (s.typespec_to_opengl sp).gltype = s.typespec_gltype sp.basetype := by
    intro sp
    simp only [typespec_to_opengl]
    split_ifs <;> rfl
  refine ⟨?_, ?_, ?_, ?_, ?_, ?_⟩
  · rw [hty]
    cases hb : spec.basetype <;> cases hs : s.m_use_halffloat <;> simp [typespec_gltype, hs]
  · simp only [typespec_to_opengl]
    split_ifs <;> simp <;> omega
  · by_cases c1 : spec.nchannels = 1
    · simp only [typespec_to_opengl, if_pos c1]
      exact ⟨fun h => absurd h (typespec_internalformat_valid s spec _ _ _ _ _ _
        (by decide) (by decide) (by decide) (by decide) (by decide) (by decide)),
        fun h => absurd ⟨by omega, by omega⟩ h⟩
    · by_cases c2 : spec.nchannels = 2
      · simp only [typespec_to_opengl, if_neg c1, if_pos c2]
        exact ⟨fun h => absurd h (typespec_internalformat_valid s spec _ _ _ _ _ _
          (by decide) (by decide) (by decide) (by decide) (by decide) (by decide)),
          fun h => absurd ⟨by omega, by omega⟩ h⟩
      · by_cases c3 : spec.nchannels = 3
        · simp only [typespec_to_opengl, if_neg c1, if_neg c2, if_pos c3]
          exact ⟨fun h => absurd h (typespec_internalformat_valid s spec _ _ _ _ _ _
            (by decide) (by decide) (by decide) (by decide) (by decide) (by decide)),
            fun h => absurd ⟨by omega, by omega⟩ h⟩
        · by_cases c4 : spec.nchannels = 4
          · simp only [typespec_to_opengl, if_neg c1, if_neg c2, if_neg c3, if_pos c4]
            exact ⟨fun h => absurd h (typespec_internalformat_valid s spec _ _ _ _ _ _
              (by decide) (by decide) (by decide) (by decide) (by decide) (by decide)),
              fun h => absurd ⟨by omega, by omega⟩ h⟩
          · simp only [typespec_to_opengl, if_neg c1, if_neg c2, if_neg c3, if_neg c4]
            exact ⟨fun _ h => by omega, fun _ => trivial⟩
  · simp only [typespec_to_opengl]
    split_ifs <;> rfl
  · rw [hty]
    rfl
  · rw [hty]
    rfl

end IvGL

/-! ## The pool invariant: claim C19 -/

namespace IvGL

theorem pool_tags_unique_of_unpopulated (s : IvGL)
    (h : ∀ tb ∈ s.m_texbufs, tb.width = 0) : s.pool_tags_unique := by
  intro i j a b _ hi _ ha _ _
  have hmem : a ∈ s.m_texbufs := List.mem_iff_getElem?.2 ⟨i, hi⟩
  exact ha.1 (h a hmem)

theorem pool_tags_unique_create_textures (s0 : IvGL) (textures : Nat → Nat)
    (h0 : s0.m_texbufs = []) (h1 : s0.m_tex_created = false) :
    (s0.create_textures textures).pool_tags_unique := by
  apply pool_tags_unique_of_unpopulated
  intro tb htb
  simp only [create_textures, h1, h0, Bool.false_eq_true, if_false, List.nil_append,
    List.mem_map] at htb
  obtain ⟨i, -, rfl⟩ := htb
  rfl

theorem pool_tags_unique_update (s : IvGL) (cur : Option IvImage)
    (h : s.pool_tags_unique) : (s.update cur).pool_tags_unique := by
  cases cur with
  | none => exact h
  | some img =>
    apply pool_tags_unique_of_unpopulated
    intro tb htb
    simp only [update, List.mem_map] at htb
    obtain ⟨a, -, rfl⟩ := htb
    rfl

theorem same_tag_retag_iff (x y width height : Int) (t b : TexBuffer) :
    (retag x y width height t).same_tag b ↔ tag_matches x y width height b = true := by
  simp only [TexBuffer.same_tag, retag, tag_matches, Bool.and_eq_true, beq_iff_eq]
  constructor
  · rintro ⟨h1, h2, h3, h4⟩
    exact ⟨⟨⟨h1.symm, h2.symm⟩, h3.symm⟩, h4.symm⟩
  · rintro ⟨⟨⟨h1, h2⟩, h3⟩, h4⟩
    exact ⟨h1.symm, h2.symm, h3.symm, h4.symm⟩

theorem pool_tags_unique_load_step (s : IvGL) (r : LoadRequest)
    (h : s.pool_tags_unique) : (s.load_step r).pool_tags_unique := by
  cases hm : s.is_miss r.x r.y r.width r.height with
  | false =>
    rw [load_step_of_hit s r hm]
    exact h
  | true =>
    have hnone := find?_of_is_miss s _ _ _ _ hm
    have htb : (s.load_step r).m_texbufs
        = List.modify (retag r.x r.y r.width r.height) s.m_last_texbuf_used s.m_texbufs :=
      load_texture_texbufs_of_miss s _ _ _ _ _ _ hnone
    have hno : ∀ (k : Nat) (t : TexBuffer), s.m_texbufs[k]? = some t →
        tag_matches r.x r.y r.width r.height t = false := by
      intro k t hk
      have := List.find?_eq_none.1 hnone t (List.mem_iff_getElem?.2 ⟨k, hk⟩)
      simpa using this
    intro i j a b hij hi hj ha hb hsame
    rw [htb, List.getElem?_modify] at hi hj
    cases hoi : s.m_texbufs[i]? with
    | none => simp [hoi] at hi
    | some a0 =>
      cases hoj : s.m_texbufs[j]? with
      | none => simp [hoj] at hj
      | some b0 =>
        simp only [hoi, hoj, Option.map_eq_map, Option.map_some', Option.some.injEq] at hi hj
        by_cases hci : s.m_last_texbuf_used = i
        · have hcj : ¬ s.m_last_texbuf_used = j := fun e => hij (hci.symm.trans e)
          rw [if_pos hci] at hi
          rw [if_neg hcj] at hj
          rw [← hi, ← hj] at hsame
          have := (same_tag_retag_iff _ _ _ _ a0 b0).1 hsame
          rw [hno j b0 hoj] at this
          exact Bool.noConfusion this
        · rw [if_neg hci] at hi
          by_cases hcj : s.m_last_texbuf_used = j
          · rw [if_pos hcj] at hj
            rw [← hi, ← hj] at hsame
            have hsym : (retag r.x r.y r.width r.height b0).same_tag a0 :=
              ⟨hsame.1.symm, hsame.2.1.symm, hsame.2.2.1.symm, hsame.2.2.2.symm⟩
            have := (same_tag_retag_iff _ _ _ _ b0 a0).1 hsym
            rw [hno i a0 hoi] at this
            exact Bool.noConfusion this
          · rw [if_neg hcj] at hj
            rw [← hi] at hsame ha
            rw [← hj] at hsame hb
            exact h i j a0 b0 hij hoi hoj ha hb hsame

theorem pool_tags_unique_run_ops :
    ∀ (ops : List PoolOp) (s : IvGL), s.pool_tags_unique → (s.run_ops ops).pool_tags_unique := by
  intro ops
  induction ops with
  | nil => intro s h; exact h
  | cons op ops ih =>
    intro s h
    apply ih
    cases op with
    | update cur => exact pool_tags_unique_update s cur h
    | load_texture r => exact pool_tags_unique_load_step s r h

/-- C19: in every state reached from `create_textures` (on a widget whose
pool was empty and not yet created) by any sequence of `update` and
`load_texture` calls, two different slots that are both populated (width and
height non-zero) never carry the same `(x, y, width, height)` tag. -/
theorem pool_tags_stay_unique (s0 : IvGL) (textures : Nat → Nat) (ops : List PoolOp)
    (h0 : s0.m_texbufs = []) (h1 : s0.m_tex_created = false)
    (i j : Nat) (a b : TexBuffer) (hij : i ≠ j)
    (hi : ((s0.create_textures textures).run_ops ops).m_texbufs[i]? = some a)
    (hj : ((s0.create_textures textures).run_ops ops).m_texbufs[j]? = some b)
    (ha : a.width ≠ 0 ∧ a.height ≠ 0) (hb : b.width ≠ 0 ∧ b.height ≠ 0) :
    ¬ (a.x = b.x ∧ a.y = b.y ∧ a.width = b.width ∧ a.height = b.height) :=
  pool_tags_unique_run_ops ops _ (pool_tags_unique_create_textures s0 textures h0 h1)
    i j a b hij hi hj ha hb

/-- Witness of C19: after the first four calls of the sample run on a fresh
widget (an `update`, two misses and a hit), slots 0 and 1 are populated and
hold two different tiles. -/
theorem pool_tags_stay_unique_witness :
    (IvGL.init 800 600).m_texbufs = [] ∧ (IvGL.init 800 600).m_tex_created = false ∧
    (0 : Nat) ≠ 1 ∧
    (((IvGL.init 800 600).create_textures (fun k => k + 1)).run_ops (sample_ops.take 4)).m_texbufs[0]?
      = some { tex_object := 1, x := 0, y := 0, width := 2048, height := 2048 } ∧
    (((IvGL.init 800 600).create_textures (fun k => k + 1)).run_ops (sample_ops.take 4)).m_texbufs[1]?
      = some { tex_object := 2, x := 2048, y := 0, width := 2048, height := 2048 } ∧
    ¬ ((0 : Int) = 2048 ∧ (0 : Int) = 0 ∧ (2048 : Int) = 2048 ∧ (2048 : Int) = 2048) :=
  ⟨rfl, rfl, by decide, by decide, by decide,
    pool_tags_stay_unique (IvGL.init 800 600) (fun k => k + 1) (sample_ops.take 4) rfl rfl 0 1
      { tex_object := 1, x := 0, y := 0, width := 2048, height := 2048 }
      { tex_object := 2, x := 2048, y := 0, width := 2048, height := 2048 }
      (by decide) (by decide) (by decide) (by decide) (by decide)⟩

end IvGL

/-! ## The focus pixel: claim C20 -/

namespace IvGL

theorem focus_lerp (c z : ℚ) (w m : Int) (hw : 0 < w) (hz : 0 < z) :
    Imath_lerp FloatModel.exact (c - 0.5 * (w : ℚ) / z) (c + 0.5 * (w : ℚ) / z)
        (((m : ℚ) + 0.5) / (w : ℚ))
      = c + ((m : ℚ) + 1 / 2 - (w : ℚ) / 2) / z := by
  have hw' : (w : ℚ) ≠ 0 := by
    have : (0 : ℚ) < (w : ℚ) := by exact_mod_cast hw
    exact ne_of_gt this
  have hz' : z ≠ 0 := ne_of_gt hz
  have h5 : (0.5 : ℚ) = 1 / 2 := by norm_num
  simp only [Imath_lerp, FloatModel.exact, h5]
  field_simp
  ring

theorem get_focus_image_position_exact (s : IvGL) (hw : 0 < s.width) (hh : 0 < s.height)
    (hz : 0 < s.m_zoom) :
    s.get_focus_image_position FloatModel.exact
      = (s.m_centerx + ((s.m_mousex : ℚ) + 1 / 2 - (s.width : ℚ) / 2) / s.m_zoom,
         s.m_centery + ((s.m_mousey : ℚ) + 1 / 2 - (s.height : ℚ) / 2) / s.m_zoom) := by
  have h1 := focus_lerp s.m_centerx s.m_zoom s.width s.m_mousex hw hz
  have h2 := focus_lerp s.m_centery s.m_zoom s.height s.m_mousey hh hz
  simp only [get_focus_image_position]
  exact Prod.ext h1 h2

/-- C20 (counterexample): in the 800 x 600 window at zoom 4 with centre `(10,
20)` and the mouse at `(402, 302)`, the mapped position is `(85/8, 165/8)`,
that is `(10.625, 20.625)`; `get_focus_image_pixel` (exact arithmetic)
returns `(10, 20)`, while the nearest integers are `(11, 21)`. -/
theorem get_focus_image_pixel_truncates :
    focus_view.m_centerx + ((focus_view.m_mousex : ℚ) + 1 / 2 - (focus_view.width : ℚ) / 2)
        / focus_view.m_zoom = 85 / 8 ∧
    focus_view.m_centery + ((focus_view.m_mousey : ℚ) + 1 / 2 - (focus_view.height : ℚ) / 2)
        / focus_view.m_zoom = 165 / 8 ∧
    focus_view.get_focus_image_pixel FloatModel.exact = (10, 20) ∧
    |(85 / 8 : ℚ) - 11|
      < |(85 / 8 : ℚ) - (((focus_view.get_focus_image_pixel FloatModel.exact).1 : Int) : ℚ)| ∧
    |(165 / 8 : ℚ) - 21|
      < |(165 / 8 : ℚ) - (((focus_view.get_focus_image_pixel FloatModel.exact).2 : Int) : ℚ)| := by
  have hx : focus_view.m_centerx
      + ((focus_view.m_mousex : ℚ) + 1 / 2 - (focus_view.width : ℚ) / 2) / focus_view.m_zoom
      = 85 / 8 := by
    show (10 : ℚ) + (((402 : Int) : ℚ) + 1 / 2 - ((800 : Int) : ℚ) / 2) / 4 = 85 / 8
    norm_num
  have hy : focus_view.m_centery
      + ((focus_view.m_mousey : ℚ) + 1 / 2 - (focus_view.height : ℚ) / 2) / focus_view.m_zoom
      = 165 / 8 := by
    show (20 : ℚ) + (((302 : Int) : ℚ) + 1 / 2 - ((600 : Int) : ℚ) / 2) / 4 = 165 / 8
    norm_num
  have hz : (0 : ℚ) < focus_view.m_zoom := by
    show (0 : ℚ) < 4
    norm_num
  have fx : ⌊(85 / 8 : ℚ)⌋ = 10 := by
    rw [Int.floor_eq_iff]
    norm_num
  have fy : ⌊(165 / 8 : ℚ)⌋ = 20 := by
    rw [Int.floor_eq_iff]
    norm_num
  have hres : focus_view.get_focus_image_pixel FloatModel.exact = (10, 20) := by
    simp only [get_focus_image_pixel]
    rw [get_focus_image_position_exact focus_view (by decide) (by decide) hz, hx, hy]
    norm_num [float_to_int, fx, fy]
  refine ⟨hx, hy, hres, ?_, ?_⟩
  · rw [hres]
    norm_num [abs_lt, abs_of_pos, abs_of_neg]
  · rw [hres]
    norm_num [abs_lt, abs_of_pos, abs_of_neg]

/-- C20 (amended): for a window of positive width and height and a positive
zoom, whatever the rounding of the float and double operations, on each axis
where the float position `imgx` (or `imgy`) that `get_focus_image_pixel`
computes is not negative and below `2^31` (so that the conversion to `int`
is defined), the function returns the floor of that float, the pixel that
contains the position. In exact arithmetic the position is the linearly
mapped `centerx + (mx + 1/2 - w/2) / zoom` (or `centery + (my + 1/2 - h/2) /
zoom`). The result does not depend on the current image (no orientation is
applied). -/
theorem get_focus_image_pixel_truncated (s : IvGL) (fm : FloatModel) (hw : 0 < s.width)
    (hh : 0 < s.height) (hz : 0 < s.m_zoom) :
    (0 ≤ (s.get_focus_image_position fm).1 → (s.get_focus_image_position fm).1 < 2147483648 →
      (s.get_focus_image_pixel fm).1 = ⌊(s.get_focus_image_position fm).1⌋ ∧
      int_range (s.get_focus_image_pixel fm).1) ∧
    (0 ≤ (s.get_focus_image_position fm).2 → (s.get_focus_image_position fm).2 < 2147483648 →
      (s.get_focus_image_pixel fm).2 = ⌊(s.get_focus_image_position fm).2⌋ ∧
      int_range (s.get_focus_image_pixel fm).2) ∧
    s.get_focus_image_position FloatModel.exact
      = (s.m_centerx + ((s.m_mousex : ℚ) + 1 / 2 - (s.width : ℚ) / 2) / s.m_zoom,
         s.m_centery + ((s.m_mousey : ℚ) + 1 / 2 - (s.height : ℚ) / 2) / s.m_zoom) ∧
    (∀ img : Option IvImage,
      ({ s with m_current_image := img } : IvGL).get_focus_image_pixel fm
        = s.get_focus_image_pixel fm) := by
  have key : ∀ q : ℚ, 0 ≤ q → q < 2147483648 →
      float_to_int q = ⌊q⌋ ∧ int_range (float_to_int q) := by
    intro q h0 h1
    have hf : float_to_int q = ⌊q⌋ := by rw [float_to_int, if_pos h0]
    rw [hf]
    have hlo : (0 : Int) ≤ ⌊q⌋ := Int.floor_nonneg.2 h0
    have hhi : ⌊q⌋ < 2147483648 := by
      rw [Int.floor_lt]
      exact_mod_cast h1
    exact ⟨rfl, by omega, by omega⟩
  exact ⟨fun h0 h1 => key _ h0 h1, fun h0 h1 => key _ h0 h1,
    get_focus_image_position_exact s hw hh hz, fun _ => rfl⟩

/-- Witness of C20 (amended): the focus view in exact arithmetic, where the
position is `(85/8, 165/8)` and the pixel `(10, 20)`. -/
theorem get_focus_image_pixel_truncated_witness :
    0 < focus_view.width ∧ 0 < focus_view.height ∧ 0 < focus_view.m_zoom ∧
    0 ≤ (focus_view.get_focus_image_position FloatModel.exact).1 ∧
    (focus_view.get_focus_image_position FloatModel.exact).1 < 2147483648 ∧
    (focus_view.get_focus_image_pixel FloatModel.exact).1
      = ⌊(focus_view.get_focus_image_position FloatModel.exact).1⌋ ∧
    focus_view.get_focus_image_position FloatModel.exact
      = (focus_view.m_centerx
          + ((focus_view.m_mousex : ℚ) + 1 / 2 - (focus_view.width : ℚ) / 2)
            / focus_view.m_zoom,
         focus_view.m_centery
          + ((focus_view.m_mousey : ℚ) + 1 / 2 - (focus_view.height : ℚ) / 2)
            / focus_view.m_zoom) := by
  have hz : (0 : ℚ) < focus_view.m_zoom := by
    show (0 : ℚ) < 4
    norm_num
  have hx : focus_view.m_centerx
      + ((focus_view.m_mousex : ℚ) + 1 / 2 - (focus_view.width : ℚ) / 2) / focus_view.m_zoom
      = 85 / 8 := by
    show (10 : ℚ) + (((402 : Int) : ℚ) + 1 / 2 - ((800 : Int) : ℚ) / 2) / 4 = 85 / 8
    norm_num
  have hpos : (focus_view.get_focus_image_position FloatModel.exact).1 = 85 / 8 := by
    rw [get_focus_image_position_exact focus_view (by decide) (by decide) hz, hx]
  have h0 : 0 ≤ (focus_view.get_focus_image_position FloatModel.exact).1 := by
    rw [hpos]
    norm_num
  have h1 : (focus_view.get_focus_image_position FloatModel.exact).1 < 2147483648 := by
    rw [hpos]
    norm_num
  have hthm := get_focus_image_pixel_truncated focus_view FloatModel.exact (by decide)
    (by decide) hz
  exact ⟨by decide, by decide, hz, h0, h1, (hthm.1 h0 h1).1, hthm.2.2.1⟩

end IvGL

/-! ## Snapping of the tile range: claim C21 -/

namespace IvGL

theorem negative_origin_view_window :
    negative_origin_view.paintGL_window negative_origin_image
      = { xbegin := -400, ybegin := -300, xend := 400, yend := 300 } := by
  have hz : negative_origin_view.m_zoom = 1 := rfl
  have hcx : negative_origin_view.m_centerx = 0 := rfl
  have hcy : negative_origin_view.m_centery = 0 := rfl
  have hw : negative_origin_view.width = 800 := rfl
  have hh : negative_origin_view.height = 600 := rfl
  have ho : negative_origin_image.orientation = 1 := rfl
  have c1 : ⌈((800 : Int) : ℚ) / (2 * 1)⌉ = 400 := by
    rw [Int.ceil_eq_iff]
    norm_num
  have c2 : ⌈((600 : Int) : ℚ) / (2 * 1)⌉ = 300 := by
    rw [Int.ceil_eq_iff]
    norm_num
  simp only [paintGL_window, paintGL_wincenter, paintGL_real_center, hz, hcx, hcy, hw, hh, ho,
    c1, c2]
  norm_num

theorem negative_origin_view_range :
    negative_origin_view.paintGL_range negative_origin_image
      = { xbegin := 0, ybegin := 0, xend := 1000, yend := 1000 } := by
  have htw : negative_origin_view.m_texture_width = 2048 := rfl
  have hth : negative_origin_view.m_texture_height = 2048 := rfl
  simp only [paintGL_range, negative_origin_view_window, htw, hth]
  decide

/-- C21 (the code at the failing input): for the 2000 x 2000 image with
origin `(-1000, -1000)`, 2048 x 2048 tiles and the 800 x 600 window at zoom 1
centred on `(0, 0)`, the requested window is `[-400, 400) x [-300, 300)` and
lies inside the image, but `paintGL` computes the range `[0, 1000) x [0,
1000)`: `xbegin = 0` is neither the image's left edge nor at most `-400`,
because `%` truncates toward zero, and the image pixel `(-1, -1)` of the
window is outside the range. -/
theorem paintGL_range_negative_begin :
    negative_origin_view.m_texture_width = 2048 ∧
    negative_origin_view.m_texture_height = 2048 ∧
    negative_origin_view.paintGL_window negative_origin_image
      = { xbegin := -400, ybegin := -300, xend := 400, yend := 300 } ∧
    negative_origin_view.paintGL_range negative_origin_image
      = { xbegin := 0, ybegin := 0, xend := 1000, yend := 1000 } ∧
    (negative_origin_view.paintGL_range negative_origin_image).xbegin
      ≠ negative_origin_image.spec.x ∧
    ¬ (negative_origin_view.paintGL_range negative_origin_image).xbegin
        ≤ (negative_origin_view.paintGL_window negative_origin_image).xbegin ∧
    (negative_origin_view.paintGL_window negative_origin_image).contains (-1) (-1) ∧
    negative_origin_image.spec.in_image (-1) (-1) ∧
    ¬ (negative_origin_view.paintGL_range negative_origin_image).contains (-1) (-1) := by
  refine ⟨rfl, rfl, negative_origin_view_window, negative_origin_view_range, ?_, ?_, ?_, ?_, ?_⟩
  · rw [negative_origin_view_range]
    decide
  · rw [negative_origin_view_range, negative_origin_view_window]
    decide
  · rw [negative_origin_view_window]
    decide
  · simp only [ImageSpec.in_image, negative_origin_image]
    decide
  · rw [negative_origin_view_range]
    decide

end IvGL

/-! ## The copy buffer of the pixel view: claim C25 -/

namespace IvGL

/-- C25 (the code at the failing input): for the 3 x 100 image, 11
neighbourhood pixels and the focus pixel `(1, 50)` on the shader path, the
patch is `[0, 3) x [45, 56)`; `paint_pixelview` allocates a buffer of `3 * 3
= 9` pixels and `copy_pixels` writes `3 * 11 = 33` pixels into it. -/
theorem paint_pixelview_buffer_too_small :
    pbo_widget.m_use_shaders = true ∧
    paint_pixelview_patch narrow_image 11 1 50
      = some { xbegin := 0, ybegin := 45, xend := 3, yend := 56 } ∧
    pbo_widget.paint_pixelview_zoombuffer narrow_image 11 1 50
      = some (9, GLCall.copy_pixels 0 3 45 56) ∧
    GLCall_pixels_written (GLCall.copy_pixels 0 3 45 56) = 33 ∧
    ¬ (GLCall_pixels_written (GLCall.copy_pixels 0 3 45 56) ≤ 9) := by
  decide

end IvGL

/-! ## Second pass over a freshly filled pool -/

namespace IvGL

theorem add_mod_ne_self (c d n : Nat) (hc : c < n) (hd0 : 0 < d) (hdn : d < n) :
    (c + d) % n ≠ c := by
  intro h
  by_cases hlt : c + d < n
  · rw [Nat.mod_eq_of_lt hlt] at h
    omega
  · rw [Nat.mod_eq_sub_mod (by omega), Nat.mod_eq_of_lt (by omega)] at h
    omega

theorem mem_modify_retag (x y width height : Int) (l : List TexBuffer) (c : Nat)
    (tb : TexBuffer) (h : tb ∈ List.modify (retag x y width height) c l) :
    ∃ a ∈ l, tb = a ∨ tb = retag x y width height a := by
  obtain ⟨k, hk⟩ := List.mem_iff_getElem?.1 h
  rw [List.getElem?_modify] at hk
  cases hl : l[k]? with
  | none => simp [hl] at hk
  | some a =>
    simp only [hl, Option.map_eq_map, Option.map_some', Option.some.injEq] at hk
    refine ⟨a, List.mem_iff_getElem?.2 ⟨k, hl⟩, ?_⟩
    by_cases hc : c = k
    · rw [if_pos hc] at hk
      exact Or.inr hk.symm
    · rw [if_neg hc] at hk
      exact Or.inl hk.symm

theorem load_textures_first_pass :
    ∀ (rs : List LoadRequest) (s : IvGL),
      s.m_last_texbuf_used < s.m_texbufs.length →
      rs.length ≤ s.m_texbufs.length →
      (∀ q ∈ rs, s.upload_succeeds q.map_ok = true) →
      rs.Pairwise (fun a b => ¬ (a.x = b.x ∧ a.y = b.y ∧ a.width = b.width ∧ a.height = b.height)) →
      (∀ r ∈ rs, ∀ tb ∈ s.m_texbufs, tag_matches r.x r.y r.width r.height tb = false) →
      (∀ (i : Nat) (r : LoadRequest), rs[i]? = some r →
        ∃ tb, (s.load_textures rs).m_texbufs[(s.m_last_texbuf_used + i) % s.m_texbufs.length]?
            = some tb ∧ tag_matches r.x r.y r.width r.height tb = true) ∧
      (∀ q : Nat, (∀ i, i < rs.length → q ≠ (s.m_last_texbuf_used + i) % s.m_texbufs.length) →
        (s.load_textures rs).m_texbufs[q]? = s.m_texbufs[q]?) := by
  intro rs
  induction rs with
  | nil =>
    intro s _ _ _ _ _
    exact ⟨fun i r h => by simp at h, fun q _ => rfl⟩
  | cons r rs ih =>
    intro s hwf hlen hok hdist hno
    have hnone : s.m_texbufs.find? (tag_matches r.x r.y r.width r.height) = none := by
      rw [List.find?_eq_none]
      intro tb htb
      rw [hno r (List.mem_cons_self _ _) tb htb]
      exact Bool.false_ne_true
    have htb : (s.load_step r).m_texbufs
        = List.modify (retag r.x r.y r.width r.height) s.m_last_texbuf_used s.m_texbufs :=
      load_texture_texbufs_of_miss s _ _ _ _ _ _ hnone
    have hcur : (s.load_step r).m_last_texbuf_used
        = (s.m_last_texbuf_used + 1) % s.m_texbufs.length :=
      load_texture_cursor_of_miss s _ _ _ _ _ _ hnone (hok r (List.mem_cons_self _ _))
    have hl : (s.load_step r).m_texbufs.length = s.m_texbufs.length :=
      load_texture_length s _ _ _ _ _ _
    have hwf1 : (s.load_step r).m_last_texbuf_used < (s.load_step r).m_texbufs.length :=
      load_texture_cursor_lt s _ _ _ _ _ _ hwf
    have hlen' : rs.length + 1 ≤ s.m_texbufs.length := by simpa using hlen
    have hd := List.pairwise_cons.1 hdist
    have hno1 : ∀ r' ∈ rs, ∀ tb ∈ (s.load_step r).m_texbufs,
        tag_matches r'.x r'.y r'.width r'.height tb = false := by
      intro r' hr' tb htb'
      rw [htb] at htb'
      obtain ⟨a, ha, h | h⟩ := mem_modify_retag _ _ _ _ _ _ _ htb'
      · rw [h]
        exact hno r' (List.mem_cons_of_mem _ hr') a ha
      · rw [h]
        have hne := hd.1 r' hr'
        cases hmt : tag_matches r'.x r'.y r'.width r'.height
            (retag r.x r.y r.width r.height a) with
        | false => rfl
        | true =>
          simp only [tag_matches, retag, Bool.and_eq_true, beq_iff_eq] at hmt
          exact absurd ⟨hmt.1.1.1, hmt.1.1.2, hmt.1.2, hmt.2⟩ hne
    obtain ⟨hA, hB⟩ := ih (s.load_step r) hwf1 (by rw [hl]; omega)
      (fun q hq => by
        rw [upload_succeeds_load_step]
        exact hok q (List.mem_cons_of_mem _ hq))
      hd.2 hno1
    have hmod : ∀ i : Nat, ((s.load_step r).m_last_texbuf_used + i) % (s.load_step r).m_texbufs.length
        = (s.m_last_texbuf_used + (i + 1)) % s.m_texbufs.length := by
      intro i
      rw [hcur, hl, Nat.mod_add_mod]
      congr 1
      omega
    have hkeep : (s.load_textures (r :: rs)).m_texbufs[s.m_last_texbuf_used]?
        = (s.load_step r).m_texbufs[s.m_last_texbuf_used]? := by
      apply hB
      intro i hi
      rw [hmod]
      exact (add_mod_ne_self _ _ _ hwf (by omega) (by omega)).symm
    constructor
    · intro i r0 hi
      cases i with
      | zero =>
        simp only [List.getElem?_cons_zero, Option.some.injEq] at hi
        subst hi
        rw [Nat.add_zero, Nat.mod_eq_of_lt hwf, hkeep, htb, List.getElem?_modify]
        obtain ⟨a, ha⟩ : ∃ a, s.m_texbufs[s.m_last_texbuf_used]? = some a :=
          ⟨s.m_texbufs[s.m_last_texbuf_used], List.getElem?_eq_getElem hwf⟩
        exact ⟨retag r.x r.y r.width r.height a, by simp [ha], tag_matches_retag _ _ _ _ _⟩
      | succ j =>
        simp only [List.getElem?_cons_succ] at hi
        obtain ⟨tb, h1, h2⟩ := hA j r0 hi
        rw [hmod] at h1
        exact ⟨tb, h1, h2⟩
    · intro q hq
      have h0 := hq 0 (by simp)
      rw [Nat.add_zero, Nat.mod_eq_of_lt hwf] at h0
      have h1 : (s.load_textures (r :: rs)).m_texbufs[q]? = (s.load_step r).m_texbufs[q]? := by
        apply hB
        intro i hi
        rw [hmod]
        exact hq (i + 1) (by simpa using hi)
      rw [h1, htb, List.getElem?_modify]
      cases s.m_texbufs[q]? with
      | none => rfl
      | some a => simp [Ne.symm h0]

theorem load_textures_of_all_hit :
    ∀ (rs : List LoadRequest) (s : IvGL),
      (∀ r ∈ rs, s.is_miss r.x r.y r.width r.height = false) → s.load_textures rs = s := by
  intro rs
  induction rs with
  | nil => intro s _; rfl
  | cons r rs ih =>
    intro s h
    simp only [load_textures]
    rw [load_step_of_hit s r (h r (List.mem_cons_self _ _))]
    exact ih s (fun q hq => h q (List.mem_cons_of_mem _ hq))

/-- C24: from a pool that `update` has just cleared (cursor anywhere inside
the pool), resolving at most pool-size pairwise distinct tiles of positive
size with `load_texture` (uploads succeeding) and then resolving the same
tiles again produces only cache hits in the second pass: every call of the
second pass returns the state unchanged (no slot or cursor change) and its
only observed call binds a slot that carries the tile's tag (no
`copy_pixels`), so the state after the second pass is the state before it. -/
theorem second_pass_only_hits (s0 : IvGL) (img : IvImage) (rs : List LoadRequest)
    (hwf : s0.m_last_texbuf_used < s0.m_texbufs.length)
    (hlen : rs.length ≤ s0.m_texbufs.length)
    (hpos : ∀ r ∈ rs, 0 < r.width ∧ 0 < r.height)
    (hdist : rs.Pairwise
      (fun a b => ¬ (a.x = b.x ∧ a.y = b.y ∧ a.width = b.width ∧ a.height = b.height)))
    (hok : ∀ r ∈ rs, (s0.update (some img)).upload_succeeds r.map_ok = true) :
    ((s0.update (some img)).load_textures rs).load_textures rs
      = (s0.update (some img)).load_textures rs ∧
    ∀ r ∈ rs, ∀ (p : ℚ) (ok : Bool), ∃ tb : TexBuffer,
      tag_matches r.x r.y r.width r.height tb = true ∧
      ((s0.update (some img)).load_textures rs).load_texture r.x r.y r.width r.height p ok
        = ((s0.update (some img)).load_textures rs, [GLCall.glBindTexture tb.tex_object]) := by
  have hl : (s0.update (some img)).m_texbufs.length = s0.m_texbufs.length := by
    simp [update]
  have hno : ∀ r ∈ rs, ∀ tb ∈ (s0.update (some img)).m_texbufs,
      tag_matches r.x r.y r.width r.height tb = false := by
    intro r hr tb htb
    simp only [update, List.mem_map] at htb
    obtain ⟨a, -, rfl⟩ := htb
    have := (hpos r hr).1
    cases hmt : tag_matches r.x r.y r.width r.height { a with width := 0, height := 0 } with
    | false => rfl
    | true =>
      simp only [tag_matches, Bool.and_eq_true, beq_iff_eq] at hmt
      omega
  obtain ⟨hA, -⟩ := load_textures_first_pass rs (s0.update (some img))
    (by rw [hl]; exact hwf) (by rw [hl]; exact hlen) hok hdist hno
  have hfind : ∀ r ∈ rs, ∃ tb,
      ((s0.update (some img)).load_textures rs).m_texbufs.find?
          (tag_matches r.x r.y r.width r.height) = some tb := by
    intro r hr
    obtain ⟨i, hi⟩ := List.mem_iff_getElem?.1 hr
    obtain ⟨tb, h1, h2⟩ := hA i r hi
    cases hf : ((s0.update (some img)).load_textures rs).m_texbufs.find?
        (tag_matches r.x r.y r.width r.height) with
    | some t => exact ⟨t, rfl⟩
    | none =>
      have := List.find?_eq_none.1 hf tb (List.mem_iff_getElem?.2 ⟨_, h1⟩)
      exact absurd h2 this
  constructor
  · apply load_textures_of_all_hit
    intro r hr
    obtain ⟨tb, hf⟩ := hfind r hr
    simp [is_miss, hf]
  · intro r hr p ok
    obtain ⟨tb, hf⟩ := hfind r hr
    exact ⟨tb, List.find?_some hf, load_texture_of_hit _ _ _ _ _ _ _ tb hf⟩

/-- Witness of C24: the sample widget (pool of 4) after `update`, three
distinct tiles. -/
theorem second_pass_only_hits_witness :
    sample_widget.m_last_texbuf_used < sample_widget.m_texbufs.length ∧
    distinct_requests.length ≤ sample_widget.m_texbufs.length ∧
    (∀ r ∈ distinct_requests, 0 < r.width ∧ 0 < r.height) ∧
    distinct_requests.Pairwise
      (fun a b => ¬ (a.x = b.x ∧ a.y = b.y ∧ a.width = b.width ∧ a.height = b.height)) ∧
    (∀ r ∈ distinct_requests,
      (sample_widget.update (some sample_image)).upload_succeeds r.map_ok = true) ∧
    ((sample_widget.update (some sample_image)).load_textures distinct_requests).load_textures
        distinct_requests
      = (sample_widget.update (some sample_image)).load_textures distinct_requests :=
  ⟨by decide, by decide, by decide, by decide, by decide,
    (second_pass_only_hits sample_widget sample_image distinct_requests (by decide)
      (by decide) (by decide) (by decide) (by decide)).1⟩

end IvGL

/-! ## Row-major enumeration and progress fractions: claims C22 and C23 -/

namespace IvGL

theorem ceil_div_toNat_of_nonpos (d tw : Int) (htw : 1 ≤ tw) (hd : d ≤ 0) :
    (⌈((d : Int) : ℚ) / (tw : ℚ)⌉).toNat = 0 := by
  have h1 : ((d : Int) : ℚ) / (tw : ℚ) ≤ ((0 : Int) : ℚ) := by
    have h2 : ((d : Int) : ℚ) ≤ 0 := by exact_mod_cast hd
    have h3 : (0 : ℚ) < (tw : ℚ) := by exact_mod_cast (by omega : (0 : Int) < tw)
    rw [Int.cast_zero]
    exact div_nonpos_of_nonpos_of_nonneg h2 (le_of_lt h3)
  have h4 : ⌈((d : Int) : ℚ) / (tw : ℚ)⌉ ≤ 0 := Int.ceil_le.2 h1
  omega

theorem ceil_div_toNat_of_pos (d tw : Int) (htw : 1 ≤ tw) (hd : 0 < d) :
    (⌈((d : Int) : ℚ) / (tw : ℚ)⌉).toNat
      = (⌈(((d - tw : Int)) : ℚ) / (tw : ℚ)⌉).toNat + 1 := by
  have h3 : (0 : ℚ) < (tw : ℚ) := by exact_mod_cast (by omega : (0 : Int) < tw)
  have h1 : (((d - tw : Int)) : ℚ) / (tw : ℚ) = ((d : Int) : ℚ) / (tw : ℚ) - 1 := by
    push_cast
    field_simp
  have h2 : 1 ≤ ⌈((d : Int) : ℚ) / (tw : ℚ)⌉ := by
    rw [Int.one_le_ceil_iff]
    exact div_pos (by exact_mod_cast hd) h3
  rw [h1, Int.ceil_sub_one]
  omega

theorem paintGL_xloop_enum (xend yend tw th : Int) (adv : ℚ) (ystart : Int) (htw : 1 ≤ tw) :
    ∀ (fuel : Nat) (xstart : Int) (percent : ℚ), (xend - xstart).toNat ≤ fuel →
      ∃ ts, paintGL_xloop xend yend tw th adv ystart fuel xstart percent
            = some (ts, percent + (ts.length : ℚ) * adv) ∧
        ts.length = (⌈((xend - xstart : Int) : ℚ) / (tw : ℚ)⌉).toNat ∧
        ∀ i : Nat, i < ts.length →
          ts[i]? = some (paintGL_draw xend yend tw th (xstart + i * tw) ystart
            (percent + (i : ℚ) * adv)) := by
  intro fuel
  induction fuel with
  | zero =>
    intro xstart percent hfuel
    have hge : ¬ xstart < xend := by omega
    refine ⟨[], by simp [paintGL_xloop, hge], ?_, by simp⟩
    rw [ceil_div_toNat_of_nonpos _ _ htw (by omega)]
    rfl
  | succ fuel ih =>
    intro xstart percent hfuel
    by_cases hlt : xstart < xend
    · obtain ⟨ts, hrun, hlen, hidx⟩ := ih (xstart + tw) (percent + adv) (by omega)
      refine ⟨paintGL_draw xend yend tw th xstart ystart percent :: ts, ?_, ?_, ?_⟩
      · simp only [paintGL_xloop, if_pos hlt, hrun, List.length_cons]
        congr 2
        push_cast
        ring
      · rw [List.length_cons, hlen, ceil_div_toNat_of_pos (xend - xstart) tw htw (by omega)]
        have hsub : xend - xstart - tw = xend - (xstart + tw) := by ring
        rw [hsub]
      · intro i hi
        cases i with
        | zero => simp
        | succ j =>
          rw [List.getElem?_cons_succ, hidx j (by simpa using hi)]
          congr 2
          · push_cast
            ring
          · push_cast
            ring
    · refine ⟨[], by simp [paintGL_xloop, hlt], ?_, by simp⟩
      rw [ceil_div_toNat_of_nonpos _ _ htw (by omega)]
      rfl

theorem paintGL_yloop_enum (xbegin xend yend tw th : Int) (adv : ℚ) (fuel : Nat)
    (htw : 1 ≤ tw) (hth : 1 ≤ th) (hfuel : (xend - xbegin).toNat ≤ fuel) :
    ∀ (rows : Nat) (ystart : Int) (percent : ℚ), (yend - ystart).toNat ≤ rows →
      ∃ ts, paintGL_yloop xbegin xend yend tw th adv fuel rows ystart percent = some ts ∧
        ts.length = (⌈((yend - ystart : Int) : ℚ) / (th : ℚ)⌉).toNat
          * (⌈((xend - xbegin : Int) : ℚ) / (tw : ℚ)⌉).toNat ∧
        ∀ j i : Nat, j < (⌈((yend - ystart : Int) : ℚ) / (th : ℚ)⌉).toNat →
          i < (⌈((xend - xbegin : Int) : ℚ) / (tw : ℚ)⌉).toNat →
          ts[j * (⌈((xend - xbegin : Int) : ℚ) / (tw : ℚ)⌉).toNat + i]?
            = some (paintGL_draw xend yend tw th (xbegin + i * tw) (ystart + j * th)
              (percent + ((j * (⌈((xend - xbegin : Int) : ℚ) / (tw : ℚ)⌉).toNat + i : Nat) : ℚ)
                * adv)) := by
  intro rows
  induction rows with
  | zero =>
    intro ystart percent hrows
    have hge : ¬ ystart < yend := by omega
    have h0 := ceil_div_toNat_of_nonpos (yend - ystart) th hth (by omega)
    refine ⟨[], by simp [paintGL_yloop, hge], ?_, ?_⟩
    · rw [h0]
      simp
    · intro j i hj
      rw [h0] at hj
      omega
  | succ rows ih =>
    intro ystart percent hrows
    by_cases hlt : ystart < yend
    · obtain ⟨row, hrow, hrlen, hridx⟩ :=
        paintGL_xloop_enum xend yend tw th adv ystart htw fuel xbegin percent hfuel
      obtain ⟨rest, hrest, hslen, hsidx⟩ :=
        ih (ystart + th) (percent + (row.length : ℚ) * adv) (by omega)
      have hrec := ceil_div_toNat_of_pos (yend - ystart) th hth (by omega)
      have hsub : yend - ystart - th = yend - (ystart + th) := by ring
      rw [hsub] at hrec
      refine ⟨row ++ rest, by simp [paintGL_yloop, hlt, hrow, hrest], ?_, ?_⟩
      · rw [List.length_append, hslen, hrec, ← hrlen]
        ring
      · intro j i hj hi
        rw [← hrlen] at hi ⊢
        cases j with
        | zero =>
          rw [Nat.zero_mul, Nat.zero_add, List.getElem?_append_left hi, hridx i hi]
          congr 2
          · push_cast
            ring
        | succ j' =>
          have hj' : j' < (⌈((yend - (ystart + th) : Int) : ℚ) / (th : ℚ)⌉).toNat := by omega
          have hk : (j' + 1) * row.length + i = row.length + (j' * row.length + i) := by ring
          rw [hk, List.getElem?_append_right (by omega), Nat.add_sub_cancel_left]
          have := hsidx j' i hj' (by rw [← hrlen]; exact hi)
          rw [← hrlen] at this
          rw [this]
          congr 2
          · push_cast
            ring
          · push_cast
            ring
    · have h0 := ceil_div_toNat_of_nonpos (yend - ystart) th hth (by omega)
      refine ⟨[], by simp [paintGL_yloop, hlt], ?_, ?_⟩
      · rw [h0]
        simp
      · intro j i hj
        rw [h0] at hj
        omega

theorem paintGL_xloop_order (xend yend tw th : Int) (adv : ℚ) (ystart : Int) (htw : 1 ≤ tw) :
    ∀ (fuel : Nat) (xstart : Int) (percent : ℚ) (ts : List TileDraw) (p : ℚ),
      paintGL_xloop xend yend tw th adv ystart fuel xstart percent = some (ts, p) →
      (∀ t ∈ ts, xstart ≤ t.xstart ∧ t.ystart = ystart) ∧
        ts.Pairwise (fun a b => a.xstart < b.xstart) := by
  intro fuel
  induction fuel with
  | zero =>
    intro xstart percent ts p hrun
    by_cases hlt : xstart < xend
    · simp [paintGL_xloop, hlt] at hrun
    · simp [paintGL_xloop, hlt] at hrun
      rw [hrun.1]
      exact ⟨by simp, List.Pairwise.nil⟩
  | succ fuel ih =>
    intro xstart percent ts p hrun
    by_cases hlt : xstart < xend
    · simp only [paintGL_xloop, if_pos hlt] at hrun
      cases hrec : paintGL_xloop xend yend tw th adv ystart fuel (xstart + tw)
          (percent + adv) with
      | none => simp [hrec] at hrun
      | some res =>
        obtain ⟨ts', p'⟩ := res
        simp only [hrec, Option.some.injEq, Prod.mk.injEq] at hrun
        obtain ⟨hall, hpair⟩ := ih (xstart + tw) (percent + adv) ts' p' hrec
        rw [← hrun.1]
        constructor
        · intro t ht
          rcases List.mem_cons.1 ht with rfl | ht
          · exact ⟨le_refl _, rfl⟩
          · have := hall t ht
            exact ⟨by omega, this.2⟩
        · refine List.Pairwise.cons ?_ hpair
          intro b hb
          have := (hall b hb).1
          show xstart < b.xstart
          omega
    · simp [paintGL_xloop, hlt] at hrun
      rw [hrun.1]
      exact ⟨by simp, List.Pairwise.nil⟩

theorem paintGL_yloop_order (xbegin xend yend tw th : Int) (adv : ℚ) (fuel : Nat)
    (htw : 1 ≤ tw) (hth : 1 ≤ th) :
    ∀ (rows : Nat) (ystart : Int) (percent : ℚ) (ts : List TileDraw),
      paintGL_yloop xbegin xend yend tw th adv fuel rows ystart percent = some ts →
      (∀ t ∈ ts, ystart ≤ t.ystart) ∧
        ts.Pairwise (fun a b =>
          a.ystart < b.ystart ∨ (a.ystart = b.ystart ∧ a.xstart < b.xstart)) := by
  intro rows
  induction rows with
  | zero =>
    intro ystart percent ts hrun
    by_cases hlt : ystart < yend
    · simp [paintGL_yloop, hlt] at hrun
    · simp [paintGL_yloop, hlt] at hrun
      rw [hrun]
      exact ⟨by simp, List.Pairwise.nil⟩
  | succ rows ih =>
    intro ystart percent ts hrun
    by_cases hlt : ystart < yend
    · simp only [paintGL_yloop, if_pos hlt] at hrun
      cases hrow : paintGL_xloop xend yend tw th adv ystart fuel xbegin percent with
      | none => simp [hrow] at hrun
      | some res =>
        obtain ⟨row, p⟩ := res
        simp only [hrow] at hrun
        cases hrest : paintGL_yloop xbegin xend yend tw th adv fuel rows (ystart + th) p with
        | none => simp [hrest] at hrun
        | some rest =>
          simp only [hrest, Option.some.injEq] at hrun
          obtain ⟨hrall, hrpair⟩ :=
            paintGL_xloop_order xend yend tw th adv ystart htw fuel xbegin percent row p hrow
          obtain ⟨hsall, hspair⟩ := ih (ystart + th) p rest hrest
          rw [← hrun]
          constructor
          · intro t ht
            rcases List.mem_append.1 ht with ht | ht
            · exact le_of_eq (hrall t ht).2.symm
            · have := hsall t ht
              omega
          · rw [List.pairwise_append]
            refine ⟨?_, hspair, ?_⟩
            · refine List.Pairwise.imp_of_mem ?_ hrpair
              intro a b ha hb hab
              exact Or.inr ⟨by rw [(hrall a ha).2, (hrall b hb).2], hab⟩
            · intro a ha b hb
              have h1 := (hrall a ha).2
              have h2 := hsall b hb
              exact Or.inl (by omega)
    · simp [paintGL_yloop, hlt] at hrun
      rw [hrun]
      exact ⟨by simp, List.Pairwise.nil⟩

theorem paintGL_tiles_congr (s t : IvGL) (img img2 : IvImage) (fuel : Nat)
    (hcur : s.m_current_image = some img) (hcur2 : t.m_current_image = some img2)
    (hv : img2.image_valid = img.image_valid) (ho : img2.orientation = img.orientation)
    (hx : img2.spec.x = img.spec.x) (hy : img2.spec.y = img.spec.y)
    (hw : img2.spec.width = img.spec.width) (hh : img2.spec.height = img.spec.height)
    (hz : t.m_zoom = s.m_zoom) (hcx : t.m_centerx = s.m_centerx)
    (hcy : t.m_centery = s.m_centery) (hvw : t.width = s.width) (hvh : t.height = s.height)
    (htw : t.m_texture_width = s.m_texture_width)
    (hth : t.m_texture_height = s.m_texture_height) :
    t.paintGL_tiles fuel = s.paintGL_tiles fuel := by
  simp only [paintGL_tiles, paintGL_range, paintGL_window, paintGL_wincenter,
    paintGL_real_center, paintGL_total_tiles, hcur, hcur2, hv, ho, hx, hy, hw, hh, hz, hcx,
    hcy, hvw, hvh, htw, hth]

theorem float_to_int_intCast (z : Int) : float_to_int ((z : Int) : ℚ) = z := by
  unfold float_to_int
  split_ifs
  · exact Int.floor_intCast z
  · exact Int.ceil_intCast z

theorem paintGL_total_tiles_eq (s : IvGL) (r : TileRange)
    (htw : 1 ≤ s.m_texture_width) (hth : 1 ≤ s.m_texture_height)
    (hx : r.xbegin < r.xend) (hy : r.ybegin < r.yend) :
    s.paintGL_total_tiles r
      = (((⌈((r.yend - r.ybegin : Int) : ℚ) / (s.m_texture_height : ℚ)⌉).toNat
          * (⌈((r.xend - r.xbegin : Int) : ℚ) / (s.m_texture_width : ℚ)⌉).toNat : Nat) : Int) ∧
    0 < (⌈((r.yend - r.ybegin : Int) : ℚ) / (s.m_texture_height : ℚ)⌉).toNat
          * (⌈((r.xend - r.xbegin : Int) : ℚ) / (s.m_texture_width : ℚ)⌉).toNat := by
  have h1 : 1 ≤ ⌈((r.xend - r.xbegin : Int) : ℚ) / (s.m_texture_width : ℚ)⌉ := by
    rw [Int.one_le_ceil_iff]
    exact div_pos (by exact_mod_cast (by omega : (0 : Int) < r.xend - r.xbegin))
      (by exact_mod_cast (by omega : (0 : Int) < s.m_texture_width))
  have h2 : 1 ≤ ⌈((r.yend - r.ybegin : Int) : ℚ) / (s.m_texture_height : ℚ)⌉ := by
    rw [Int.one_le_ceil_iff]
    exact div_pos (by exact_mod_cast (by omega : (0 : Int) < r.yend - r.ybegin))
      (by exact_mod_cast (by omega : (0 : Int) < s.m_texture_height))
  constructor
  · unfold paintGL_total_tiles
    rw [← Int.cast_mul, float_to_int_intCast]
    rw [Nat.cast_mul, Int.toNat_of_nonneg (by omega), Int.toNat_of_nonneg (by omega)]
    ring
  · exact Nat.mul_pos (by omega) (by omega)

theorem load_texture_setValue (s : IvGL) (x y width height : Int) (percent : ℚ)
    (map_ok : Bool) (v : Int)
    (h : GLCall.setValue v ∈ (s.load_texture x y width height percent map_ok).2) :
    v = float_to_int (percent * 100) := by
  unfold load_texture at h
  cases hf : s.m_texbufs.find? (tag_matches x y width height) with
  | some tb => simp [hf] at h
  | none =>
    simp only [hf] at h
    split_ifs at h <;> simpa using h

theorem progress_value_bounds (k n : Nat) (hk : k < n) :
    0 ≤ float_to_int ((((k : ℚ) + 1) / (n : ℚ)) * 100) ∧
    float_to_int ((((k : ℚ) + 1) / (n : ℚ)) * 100) ≤ 100 ∧
    (k + 1 = n → float_to_int ((((k : ℚ) + 1) / (n : ℚ)) * 100) = 100) := by
  have hn : (0 : ℚ) < (n : ℚ) := by exact_mod_cast (by omega : 0 < n)
  have hk1 : ((k : ℚ) + 1) ≤ (n : ℚ) := by exact_mod_cast (by omega : k + 1 ≤ n)
  have h0 : (0 : ℚ) ≤ (((k : ℚ) + 1) / (n : ℚ)) * 100 := by positivity
  have h1 : (((k : ℚ) + 1) / (n : ℚ)) * 100 ≤ ((100 : Int) : ℚ) := by
    have : ((k : ℚ) + 1) / (n : ℚ) ≤ 1 := (div_le_one hn).2 hk1
    push_cast
    linarith
  unfold float_to_int
  rw [if_pos h0]
  refine ⟨Int.floor_nonneg.2 h0, ?_, ?_⟩
  · exact_mod_cast le_trans (Int.floor_le _) h1
  · intro he
    have : ((k : ℚ) + 1) = (n : ℚ) := by exact_mod_cast he
    rw [this, div_self (ne_of_gt hn), one_mul]
    exact Int.floor_eq_iff.2 ⟨by norm_num, by norm_num⟩

theorem grid_index (k nr nc : Nat) (hk : k < nr * nc) :
    k / nc < nr ∧ k % nc < nc ∧ k / nc * nc + k % nc = k := by
  have hnc : 0 < nc := by
    rcases Nat.eq_zero_or_pos nc with h | h
    · rw [h, Nat.mul_zero] at hk
      omega
    · exact h
  exact ⟨Nat.div_lt_of_lt_mul (by rw [Nat.mul_comm]; exact hk), Nat.mod_lt _ hnc,
    Nat.div_add_mod' k nc⟩

theorem list_eq_of_grid (a b : List TileDraw) (nr nc : Nat) (f : Nat → Nat → TileDraw)
    (ha : a.length = nr * nc) (hb : b.length = nr * nc)
    (hai : ∀ j i : Nat, j < nr → i < nc → a[j * nc + i]? = some (f j i))
    (hbi : ∀ j i : Nat, j < nr → i < nc → b[j * nc + i]? = some (f j i)) : a = b := by
  apply List.ext_getElem?
  intro k
  by_cases hk : k < nr * nc
  · obtain ⟨hj, hi, hkk⟩ := grid_index k nr nc hk
    have h1 := hai _ _ hj hi
    have h2 := hbi _ _ hj hi
    rw [hkk] at h1 h2
    rw [h1, h2]
  · rw [List.getElem?_eq_none (by omega), List.getElem?_eq_none (by omega)]

theorem paintGL_tiles_enum (s : IvGL) (img : IvImage)
    (hcur : s.m_current_image = some img) (hvalid : img.image_valid = true)
    (htw : 1 ≤ s.m_texture_width) (hth : 1 ≤ s.m_texture_height)
    (hx : (s.paintGL_range img).xbegin < (s.paintGL_range img).xend)
    (hy : (s.paintGL_range img).ybegin < (s.paintGL_range img).yend) :
    ∃ (ts : List TileDraw) (nr nc : Nat),
      (∀ fuel : Nat,
        ((s.paintGL_range img).xend - (s.paintGL_range img).xbegin).toNat ≤ fuel →
        ((s.paintGL_range img).yend - (s.paintGL_range img).ybegin).toNat ≤ fuel →
        s.paintGL_tiles fuel = some ts) ∧
      0 < nr ∧ 0 < nc ∧ ts.length = nr * nc ∧
      s.paintGL_total_tiles (s.paintGL_range img) = ((nr * nc : Nat) : Int) ∧
      ∀ j i : Nat, j < nr → i < nc →
        ts[j * nc + i]? = some (paintGL_draw (s.paintGL_range img).xend
          (s.paintGL_range img).yend s.m_texture_width s.m_texture_height
          ((s.paintGL_range img).xbegin + i * s.m_texture_width)
          ((s.paintGL_range img).ybegin + j * s.m_texture_height)
          ((((j * nc + i : Nat) : ℚ) + 1) / ((nr * nc : Nat) : ℚ))) := by
  obtain ⟨htot, hpos⟩ := paintGL_total_tiles_eq s (s.paintGL_range img) htw hth hx hy
  have hrun : ∀ fuel : Nat,
      ((s.paintGL_range img).xend - (s.paintGL_range img).xbegin).toNat ≤ fuel →
      ((s.paintGL_range img).yend - (s.paintGL_range img).ybegin).toNat ≤ fuel →
      ∃ ts, s.paintGL_tiles fuel = some ts ∧
        ts.length = (⌈(((s.paintGL_range img).yend - (s.paintGL_range img).ybegin : Int) : ℚ)
            / (s.m_texture_height : ℚ)⌉).toNat
          * (⌈(((s.paintGL_range img).xend - (s.paintGL_range img).xbegin : Int) : ℚ)
            / (s.m_texture_width : ℚ)⌉).toNat ∧
        ∀ j i : Nat,
          j < (⌈(((s.paintGL_range img).yend - (s.paintGL_range img).ybegin : Int) : ℚ)
            / (s.m_texture_height : ℚ)⌉).toNat →
          i < (⌈(((s.paintGL_range img).xend - (s.paintGL_range img).xbegin : Int) : ℚ)
            / (s.m_texture_width : ℚ)⌉).toNat →
          ts[j * (⌈(((s.paintGL_range img).xend - (s.paintGL_range img).xbegin : Int) : ℚ)
            / (s.m_texture_width : ℚ)⌉).toNat + i]?
            = some (paintGL_draw (s.paintGL_range img).xend
              (s.paintGL_range img).yend s.m_texture_width s.m_texture_height
              ((s.paintGL_range img).xbegin + i * s.m_texture_width)
              ((s.paintGL_range img).ybegin + j * s.m_texture_height)
              ((((j * (⌈(((s.paintGL_range img).xend - (s.paintGL_range img).xbegin : Int) : ℚ)
                  / (s.m_texture_width : ℚ)⌉).toNat + i : Nat) : ℚ) + 1)
                / (((⌈(((s.paintGL_range img).yend - (s.paintGL_range img).ybegin : Int) : ℚ)
                    / (s.m_texture_height : ℚ)⌉).toNat
                  * (⌈(((s.paintGL_range img).xend - (s.paintGL_range img).xbegin : Int) : ℚ)
                    / (s.m_texture_width : ℚ)⌉).toNat : Nat) : ℚ))) := by
    intro fuel hfx hfy
    obtain ⟨ts, hts, hlen, hidx⟩ :=
      paintGL_yloop_enum (s.paintGL_range img).xbegin (s.paintGL_range img).xend
        (s.paintGL_range img).yend s.m_texture_width s.m_texture_height
        (1 / ((s.paintGL_total_tiles (s.paintGL_range img) : Int) : ℚ)) fuel htw hth hfx fuel
        (s.paintGL_range img).ybegin
        (1 / ((s.paintGL_total_tiles (s.paintGL_range img) : Int) : ℚ)) hfy
    refine ⟨ts, ?_, hlen, ?_⟩
    · simp only [paintGL_tiles, hcur, hvalid]
      exact hts
    · intro j i hj hi
      rw [hidx j i hj hi, htot]
      congr 2
      rw [Int.cast_natCast]
      ring
  obtain ⟨ts, hts, hlen, hidx⟩ := hrun
    (max ((s.paintGL_range img).xend - (s.paintGL_range img).xbegin).toNat
      ((s.paintGL_range img).yend - (s.paintGL_range img).ybegin).toNat)
    (le_max_left _ _) (le_max_right _ _)
  refine ⟨ts, _, _, ?_, Nat.pos_of_mul_pos_right hpos, Nat.pos_of_mul_pos_left hpos, hlen,
    htot, hidx⟩
  intro fuel hfx hfy
  obtain ⟨ts2, hts2, hlen2, hidx2⟩ := hrun fuel hfx hfy
  rw [hts2]
  exact congrArg some (list_eq_of_grid ts2 ts _ _ _ hlen2 hlen hidx2 hidx)

/-- C22: for a valid current image, tile sizes of at least 1 and a non-empty
range, the tile loop of `paintGL` terminates, with one and the same sequence
`ts` for every fuel that reaches the width and the height of the range. The
sequence is a grid of `nr` rows of `nc` tiles in row-major order: the tile
of row `j` and column `i` is at position `j * nc + i` and starts at
`(xbegin + i * m_texture_width, ybegin + j * m_texture_height)`, so the
origins are strictly increasing by `ystart`, then by `xstart`. The tiles are
pairwise disjoint and cover exactly the pixels of the range. The sequence is
the same for every widget state that agrees on zoom, centre, viewport size
and tile size and whose current image agrees on validity, orientation and
the bounds `x`, `y`, `width`, `height`. -/
theorem paintGL_tiles_row_major (s : IvGL) (img : IvImage)
    (hcur : s.m_current_image = some img) (hvalid : img.image_valid = true)
    (htw : 1 ≤ s.m_texture_width) (hth : 1 ≤ s.m_texture_height)
    (hx : (s.paintGL_range img).xbegin < (s.paintGL_range img).xend)
    (hy : (s.paintGL_range img).ybegin < (s.paintGL_range img).yend) :
    ∃ (ts : List TileDraw) (nr nc : Nat),
      (∀ fuel : Nat,
        ((s.paintGL_range img).xend - (s.paintGL_range img).xbegin).toNat ≤ fuel →
        ((s.paintGL_range img).yend - (s.paintGL_range img).ybegin).toNat ≤ fuel →
        s.paintGL_tiles fuel = some ts) ∧
      ts.length = nr * nc ∧ 0 < ts.length ∧
      (∀ j i : Nat, j < nr → i < nc → ∃ t : TileDraw, ts[j * nc + i]? = some t ∧
        t.xstart = (s.paintGL_range img).xbegin + i * s.m_texture_width ∧
        t.ystart = (s.paintGL_range img).ybegin + j * s.m_texture_height) ∧
      ts.Pairwise (fun a b =>
        a.ystart < b.ystart ∨ (a.ystart = b.ystart ∧ a.xstart < b.xstart)) ∧
      ts.Pairwise TileDraw_disjoint ∧
      (∀ px py : Int, (∃ t ∈ ts, t.covers px py) ↔ (s.paintGL_range img).contains px py) ∧
      (∀ (s2 : IvGL) (img2 : IvImage) (fuel : Nat),
        s2.m_current_image = some img2 → img2.image_valid = img.image_valid →
        img2.orientation = img.orientation →
        img2.spec.x = img.spec.x → img2.spec.y = img.spec.y →
        img2.spec.width = img.spec.width → img2.spec.height = img.spec.height →
        s2.m_zoom = s.m_zoom → s2.m_centerx = s.m_centerx → s2.m_centery = s.m_centery →
        s2.width = s.width → s2.height = s.height →
        s2.m_texture_width = s.m_texture_width →
        s2.m_texture_height = s.m_texture_height →
        s2.paintGL_tiles fuel = s.paintGL_tiles fuel) := by
  obtain ⟨ts, nr, nc, hrun, hnr, hnc, hlen, -, hidx⟩ :=
    paintGL_tiles_enum s img hcur hvalid htw hth hx hy
  have hmax := hrun
    (max ((s.paintGL_range img).xend - (s.paintGL_range img).xbegin).toNat
      ((s.paintGL_range img).yend - (s.paintGL_range img).ybegin).toNat)
    (le_max_left _ _) (le_max_right _ _)
  obtain ⟨ts2, hts2, hcov, hdisj⟩ := paintGL_tiles_spec s img _ hcur hvalid htw hth
    (le_max_left ((s.paintGL_range img).xend - (s.paintGL_range img).xbegin).toNat
      ((s.paintGL_range img).yend - (s.paintGL_range img).ybegin).toNat)
    (le_max_right _ _)
  have h2 : ts2 = ts := Option.some.inj (hts2.symm.trans hmax)
  rw [h2] at hcov hdisj
  have hord := hmax
  simp only [paintGL_tiles, hcur, hvalid] at hord
  refine ⟨ts, nr, nc, hrun, hlen, by rw [hlen]; exact Nat.mul_pos hnr hnc, ?_,
    (paintGL_yloop_order _ _ _ _ _ _ _ htw hth _ _ _ ts hord).2, hdisj, hcov, ?_⟩
  · intro j i hj hi
    exact ⟨_, hidx j i hj hi, rfl, rfl⟩
  · intro s2 img2 fuel hcur2 hv ho h1 h2 h3 h4 h5 h6 h7 h8 h9 h10 h11
    exact paintGL_tiles_congr s s2 img img2 fuel hcur hcur2 hv ho h1 h2 h3 h4 h5 h6 h7 h8 h9
      h10 h11

/-- Witness of C22: the wide view of the sample image (range
`[0, 5000) × [0, 3000)`, tiles of 2048). -/
theorem paintGL_tiles_row_major_witness :
    wide_view.m_current_image = some sample_image ∧ sample_image.image_valid = true ∧
    1 ≤ wide_view.m_texture_width ∧ 1 ≤ wide_view.m_texture_height ∧
    (wide_view.paintGL_range sample_image).xbegin < (wide_view.paintGL_range sample_image).xend ∧
    (wide_view.paintGL_range sample_image).ybegin < (wide_view.paintGL_range sample_image).yend ∧
    ∃ (ts : List TileDraw) (nr nc : Nat),
      (∀ fuel : Nat, 5000 ≤ fuel → wide_view.paintGL_tiles fuel = some ts) ∧
      ts.length = nr * nc ∧ 0 < ts.length ∧
      ts.Pairwise (fun a b =>
        a.ystart < b.ystart ∨ (a.ystart = b.ystart ∧ a.xstart < b.xstart)) ∧
      ts.Pairwise TileDraw_disjoint := by
  have hxw : (wide_view.paintGL_range sample_image).xbegin
      < (wide_view.paintGL_range sample_image).xend := by
    rw [wide_view_range]
    decide
  have hyw : (wide_view.paintGL_range sample_image).ybegin
      < (wide_view.paintGL_range sample_image).yend := by
    rw [wide_view_range]
    decide
  obtain ⟨ts, nr, nc, hrun, hlen, hpos, -, hord, hdisj, -, -⟩ :=
    paintGL_tiles_row_major wide_view sample_image rfl rfl (by decide) (by decide) hxw hyw
  refine ⟨rfl, rfl, by decide, by decide, hxw, hyw, ts, nr, nc, ?_, hlen, hpos, hord, hdisj⟩
  intro fuel hfuel
  apply hrun fuel
  · rw [wide_view_range]
    simp only [sub_zero, Int.toNat_ofNat]
    exact hfuel
  · rw [wide_view_range]
    simp only [sub_zero, Int.toNat_ofNat]
    omega

/-- C23: for a valid current image, tile sizes of at least 1 and a non-empty
range, the loop of `paintGL` enumerates one sequence `ts` for every
sufficient fuel, `total_tiles` equals its length `N > 0`, and the tile at
position `k` (0-based, so the `k+1`-th tile) is handed the fraction
`(k + 1) / N`. The value `(int)(percent*100)` for it lies in 0..100 and is
100 for the last tile, and every `setValue` call that `load_texture` makes
for that tile, from any pool state, carries exactly this value. -/
theorem paintGL_progress_fractions (s : IvGL) (img : IvImage)
    (hcur : s.m_current_image = some img) (hvalid : img.image_valid = true)
    (htw : 1 ≤ s.m_texture_width) (hth : 1 ≤ s.m_texture_height)
    (hx : (s.paintGL_range img).xbegin < (s.paintGL_range img).xend)
    (hy : (s.paintGL_range img).ybegin < (s.paintGL_range img).yend) :
    ∃ ts : List TileDraw,
      (∀ fuel : Nat,
        ((s.paintGL_range img).xend - (s.paintGL_range img).xbegin).toNat ≤ fuel →
        ((s.paintGL_range img).yend - (s.paintGL_range img).ybegin).toNat ≤ fuel →
        s.paintGL_tiles fuel = some ts) ∧
      s.paintGL_total_tiles (s.paintGL_range img) = (ts.length : Int) ∧
      0 < ts.length ∧
      ∀ (k : Nat) (t : TileDraw), ts[k]? = some t →
        t.percent = ((k : ℚ) + 1) / (ts.length : ℚ) ∧
        0 ≤ float_to_int (t.percent * 100) ∧ float_to_int (t.percent * 100) ≤ 100 ∧
        (k + 1 = ts.length → float_to_int (t.percent * 100) = 100) ∧
        ∀ (p : IvGL) (map_ok : Bool) (v : Int),
          GLCall.setValue v ∈
            (p.load_texture t.xstart t.ystart t.tile_width t.tile_height t.percent map_ok).2 →
          v = float_to_int (t.percent * 100) := by
  obtain ⟨ts, nr, nc, hrun, hnr, hnc, hlen, htot, hidx⟩ :=
    paintGL_tiles_enum s img hcur hvalid htw hth hx hy
  refine ⟨ts, hrun, by rw [htot, hlen], by rw [hlen]; exact Nat.mul_pos hnr hnc, ?_⟩
  intro k t hk
  have hklen : k < ts.length := by
    rcases Nat.lt_or_ge k ts.length with h | h
    · exact h
    · rw [List.getElem?_eq_none h] at hk
      exact absurd hk (by simp)
  obtain ⟨hj, hi, hkk⟩ := grid_index k nr nc (by rw [← hlen]; exact hklen)
  have hdraw := hidx _ _ hj hi
  rw [hkk, hk, Option.some.injEq, ← hlen] at hdraw
  have hp : t.percent = ((k : ℚ) + 1) / (ts.length : ℚ) := by
    rw [hdraw]
    rfl
  have hb := progress_value_bounds k ts.length hklen
  rw [← hp] at hb
  exact ⟨hp, hb.1, hb.2.1, hb.2.2, fun p map_ok v hv => load_texture_setValue p _ _ _ _ _ _ v hv⟩

/-- Witness of C23: the wide view of the sample image, six tiles. -/
theorem paintGL_progress_fractions_witness :
    wide_view.m_current_image = some sample_image ∧ sample_image.image_valid = true ∧
    1 ≤ wide_view.m_texture_width ∧ 1 ≤ wide_view.m_texture_height ∧
    (wide_view.paintGL_range sample_image).xbegin < (wide_view.paintGL_range sample_image).xend ∧
    (wide_view.paintGL_range sample_image).ybegin < (wide_view.paintGL_range sample_image).yend ∧
    ∃ ts : List TileDraw,
      (∀ fuel : Nat, 5000 ≤ fuel → wide_view.paintGL_tiles fuel = some ts) ∧
      wide_view.paintGL_total_tiles (wide_view.paintGL_range sample_image) = (ts.length : Int) ∧
      ∀ (k : Nat) (t : TileDraw), ts[k]? = some t →
        t.percent = ((k : ℚ) + 1) / (ts.length : ℚ) := by
  have hxw : (wide_view.paintGL_range sample_image).xbegin
      < (wide_view.paintGL_range sample_image).xend := by
    rw [wide_view_range]
    decide
  have hyw : (wide_view.paintGL_range sample_image).ybegin
      < (wide_view.paintGL_range sample_image).yend := by
    rw [wide_view_range]
    decide
  obtain ⟨ts, hrun, htot, -, hk⟩ :=
    paintGL_progress_fractions wide_view sample_image rfl rfl (by decide) (by decide) hxw hyw
  refine ⟨rfl, rfl, by decide, by decide, hxw, hyw, ts, ?_, htot, fun k t h => (hk k t h).1⟩
  intro fuel hfuel
  apply hrun fuel
  · rw [wide_view_range]
    simp only [sub_zero, Int.toNat_ofNat]
    exact hfuel
  · rw [wide_view_range]
    simp only [sub_zero, Int.toNat_ofNat]
    omega

end IvGL
